import Mathlib

/-!
# cpp-aio: buffered non-blocking streams and the readiness poller

A shallow embedding of `src/io/pipebuf.cpp`, `src/io/sockbuf.cpp`,
`src/io/poller.cpp`, `src/io/sockstream.cpp` and the templates of
`src/io/io.hpp`.

Conventions of the embedding

* A `char` is a natural number; a `std::vector<char>` is a `List Byte`.
* The pointers of `std::streambuf` are offsets from the start of the window
  they point into (`eback()` for the get area, `pbase()` for the put area),
  together with a marker telling whether the area is null.  The put cursor is
  an integer offset: `pbump` takes an `int`, and the conversion of a larger
  `size_t` to `int` can move the cursor below `pbase()`.
* The operating system is a `Kernel`: the answers it will give to the coming
  `write`/`sendmsg`, `read`/`recvmsg` and `poll` calls (three scripts), the log
  of the calls issued so far and the bytes it has accepted so far.  A call
  whose script is used up while it is still looping ends as `pending`.
* `size_t` subtraction that can wrap is written with an explicit `% 2 ^ 64`.
-/

namespace io

/-- A `char`. -/
abbrev Byte := Nat

/-- Value of `errno` after an interrupted call. -/
def EINTR : Nat := 4
/-- Value of `errno` after a call that would block. -/
def EAGAIN : Nat := 11
/-- Same value as `EAGAIN` on Linux. -/
def EWOULDBLOCK : Nat := 11
/-- Value of `errno`: input/output error (an example of a fatal error). -/
def EIO : Nat := 5
/-- Value of `errno`: broken pipe. -/
def EPIPE : Nat := 32
/-- Value of `errno`: socket is already connected. -/
def EISCONN : Nat := 106
/-- Value of `errno`: socket is not connected. -/
def ENOTCONN : Nat := 107

/-- Event bit of `poll`: data to read. -/
def POLLIN : Nat := 1
/-- Event bit of `poll`: writing will not block. -/
def POLLOUT : Nat := 4
/-- Event bit of `poll`: error condition. -/
def POLLERR : Nat := 8
/-- Event bit of `poll`: hang up. -/
def POLLHUP : Nat := 16

/-- Largest `size_t`. -/
def SIZE_MAX : Nat := 2 ^ 64 - 1

/-- The `size_t` expression `n - 1`, which wraps to `SIZE_MAX` at `n = 0`. -/
def size_t_pred (n : Nat) : Nat := (n + SIZE_MAX) % 2 ^ 64

/-- The value `traits::eof()`. -/
def eof : Int := -1

/-- The conversion `traits::to_int_type` of a `char` read as unsigned. -/
def to_int_type (c : Byte) : Int := ((c % 256 : Nat) : Int)

/-- The two bits of `std::ios_base::openmode` the buffers test. -/
structure openmode where
  in_ : Bool
  out : Bool
deriving DecidableEq, Repr

/-- Answer of the kernel to one `write` or `sendmsg`: it accepts at most `room`
bytes of what is offered, or fails with `errno`. -/
inductive WRes where
  | accept (room : Nat)
  | fail (errno : Nat)
deriving DecidableEq, Repr

/-- Answer of the kernel to one `read` or `recvmsg`: the bytes it has ready (it
delivers as many of them as fit the request; none ready is a zero-length
read), or a failure with `errno`. -/
inductive RRes where
  | deliver (data : List Byte)
  | fail (errno : Nat)
deriving DecidableEq, Repr

/-- Answer of the kernel to one `poll`: its return value and the `revents` of
the single descriptor polled. -/
structure PRes where
  ret : Int
  errno : Nat
  revents : Nat
deriving DecidableEq, Repr

/-- A system call as the kernel sees it. -/
inductive SysCall where
  | write (fd : Int) (offered : List Byte)
  | read (fd : Int) (size : Nat)
  | sendmsg (fd : Int) (offered : List Byte) (control : Bool)
  | recvmsg (fd : Int) (size : Nat)
  | poll (fd : Int) (events : Nat)
  | close (fd : Int)
deriving DecidableEq, Repr

/-- Whether a system call is a `read` or a `recvmsg`. -/
def SysCall.is_read : SysCall → Bool
  | .read _ _ => true
  | .recvmsg _ _ => true
  | _ => false

/-- The operating system: scripts of coming answers, the log of calls issued
(oldest first) and the bytes accepted by `write`/`sendmsg` (oldest first). -/
structure Kernel where
  writes : List WRes
  reads : List RRes
  polls : List PRes
  calls : List SysCall
  sent : List Byte
deriving DecidableEq, Repr

/-- How a call ends. -/
inductive Outcome where
  /-- The call returned the value `v`. -/
  | ret (v : Int)
  /-- The script of the kernel ran out while the call was still looping. -/
  | pending
  /-- The call threw `std::runtime_error`. -/
  | throws
deriving DecidableEq, Repr

/-- The conversion of a pointer difference to `size_t`. -/
def size_t_of_int (i : Int) : Nat := (i % 2 ^ 64).toNat

/-- The conversion of an integer value to `int`, as it happens to the `size_t`
or pointer-difference argument of `std::streambuf::pbump(int)`: the value is
taken modulo `2 ^ 32`, and a residue from `2 ^ 31` on stands for the negative
number `2 ^ 32` below it. -/
def to_int (i : Int) : Int :=
  let r : Nat := (i % 2 ^ 32).toNat
  if r < 2 ^ 31 then (r : Int) else (r : Int) - 2 ^ 32

/-- Number of bytes the kernel takes from an offer of `size` bytes. -/
def WRes.len (r : WRes) (size : Nat) : Nat :=
  match r with
  | .accept room => min room size
  | .fail _ => 0

/-- The library call `memmove(mem + dst, mem + src, n)` inside one allocation. -/
def memmove (mem : List Byte) (dst src n : Nat) : List Byte :=
  mem.take dst ++ ((mem.drop src).take n ++ mem.drop (dst + n))

/-- The library call `memcpy(mem + dst, mem + src, n)`; its result is specified
only for ranges that do not overlap, where it is that of `memmove`. -/
def memcpy (mem : List Byte) (dst src n : Nat) : List Byte :=
  memmove mem dst src n

/-- The call `v.resize(n)` of a `std::vector<char>`: keeps the first `n`
elements and fills with zero. -/
def resize (v : List Byte) (n : Nat) : List Byte :=
  v.take n ++ List.replicate (n - v.length) 0

/-- Store the bytes `data` into `mem` from offset `at_` on. -/
def store (mem : List Byte) (at_ : Nat) (data : List Byte) : List Byte :=
  mem.take at_ ++ (data ++ mem.drop (at_ + data.length))

namespace buffers

/-! ## pipebuf -/

/-- State of a `pipebuf`: its members and the six pointers of the
`std::streambuf` base, the get pointers as offsets from `_read.data()` and the
put pointers as offsets from `_write.data()`; the put cursor `pptr` is an
integer, because `pbump` can move it below `pbase()`. -/
structure pipebuf where
  _which : openmode
  _read : List Byte
  _write : List Byte
  _pipe : Int × Int
  BUFSIZE : Nat
  eback_null : Bool
  gptr : Nat
  egptr : Nat
  pbase_null : Bool
  pptr : Int
  epptr : Nat
deriving DecidableEq, Repr

namespace pipebuf

/-- The constant `pipebuf::DEFAULT_BUFSIZE`. -/
def DEFAULT_BUFSIZE : Nat := 4096

/-- The bytes of the put area `[pbase, pptr)`. -/
def pending (s : pipebuf) : List Byte := s._write.take s.pptr.toNat

/-- The bytes of the get area `[gptr, egptr)`. -/
def unread (s : pipebuf) : List Byte := (s._read.take s.egptr).drop s.gptr

/-- State after `pipebuf(which)` when `pipe()` handed out the descriptors
`rfd` and `wfd`. -/
def mk_open (which : openmode) (rfd wfd : Int) : pipebuf :=
  { _which := which
    _read := if which.in_ then resize [] DEFAULT_BUFSIZE else []
    _write := if which.out then resize [] DEFAULT_BUFSIZE else []
    _pipe := (rfd, wfd)
    BUFSIZE := DEFAULT_BUFSIZE
    eback_null := !which.in_
    gptr := 0
    egptr := 0
    pbase_null := !which.out
    pptr := 0
    epptr := if which.out then DEFAULT_BUFSIZE else 0 }

/-- The static function `_poll` of `pipebuf.cpp`, given the kernel's answer `p`
to its `poll`. -/
def _poll (pipe : Int × Int) (events : Nat) (p : PRes) (k : Kernel) : Int × Kernel :=
  let fd0 : Int := if events &&& POLLIN ≠ 0 then pipe.1 else 0
  let fd : Int := if events &&& POLLOUT ≠ 0 then pipe.2 else fd0
  let k1 : Kernel := { k with polls := k.polls.tail, calls := k.calls ++ [SysCall.poll fd events] }
  if p.ret > 0 ∧ p.revents &&& (POLLHUP ||| POLLERR) ≠ 0 then (-1, k1) else (0, k1)

/-- The function `pipebuf::write_remaining`. -/
def write_remaining (s : pipebuf) : Nat :=
  if s.pbase_null then 0 else size_t_of_int s.pptr

/-- The function `pipebuf::_resizewbuf`; its `pbump(off)` takes the `size_t`
offset as an `int`. -/
def _resizewbuf (s : pipebuf) : pipebuf :=
  let off := size_t_of_int s.pptr
  if off < size_t_pred s.BUFSIZE ∧ s._write.length > s.BUFSIZE then
    let w := resize s._write s.BUFSIZE
    { s with _write := w, pbase_null := false, pptr := to_int off, epptr := w.length }
  else if s.pptr = s.epptr then
    let w := resize s._write (2 * s._write.length)
    { s with _write := w, pbase_null := false, pptr := to_int off, epptr := w.length }
  else s

/-- The function `pipebuf::_send`, on the script `ws` of the kernel's answers
to `write` (the same list as `k.writes`, passed apart for the recursion).
Both the `while` loop and the `EINTR` case go on by the next `write` of
`size` bytes at `buf`, which is the recursive call here.  The `pbump(size)` of
the `EAGAIN` case takes the `size_t` as an `int`. -/
def _send_go : List WRes → pipebuf → Kernel → Nat → Nat → Outcome × pipebuf × Kernel
  | [], s, k, _, _ => (.pending, s, k)
  | r :: ws, s, k, buf, size =>
    let offered := (s._write.drop buf).take size
    let len := r.len size
    let k1 : Kernel :=
      { k with writes := ws
               calls := k.calls ++ [SysCall.write s._pipe.2 offered]
               sent := k.sent ++ offered.take len }
    match r with
    | .accept _ =>
      if len < size then _send_go ws s k1 (buf + len) (size - len)
      else (.ret 0, { s with pptr := 0 }, k1)
    | .fail e =>
      if e = EINTR then _send_go ws s k1 buf size
      else if e = EAGAIN then
        (.ret 0, { s with _write := memmove s._write 0 buf size, pptr := to_int size }, k1)
      else (.ret (-1), s, k1)

/-- The function `pipebuf::_send`. -/
def _send (s : pipebuf) (k : Kernel) (buf size : Nat) : Outcome × pipebuf × Kernel :=
  _send_go k.writes s k buf size

/-- The function `pipebuf::_mvrbuf`. -/
def _mvrbuf (s : pipebuf) : pipebuf :=
  let garea := s.egptr - s.gptr
  let oldarea := s.gptr
  let r :=
    if garea > 0 then
      if garea < oldarea then memcpy s._read 0 s.gptr garea
      else memmove s._read 0 s.gptr garea
    else s._read
  { s with _read := r, gptr := 0, egptr := garea }

/-- The function `pipebuf::_recv`, on the script `rs` of the kernel's answers
to `read` (the same list as `k.reads`). -/
def _recv_go : List RRes → pipebuf → Kernel → Outcome × pipebuf × Kernel
  | [], s, k => (.pending, s, k)
  | r :: rs, s, k =>
    let size := size_t_of_int ((s.BUFSIZE : Int) - (s.egptr : Int))
    let k1 : Kernel :=
      { k with reads := rs, calls := k.calls ++ [SysCall.read s._pipe.1 size] }
    match r with
    | .fail e =>
      if e = EINTR then _recv_go rs s k1
      else if e = EAGAIN then (.ret 0, s, k1)
      else (.ret (-1), s, k1)
    | .deliver data =>
      let got := data.take size
      if got.length = 0 then (.ret (-1), s, k1)
      else (.ret 0, { s with _read := store s._read s.egptr got,
                             egptr := s.egptr + got.length }, k1)

/-- The function `pipebuf::_recv`. -/
def _recv (s : pipebuf) (k : Kernel) : Outcome × pipebuf × Kernel :=
  _recv_go k.reads s k

/-- The function `pipebuf::sync`. -/
def sync (s : pipebuf) (k : Kernel) : Outcome × pipebuf × Kernel :=
  if s._which.out then
    let size := size_t_of_int s.pptr
    if size > 0 then
      match _send s k 0 size with
      | (.ret v, s1, k1) => if v ≠ 0 then (.ret (-1), s1, k1) else (.ret 0, _resizewbuf s1, k1)
      | (o, s1, k1) => (o, s1, k1)
    else (.ret 0, _resizewbuf s, k)
  else if s._which.in_ then
    let s0 := if s.gptr ≠ 0 then _mvrbuf s else s
    match _recv s0 k with
    | (.ret v, s1, k1) => if v ≠ 0 then (.ret (-1), s1, k1) else (.ret 0, s1, k1)
    | (o, s1, k1) => (o, s1, k1)
  else (.ret 0, s, k)

/-- The function `pipebuf::showmanyc`. -/
def showmanyc (s : pipebuf) (k : Kernel) : Outcome × pipebuf × Kernel :=
  let which_ := s._which
  match sync { s with _which := { which_ with out := false } } k with
  | (.ret v, s1, k1) =>
    if v ≠ 0 then (.ret (-1), { s1 with _which := which_ }, k1)
    else (.ret ((s1.egptr : Int) - (s1.gptr : Int)), { s1 with _which := which_ }, k1)
  | (o, s1, k1) => (o, s1, k1)

/-- The function `pipebuf::underflow`; `fuel` bounds the depth of its recursion
(`return underflow();`), and a call that needs more ends as `pending`. -/
def underflow_go : Nat → pipebuf → Kernel → Outcome × pipebuf × Kernel
  | 0, s, k => (.pending, s, k)
  | fuel + 1, s, k =>
    if s.eback_null then (.ret eof, s, k)
    else
      match sync s k with
      | (.ret v, s1, k1) =>
        if v ≠ 0 then (.ret eof, s1, k1)
        else if s1.gptr = s1.egptr then
          match k1.polls with
          | [] => (.pending, s1, k1)
          | p :: _ =>
            if (_poll s1._pipe POLLIN p k1).1 ≠ 0 then (.ret eof, s1, (_poll s1._pipe POLLIN p k1).2)
            else underflow_go fuel s1 (_poll s1._pipe POLLIN p k1).2
        else (.ret (to_int_type (s1._read.getD s1.gptr 0)), s1, k1)
      | (o, s1, k1) => (o, s1, k1)

/-- The `std::streambuf` step of `sputc` when the put area has room:
`*pptr() = c; pbump(1)`.  A store through a cursor below `pbase()` falls
outside the vector and leaves its bytes as they are. -/
def put (s : pipebuf) (c : Byte) : pipebuf :=
  { s with _write := if 0 ≤ s.pptr then s._write.set s.pptr.toNat c else s._write,
           pptr := s.pptr + 1 }

/-- The function `pipebuf::overflow`; `fuel` bounds the depth of its recursion.
Its last statement `Base::sputc(ch)` stores when `pptr() < epptr()` and calls
`overflow(ch)` otherwise. -/
def overflow_go : Nat → pipebuf → Kernel → Int → Outcome × pipebuf × Kernel
  | 0, s, k, _ => (.pending, s, k)
  | fuel + 1, s, k, ch =>
    if s.pbase_null then (.ret eof, s, k)
    else
      match sync s k with
      | (.ret v, s1, k1) =>
        if v ≠ 0 then (.ret eof, s1, k1)
        else if s1.pptr = s1.epptr then
          match k1.polls with
          | [] => (.pending, s1, k1)
          | p :: _ =>
            if (_poll s1._pipe POLLOUT p k1).1 ≠ 0 then
              (.ret eof, s1, (_poll s1._pipe POLLOUT p k1).2)
            else overflow_go fuel s1 (_poll s1._pipe POLLOUT p k1).2 ch
        else if ch = eof then (.ret eof, s1, k1)
        else if s1.pptr < s1.epptr then
          (.ret (to_int_type (ch % 256).toNat), put s1 (ch % 256).toNat, k1)
        else overflow_go fuel s1 k1 ch
      | (o, s1, k1) => (o, s1, k1)

/-- The `std::streambuf` member `sputc` on a `pipebuf`. -/
def sputc (fuel : Nat) (s : pipebuf) (k : Kernel) (c : Byte) : Outcome × pipebuf × Kernel :=
  if s.pptr < s.epptr then (.ret (to_int_type c), put s c, k)
  else overflow_go fuel s k (to_int_type c)

/-- Put the bytes `cs` one after the other with `sputc`, stopping at the first
that does not return the byte. -/
def sputn (fuel : Nat) : List Byte → pipebuf → Kernel → Outcome × pipebuf × Kernel
  | [], s, k => (.ret 0, s, k)
  | c :: cs, s, k =>
    match sputc fuel s k c with
    | (.ret v, s1, k1) => if v = eof then (.ret eof, s1, k1) else sputn fuel cs s1 k1
    | (o, s1, k1) => (o, s1, k1)

/-- Window invariant of a `pipebuf` whose write side is open: the put area is
the whole vector `_write`, the cursor is inside it (`pbase ≤ pptr ≤ epptr`),
and `BUFSIZE` is the constant every constructor stores. -/
structure wf_write (s : pipebuf) : Prop where
  open_ : s._which.out = true
  nonnull : s.pbase_null = false
  limit : s.epptr = s._write.length
  low : 0 ≤ s.pptr
  cursor : s.pptr ≤ s.epptr
  bufsize : s.BUFSIZE = DEFAULT_BUFSIZE

/-- The read side of `s1` is that of `s`: same mode, same get area, same
descriptors. -/
structure same_read_side (s s1 : pipebuf) : Prop where
  which : s1._which = s._which
  null : s1.eback_null = s.eback_null
  gptr : s1.gptr = s.gptr
  egptr : s1.egptr = s.egptr
  read : s1._read = s._read
  pipe : s1._pipe = s._pipe

/-- The kernel `k1` is `k` after calls none of which was a `read`: the script
of answers to `read` is untouched. -/
structure no_read_since (k k1 : Kernel) : Prop where
  reads : k1.reads = k.reads
  calls : ∃ l, k1.calls = k.calls ++ l ∧ ∀ c ∈ l, SysCall.is_read c = false

/-- A fresh `pipebuf` in the default mode (read and write) on the descriptors
3 and 4. -/
def ex_default : pipebuf := mk_open ⟨true, true⟩ 3 4

/-- A kernel in which the peer has written the byte 65 and `poll` reports the
read descriptor readable, three times. -/
def ex_readable : Kernel :=
  ⟨[], [.deliver [65]], [⟨1, 0, POLLIN⟩, ⟨1, 0, POLLIN⟩, ⟨1, 0, POLLIN⟩], [], []⟩

/-- A fresh read-only `pipebuf` on the descriptors 3 and 4. -/
def ex_read_only : pipebuf := mk_open ⟨true, false⟩ 3 4

/-- A kernel whose next `read` is a zero-length read: the peer has closed. -/
def ex_peer_closed : Kernel := ⟨[], [.deliver []], [], [], []⟩

/-- A kernel whose next `read` fails with the fatal error `EIO`. -/
def ex_read_error : Kernel := ⟨[], [.fail EIO], [], [], []⟩

/-- The put area of `s1` is that of `s` with the cursor at offset `n`. -/
structure put_area_at (s s1 : pipebuf) (n : Nat) : Prop where
  pptr : s1.pptr = n
  epptr : s1.epptr = s.epptr
  null : s1.pbase_null = s.pbase_null
  bufsize : s1.BUFSIZE = s.BUFSIZE
  which : s1._which = s._which
  size : s1._write.length = s._write.length
  pipe : s1._pipe = s._pipe

/-- A fresh read+write `pipebuf` on the descriptors 3 and 4 into which the
bytes 10, 20, 30 were put. -/
def ex_three : pipebuf := put (put (put (mk_open ⟨true, true⟩ 3 4) 10) 20) 30

/-- A kernel that accepts two bytes and then would block. -/
def ex_two_then_block : Kernel := ⟨[.accept 2, .fail EAGAIN], [], [], [], []⟩

end pipebuf

/-! ## sockbuf -/

/-- The address family `AF_UNSPEC`. -/
def AF_UNSPEC : Nat := 0

/-- A `struct iovec`: `iov_base` as an offset into the window it points into
(`none` for the null pointer). -/
structure iovec where
  iov_base : Option Nat
  iov_len : Nat
deriving DecidableEq, Repr

/-- A `struct msghdr`; of each pointer member only whether it is non-null. -/
structure msghdr_t where
  msg_name : Bool
  msg_namelen : Nat
  msg_iov : Bool
  msg_iovlen : Nat
  msg_control : Bool
  msg_controllen : Nat
deriving DecidableEq, Repr

/-- The tuple `address_type` of a `sockaddr_storage` and its `socklen_t`. -/
structure address_type where
  ss_family : Nat
  sa_data : List Byte
  len : Nat
deriving DecidableEq, Repr

/-- Direction argument of `seekoff`. -/
inductive seekdir where
  | beg
  | cur
  | end_
deriving DecidableEq, Repr

/-- State of a `sockbuf`.  `eback` and `pbase` name the vector of `_buffers`
whose `data()` they are (by its index; `none` is the null pointer), the other
four pointers are offsets from them; a seek can move an offset below zero. -/
structure sockbuf where
  BUFSIZE : Nat
  _which : openmode
  _buffers : List (List Byte)
  _cbufs : List Byte × List Byte
  _msghdrs : msghdr_t × msghdr_t
  _addresses : address_type × address_type
  _socket : Int
  _iov : iovec × iovec
  _errno : Int
  _connected : Bool
  eback : Option Nat
  gptr : Int
  egptr : Int
  pbase : Option Nat
  pptr : Int
  epptr : Int
deriving DecidableEq, Repr

namespace sockbuf

/-- The constant `sockbuf::DEFAULT_BUFSIZE`. -/
def DEFAULT_BUFSIZE : Nat := 16535

/-- The vector a window pointer points into. -/
def buffer_at (s : sockbuf) (base : Option Nat) : List Byte :=
  match base with
  | some i => s._buffers.getD i []
  | none => []

/-- The vector behind the put area. -/
def wbuf (s : sockbuf) : List Byte := s.buffer_at s.pbase

/-- The vector behind the get area. -/
def rbuf (s : sockbuf) : List Byte := s.buffer_at s.eback

/-- Replace the vector a window pointer points into. -/
def set_buffer (s : sockbuf) (base : Option Nat) (v : List Byte) : sockbuf :=
  match base with
  | some i => { s with _buffers := s._buffers.set i v }
  | none => s

/-- The bytes of the put area `[pbase, pptr)`. -/
def pending (s : sockbuf) : List Byte := s.wbuf.take s.pptr.toNat

/-- The function `sockbuf::_init_buf_ptrs` on a state with the given
`_buffers`. -/
def _init_buf_ptrs (s : sockbuf) : sockbuf :=
  let s1 :=
    if s._which.in_ then
      { s with _buffers := s._buffers ++ [resize [] s.BUFSIZE],
               eback := some s._buffers.length, gptr := 0, egptr := 0 }
    else s
  if s1._which.out then
    { s1 with _buffers := s1._buffers ++ [resize [] s1.BUFSIZE],
              pbase := some s1._buffers.length, pptr := 0, epptr := s1.BUFSIZE }
  else s1

/-- State after `sockbuf(sockfd, which)`; the members `_errno` and `_connected`
have no initialiser, their values `e` and `c` are whatever the memory held. -/
def mk_open (sockfd : Int) (which : openmode) (e : Int) (c : Bool) : sockbuf :=
  _init_buf_ptrs
    { BUFSIZE := DEFAULT_BUFSIZE
      _which := which
      _buffers := []
      _cbufs := ([], [])
      _msghdrs := (⟨false, 0, false, 0, false, 0⟩, ⟨false, 0, false, 0, false, 0⟩)
      _addresses := (⟨AF_UNSPEC, [], 0⟩, ⟨AF_UNSPEC, [], 0⟩)
      _socket := sockfd
      _iov := (⟨none, 0⟩, ⟨none, 0⟩)
      _errno := e
      _connected := c
      eback := none
      gptr := 0
      egptr := 0
      pbase := none
      pptr := 0
      epptr := 0 }

/-- The static function `getbuflen` applied to `_buffers` and `eback()`. -/
def getbuflen (s : sockbuf) (base : Option Nat) : Nat :=
  match base with
  | some i =>
    match s._buffers.get? i with
    | some b => b.length
    | none => SIZE_MAX
  | none => SIZE_MAX

/-- The first lines of `sockbuf::_send`, up to the first `sendmsg`: they fill
the name and the `iovec` of the send header. -/
def _send_setup (s : sockbuf) (buf size : Nat) : sockbuf :=
  let h := s._msghdrs.2
  let a := s._addresses.2
  let h1 : msghdr_t :=
    if s._connected = false ∧ a.ss_family ≠ AF_UNSPEC then
      { h with msg_name := true, msg_namelen := a.len }
    else { h with msg_name := false, msg_namelen := 0 }
  if size > 0 then
    { s with _iov := (s._iov.1, ⟨some buf, size⟩)
             _msghdrs := (s._msghdrs.1, { h1 with msg_iov := true, msg_iovlen := 1 }) }
  else
    { s with _iov := (s._iov.1, ⟨none, 0⟩)
             _msghdrs := (s._msghdrs.1, { h1 with msg_iov := false, msg_iovlen := 0 }) }

/-- The bytes a `sendmsg` with the send header offers to the kernel. -/
def offered (s : sockbuf) : List Byte :=
  if s._msghdrs.2.msg_iov then
    match s._iov.2.iov_base with
    | some b => (s.wbuf.drop b).take s._iov.2.iov_len
    | none => []
  else []

/-- The statements of `sockbuf::_send` that move the unsent bytes to the front:
`memmove(pbase(), buf, size); setp(pbase(), epptr()); pbump(size)`, where
`pbump` takes the `size_t` as an `int`. -/
def keep_unsent (s : sockbuf) (buf size : Nat) : sockbuf :=
  { s.set_buffer s.pbase (memmove s.wbuf 0 buf size) with pptr := to_int size }

/-- The function `sockbuf::_send`, on the script `ws` of the kernel's answers
to `sendmsg` (the same list as `k.writes`).  With `entry` the call starts at
the top of the function (first call, and the calls `return _send(buf, size)`
after `EISCONN` and `EINTR`); without it, it goes on inside the `while` loop
at the `sendmsg` of its last line. -/
def _send_go : List WRes → Bool → sockbuf → Kernel → Nat → Nat → Outcome × sockbuf × Kernel
  | [], _, s, k, _, _ => (.pending, s, k)
  | r :: ws, entry, s, k, buf, size =>
    let s0 := if entry then _send_setup s buf size else s
    let len := r.len size
    let k1 : Kernel :=
      { k with writes := ws
               calls := k.calls ++ [SysCall.sendmsg s0._socket s0.offered s0._msghdrs.2.msg_control]
               sent := k.sent ++ s0.offered.take len }
    match r with
    | .accept _ =>
      let h := s0._msghdrs.2
      let h1 : msghdr_t :=
        if h.msg_control then { h with msg_control := false, msg_controllen := 0 } else h
      let s1 := { s0 with _msghdrs := (s0._msghdrs.1, h1) }
      if len = size then (.ret 0, { s1 with pptr := 0 }, k1)
      else
        _send_go ws false
          { s1 with _iov := (s1._iov.1, ⟨some (buf + len), size - len⟩) } k1 (buf + len) (size - len)
    | .fail e =>
      if e = EISCONN then _send_go ws true { s0 with _connected := true } k1 buf size
      else if e = EINTR then _send_go ws true s0 k1 buf size
      else if e = EWOULDBLOCK then (.ret 0, s0.keep_unsent buf size, k1)
      else (.ret (-1), { s0.keep_unsent buf size with _errno := e }, k1)

/-- The function `sockbuf::_send`. -/
def _send (s : sockbuf) (k : Kernel) (buf size : Nat) : Outcome × sockbuf × Kernel :=
  _send_go k.writes true s k buf size

/-- The first lines of `sockbuf::_recv` after the buffer was found, up to the
first `recvmsg`: they fill the receive header. -/
def _recv_setup (s : sockbuf) (buflen : Nat) : sockbuf :=
  let iov : iovec := ⟨some s.egptr.toNat, size_t_of_int ((buflen : Int) - s.egptr)⟩
  let h := s._msghdrs.1
  let h1 : msghdr_t :=
    { h with msg_name := true, msg_namelen := 128, msg_iov := true, msg_iovlen := 1 }
  let h2 : msghdr_t :=
    if s._cbufs.1.length > 0 then
      { h1 with msg_control := true, msg_controllen := s._cbufs.1.length }
    else { h1 with msg_control := false, msg_controllen := 0 }
  { s with _iov := (iov, s._iov.2), _msghdrs := (h2, s._msghdrs.2) }

/-- The loop of `sockbuf::_recv` from its first `recvmsg` on, on the script `rs`
of the kernel's answers to `recvmsg` (the same list as `k.reads`). -/
def _recv_go : List RRes → sockbuf → Kernel → Outcome × sockbuf × Kernel
  | [], s, k => (.pending, s, k)
  | r :: rs, s, k =>
    let size := s._iov.1.iov_len
    let k1 : Kernel :=
      { k with reads := rs, calls := k.calls ++ [SysCall.recvmsg s._socket size] }
    match r with
    | .fail e =>
      if e = EINTR then _recv_go rs s k1
      else if e = EWOULDBLOCK then (.ret 0, s, k1)
      else (.ret (-1), { s with _errno := e }, k1)
    | .deliver data =>
      let got := data.take size
      if got.length = 0 then (.ret (-1), s, k1)
      else
        (.ret 0, { s.set_buffer s.eback (store s.rbuf s.egptr.toNat got) with
                     egptr := s.egptr + got.length }, k1)

/-- The function `sockbuf::_recv`. -/
def _recv (s : sockbuf) (k : Kernel) : Outcome × sockbuf × Kernel :=
  let buflen := s.getbuflen s.eback
  if buflen = SIZE_MAX then (.ret (-1), s, k)
  else _recv_go k.reads (s._recv_setup buflen) k

/-- The function `sockbuf::_memmoverbuf`. -/
def _memmoverbuf (s : sockbuf) : sockbuf :=
  let ga := s.egptr - s.gptr
  let oldarea := s.gptr
  if ga > 0 then
    let r :=
      if ga < oldarea then memcpy s.rbuf 0 s.gptr.toNat ga.toNat
      else memmove s.rbuf 0 s.gptr.toNat ga.toNat
    { s.set_buffer s.eback r with gptr := 0, egptr := ga }
  else { s with gptr := 0, egptr := 0 }

/-- The function `sockbuf::_resizewbuf`; `none` when it throws because no
vector of `_buffers` is the put area.  Its `pbump(off)` takes the `size_t`
offset as an `int`. -/
def _resizewbuf (s : sockbuf) : Option sockbuf :=
  match s.pbase with
  | none => none
  | some i =>
    match s._buffers.get? i with
    | none => none
    | some it =>
      let off := size_t_of_int s.pptr
      if off < size_t_pred s.BUFSIZE ∧ it.length > s.BUFSIZE then
        let w := resize it s.BUFSIZE
        some { s with _buffers := s._buffers.set i w, pptr := to_int off, epptr := w.length }
      else if s.pptr = s.epptr then
        let w := resize it (2 * it.length)
        some { s with _buffers := s._buffers.set i w, pptr := to_int off, epptr := w.length }
      else some s

/-- The value `pos_type(off_type(-1))` that `std::streambuf::seekoff` and
`std::streambuf::seekpos` return. -/
def seek_failed : Int := -1

/-- The function `sockbuf::seekpos`; its `pbump(pos)` takes the position as an
`int`. -/
def seekpos (s : sockbuf) (pos : Int) (which : openmode) : Int × sockbuf :=
  if which.in_ then
    if pos ≤ s.egptr then (pos, { s with gptr := pos })
    else (seek_failed, s)
  else if which.out then
    if pos ≤ s.epptr then (pos, { s with pptr := to_int pos })
    else (seek_failed, s)
  else (seek_failed, s)

/-- The function `sockbuf::seekoff`. -/
def seekoff (s : sockbuf) (off : Int) (dir : seekdir) (which : openmode) : Int × sockbuf :=
  match dir with
  | .beg =>
    if off < 0 then (seek_failed, s)
    else seekpos s (0 + off) which
  | .end_ =>
    if off > 0 then (seek_failed, s)
    else if which.in_ then seekpos s (s.egptr + off) which
    else if which.out then seekpos s (s.epptr + off) which
    else seekpos s 0 which
  | .cur =>
    if which.in_ then
      if s.gptr + off > s.egptr then (seek_failed, s)
      else if off < 0 ∧ s.gptr > -off then (seek_failed, s)
      else seekpos s (s.gptr + off) which
    else if which.out then
      if off > 0 ∨ (off < 0 ∧ s.pptr > -off) then (seek_failed, s)
      else seekpos s (s.pptr + off) which
    else seekpos s 0 which

/-- The function `sockbuf::sync`. -/
def sync (s : sockbuf) (k : Kernel) : Outcome × sockbuf × Kernel :=
  if s._which.out then
    let size := size_t_of_int s.pptr
    let sent : Outcome × sockbuf × Kernel :=
      if size > 0 ∨ s._cbufs.2.length > 0 then _send s k 0 size else (.ret 0, s, k)
    match sent with
    | (.ret v, s1, k1) =>
      if v ≠ 0 then (.ret (-1), s1, k1)
      else
        match _resizewbuf s1 with
        | some s2 => (.ret 0, s2, k1)
        | none => (.throws, s1, k1)
    | (o, s1, k1) => (o, s1, k1)
  else if s._which.in_ then
    let s0 := if s.gptr ≠ 0 then _memmoverbuf s else s
    match _recv s0 k with
    | (.ret v, s1, k1) => if v ≠ 0 then (.ret (-1), s1, k1) else (.ret 0, s1, k1)
    | (o, s1, k1) => (o, s1, k1)
  else (.ret 0, s, k)

/-- The static function `_poll` of `sockbuf.cpp`, on the script `ps` of the
kernel's answers to `poll` (the same list as `k.polls`); it polls again after
`EINTR`. -/
def _poll_go : List PRes → Int → Nat → Kernel → Outcome × Kernel
  | [], _, _, k => (.pending, k)
  | p :: ps, socket, events, k =>
    let k1 : Kernel := { k with polls := ps, calls := k.calls ++ [SysCall.poll socket events] }
    if p.ret < 0 then
      if p.errno = EINTR then _poll_go ps socket events k1
      else (.ret (-1), k1)
    else if p.revents &&& (POLLHUP ||| POLLERR) ≠ 0 then (.ret (-1), k1)
    else (.ret 0, k1)

/-- The function `sockbuf::underflow`; `fuel` bounds the depth of its
recursion. -/
def underflow_go : Nat → sockbuf → Kernel → Outcome × sockbuf × Kernel
  | 0, s, k => (.pending, s, k)
  | fuel + 1, s, k =>
    if s.eback = none then (.ret eof, s, k)
    else
      let which_ := s._which
      match sync { s with _which := { which_ with out := false } } k with
      | (.ret v, s1, k1) =>
        let s2 := { s1 with _which := which_ }
        if v ≠ 0 then (.ret eof, s2, k1)
        else if s2.gptr = s2.egptr then
          match _poll_go k1.polls s2._socket POLLIN k1 with
          | (.ret p, k2) => if p ≠ 0 then (.ret eof, s2, k2) else underflow_go fuel s2 k2
          | (o, k2) => (o, s2, k2)
        else (.ret (to_int_type (s2.rbuf.getD s2.gptr.toNat 0)), s2, k1)
      | (o, s1, k1) => (o, s1, k1)

/-- The `std::streambuf` step of `sputc` when the put area has room:
`*pptr() = c; pbump(1)`.  A store through a cursor below `pbase()` falls
outside the vector and leaves its bytes as they are. -/
def put (s : sockbuf) (c : Byte) : sockbuf :=
  { s.set_buffer s.pbase (if 0 ≤ s.pptr then s.wbuf.set s.pptr.toNat c else s.wbuf) with
    pptr := s.pptr + 1 }

/-- Window invariant of a `sockbuf` whose write side is open: the put area is
a whole vector of `_buffers`, whose size fits `size_t`, and the cursor is
inside it. -/
structure wf_write (s : sockbuf) : Prop where
  open_ : s._which.out = true
  found : ∃ i, s.pbase = some i ∧ i < s._buffers.length
  limit : s.epptr = s.wbuf.length
  low : 0 ≤ s.pptr
  cursor : s.pptr ≤ s.epptr
  fits : s.wbuf.length < 2 ^ 64

/-- Window invariant of the get area of a `sockbuf`: it is a whole vector of
`_buffers`, whose size is below `SIZE_MAX`, and `eback ≤ gptr ≤ egptr` lie
inside it. -/
structure wf_read (s : sockbuf) : Prop where
  found : ∃ i, s.eback = some i ∧ i < s._buffers.length
  low : 0 ≤ s.gptr
  cursor : s.gptr ≤ s.egptr
  limit : s.egptr ≤ s.rbuf.length
  fits : s.rbuf.length < SIZE_MAX

/-- What `_send` leaves alone: the vector the put area points into keeps its
place and size, and the limit, `BUFSIZE` and the open mode are unchanged. -/
structure send_frame (s s1 : sockbuf) : Prop where
  pbase : s1.pbase = s.pbase
  buffers : s1._buffers.length = s._buffers.length
  size : s1.wbuf.length = s.wbuf.length
  epptr : s1.epptr = s.epptr
  bufsize : s1.BUFSIZE = s.BUFSIZE
  which : s1._which = s._which

/-- A read+write `sockbuf` on the descriptor 5 whose caller has set
`bufsize()` to 0 and into which the bytes 10, 20, 30 were put. -/
def ex_bufsize_zero : sockbuf :=
  put (put (put { mk_open 5 ⟨true, true⟩ 0 false with BUFSIZE := 0 } 10) 20) 30

/-- A kernel that would block at once. -/
def ex_block : Kernel := ⟨[.fail EWOULDBLOCK], [], [], [], []⟩

/-- A fresh read+write `sockbuf` on the descriptor 5. -/
def ex_fresh : sockbuf := mk_open 5 ⟨true, true⟩ 0 false

/-- A read+write `sockbuf` on the descriptor 5 that has received five bytes,
of which three were consumed: `gptr - eback = 3`, `egptr - eback = 5`. -/
def ex_three_of_five : sockbuf := { mk_open 5 ⟨true, true⟩ 0 false with gptr := 3, egptr := 5 }

/-- A kernel whose `read`/`recvmsg` is interrupted twice and then would
block. -/
def ex_intr_then_block : Kernel :=
  ⟨[], List.replicate 2 (RRes.fail EINTR) ++ RRes.fail EWOULDBLOCK :: [], [], [], []⟩

end sockbuf
end buffers

/-! ## poller and trigger -/

/-- A `struct pollfd`; `events` and `revents` are the 16-bit patterns of the
two `short` members. -/
structure pollfd where
  fd : Int
  events : Nat
  revents : Nat
deriving DecidableEq, Repr

/-- The sentinel `npos`, which is `size_type(-1)`. -/
def npos : Nat := SIZE_MAX

/-- The largest `std::uint32_t`. -/
def UINT32_MAX : Nat := 2 ^ 32 - 1

/-- The library call `std::find_if` as the index of the first element that
satisfies `p`; `none` is the end iterator. -/
def find_if {α : Type} (p : α → Bool) : List α → Option Nat
  | [] => none
  | x :: xs => if p x then some 0 else (find_if p xs).map (· + 1)

/-- The member `_events` of a `basic_poller`. -/
structure poller where
  _events : List pollfd
deriving DecidableEq, Repr

namespace poller

/-- The function `poller::_add` on the vector `events`. -/
def _add (handle : Int) (events : List pollfd) (event : pollfd) : Nat × List pollfd :=
  match find_if (fun ev => ev.fd == handle) events with
  | some _ => (npos, events)
  | none => ((events ++ [event]).length, events ++ [event])

/-- The function `poller::_update` on the vector `events`. -/
def _update (handle : Int) (events : List pollfd) (event : pollfd) : Nat × List pollfd :=
  match find_if (fun ev => ev.fd == handle) events with
  | none => (npos, events)
  | some i =>
    (events.length, events.modify (fun ev => { ev with events := event.events }) i)

/-- The function `poller::_del` on the vector `events`. -/
def _del (handle : Int) (events : List pollfd) : Nat × List pollfd :=
  match find_if (fun ev => ev.fd == handle) events with
  | none => (npos, events)
  | some i => ((events.eraseIdx i).length, events.eraseIdx i)

/-- The function `basic_poller::add`. -/
def add (p : poller) (handle : Int) (event : pollfd) : Nat × poller :=
  ((_add handle p._events event).1, ⟨(_add handle p._events event).2⟩)

/-- The function `basic_poller::update`. -/
def update (p : poller) (handle : Int) (event : pollfd) : Nat × poller :=
  ((_update handle p._events event).1, ⟨(_update handle p._events event).2⟩)

/-- The function `basic_poller::del`. -/
def del (p : poller) (handle : Int) : Nat × poller :=
  ((_del handle p._events).1, ⟨(_del handle p._events).2⟩)

/-- The function `basic_poller::size`. -/
def size (p : poller) : Nat := p._events.length

end poller

/-- State of a `trigger`: the interest list and the poller it owns. -/
structure trigger where
  _list : List (Int × Nat)
  _poller : poller
deriving DecidableEq, Repr

namespace trigger

/-- State after `trigger()`. -/
def empty : trigger := ⟨[], ⟨[]⟩⟩

/-- The function `trigger::mkevent`: the assignment to the `short` member
`events` keeps the low 16 bits of the 32-bit `trigger`. -/
def mkevent (handle : Int) (trig : Nat) : pollfd :=
  { fd := handle, events := trig % 2 ^ 16, revents := 0 }

/-- The function `basic_trigger::set`. -/
def set (t : trigger) (handle : Int) (trig : Nat) : Nat × trigger :=
  match find_if (fun i => i.1 == handle) t._list with
  | some it =>
    let trigger_ := (t._list.getD it (handle, 0)).2 ||| trig
    let r := t._poller.update handle (mkevent handle trigger_)
    (r.1, ⟨t._list.set it (handle, trigger_), r.2⟩)
  | none =>
    let r := t._poller.add handle (mkevent handle trig)
    (r.1, ⟨t._list ++ [(handle, trig)], r.2⟩)

/-- The function `basic_trigger::clear`; `~trig` on `std::uint32_t` is
`UINT32_MAX - trig`. -/
def clear (t : trigger) (handle : Int) (trig : Nat) : Nat × trigger :=
  match find_if (fun i => i.1 == handle) t._list with
  | none => (npos, t)
  | some it =>
    let trigger_ := (t._list.getD it (handle, 0)).2 &&& (UINT32_MAX - trig)
    if trigger_ ≠ 0 then
      let r := t._poller.update handle (mkevent handle trigger_)
      (r.1, ⟨t._list.set it (handle, trigger_), r.2⟩)
    else
      let r := t._poller.del handle
      (r.1, ⟨(t._list.set it (handle, trigger_)).eraseIdx it, r.2⟩)

/-- The accumulated interest the list holds for `handle`: that of the entry
`find_if` finds. -/
def interest (t : trigger) (handle : Int) : Option Nat :=
  (t._list.find? (fun i => i.1 == handle)).map (·.2)

/-- The poller's registration is in step with the interest list: every handle
is listed once, and the poller holds the same handles in the same order. -/
structure in_sync (t : trigger) : Prop where
  unique : (t._list.map Prod.fst).Nodup
  same : t._poller._events.map pollfd.fd = t._list.map Prod.fst

/-- The states a `trigger` can be in: those `set` and `clear` with 32-bit
arguments lead to from the state after construction. -/
inductive Reachable : trigger → Prop where
  | init : Reachable empty
  | set (t : trigger) (handle : Int) (trig : Nat) :
      Reachable t → trig < 2 ^ 32 → Reachable (t.set handle trig).2
  | clear (t : trigger) (handle : Int) (trig : Nat) :
      Reachable t → trig < 2 ^ 32 → Reachable (t.clear handle trig).2

/-- A trigger in which the handle 3 is registered with interest 5. -/
def ex_one : trigger := (empty.set 3 5).2

/-- A trigger in which the handle 3 is registered with interest 5 and the
handle 7 with interest 6. -/
def ex_two : trigger := (ex_one.set 7 6).2

end trigger

namespace poller

/-- The bound `std::vector<pollfd>::max_size()` of the library:
`PTRDIFF_MAX / sizeof(pollfd)`. -/
def max_size : Nat := (2 ^ 63 - 1) / 8

/-- State after `poller()`. -/
def empty : poller := ⟨[]⟩

/-- The states a `poller` can be in: those the public `add`, `update` and `del`
lead to from the state after construction, whatever their arguments. -/
inductive Reachable : poller → Prop where
  | init : Reachable empty
  | add (p : poller) (handle : Int) (event : pollfd) :
      Reachable p → Reachable (p.add handle event).2
  | update (p : poller) (handle : Int) (event : pollfd) :
      Reachable p → Reachable (p.update handle event).2
  | del (p : poller) (handle : Int) : Reachable p → Reachable (p.del handle).2

/-- The states a `poller` reaches when every `add` passes an event whose `fd` is
the handle, the way `trigger::mkevent` builds it. -/
inductive ReachableMatched : poller → Prop where
  | init : ReachableMatched empty
  | add (p : poller) (handle : Int) (event : pollfd) :
      ReachableMatched p → event.fd = handle → ReachableMatched (p.add handle event).2
  | update (p : poller) (handle : Int) (event : pollfd) :
      ReachableMatched p → ReachableMatched (p.update handle event).2
  | del (p : poller) (handle : Int) : ReachableMatched p → ReachableMatched (p.del handle).2

/-- A poller with the descriptors 3 and 7 registered, in this order. -/
def ex_pair : poller := ⟨[⟨3, 1, 0⟩, ⟨7, 4, 0⟩]⟩

/-- The poller after `add(3, ev)` and `add(5, ev)` with the same event `ev`,
whose `fd` is 7. -/
def ex_mismatch : poller := ((empty.add 3 ⟨7, 1, 0⟩).2.add 5 ⟨7, 1, 0⟩).2

end poller

namespace trigger

/-- The trigger after `set(3, 0x10000)` on a fresh trigger. -/
def ex_high : trigger := (empty.set 3 65536).2

end trigger

/-! ## Closing and moving the buffers -/

/-- The descriptor a system call is issued on. -/
def SysCall.fd : SysCall → Int
  | .write fd _ => fd
  | .read fd _ => fd
  | .sendmsg fd _ _ => fd
  | .recvmsg fd _ => fd
  | .poll fd _ => fd
  | .close fd => fd

/-- Two ranges of `n` bytes, at the offsets `dst` and `src` of one allocation,
that share no byte. -/
def disjoint_ranges (dst src n : Nat) : Prop := dst + n ≤ src ∨ src + n ≤ dst

namespace buffers

/-- A kernel with empty scripts that has seen no call yet. -/
def ex_idle : Kernel := ⟨[], [], [], [], []⟩

namespace pipebuf

/-- The function `pipebuf::close_read`. -/
def close_read (s : pipebuf) (k : Kernel) : pipebuf × Kernel :=
  ({ s with _read := [], eback_null := true, gptr := 0, egptr := 0,
            _which := { s._which with in_ := false } },
   { k with calls := k.calls ++ [SysCall.close s._pipe.1] })

/-- The function `pipebuf::close_write`. -/
def close_write (s : pipebuf) (k : Kernel) : pipebuf × Kernel :=
  ({ s with _write := [], pbase_null := true, pptr := 0, epptr := 0,
            _which := { s._which with out := false } },
   { k with calls := k.calls ++ [SysCall.close s._pipe.2] })

/-- The destructor `pipebuf::~pipebuf`: it closes each of the two descriptors
that is above 2. -/
def destructor (s : pipebuf) (k : Kernel) : Kernel :=
  let k1 : Kernel :=
    if s._pipe.1 > 2 then { k with calls := k.calls ++ [SysCall.close s._pipe.1] } else k
  if s._pipe.2 > 2 then { k1 with calls := k1.calls ++ [SysCall.close s._pipe.2] } else k1

/-- The move constructor `pipebuf::pipebuf(pipebuf&& other)`: the new object
and the state `other` is left in.  The base is copy-constructed
(`Base(other)`), so both objects hold the six pointers of `other`, which point
into the storage of the two vectors; the vectors are moved to the new object,
which leaves those of `other` empty, and `_which` and `BUFSIZE` are copied.
The pointers of `other` keep their offsets and null markers, although the
storage behind them now belongs to the new object. -/
def move_construct (other : pipebuf) : pipebuf × pipebuf :=
  (other, { other with _read := [], _write := [], _pipe := (0, 0) })

/-- The move assignment `pipebuf::operator=(pipebuf&& other)` on `self`: the
members are taken as in the move constructor and `Base::operator=` copies the
six pointers; nothing of `self` is kept or closed. -/
def move_assign (_self other : pipebuf) : pipebuf × pipebuf :=
  (other, { other with _read := [], _write := [], _pipe := (0, 0) })

/-- A kernel that accepts up to three bytes at its next `write`. -/
def ex_accept_three : Kernel := ⟨[.accept 3], [], [], [], []⟩

end pipebuf

namespace sockbuf

/-- The move constructor `sockbuf::sockbuf(sockbuf&& other)`: the new object
and the state `other` is left in.  The base is copy-constructed, `_buffers` and
the two vectors of `_cbufs` are moved, the other listed members are copied,
`_iov` takes its default and `_errno` and `_connected` are not initialised
(`e` and `c` are the values they happen to hold). -/
def move_construct (other : sockbuf) (e : Int) (c : Bool) : sockbuf × sockbuf :=
  ({ other with _iov := (⟨none, 0⟩, ⟨none, 0⟩), _errno := e, _connected := c },
   { other with _buffers := [], _cbufs := ([], []), _socket := 0 })

/-- The move assignment `sockbuf::operator=(sockbuf&& other)` on `self`; `none`
when `_buffers[1]` does not exist (the behaviour is then undefined).  The put
area is set on `_buffers[1]` and the get area on `_buffers[0]` with the offsets
of `other` (the put offset through `pbump`, as an `int`), whose two areas are
then set to null; `_iov`, `_errno` and `_connected` of `self` are kept. -/
def move_assign (self other : sockbuf) : Option (sockbuf × sockbuf) :=
  if other._buffers.length < 2 then none
  else
    some
      ({ self with
          BUFSIZE := other.BUFSIZE, _which := other._which, _buffers := other._buffers,
          _cbufs := other._cbufs, _msghdrs := other._msghdrs, _addresses := other._addresses,
          _socket := other._socket,
          pbase := some 1, pptr := to_int other.pptr,
          epptr := (other._buffers.getD 1 []).length,
          eback := some 0, gptr := other.gptr, egptr := other.egptr },
       { other with
          _buffers := [], _cbufs := ([], []), _socket := 0,
          pbase := none, pptr := 0, epptr := 0, eback := none, gptr := 0, egptr := 0 })

/-- A read+write `sockbuf` on the descriptor 5 with no payload buffered, in
whose write-direction control buffer `cmsgs()[1]` the caller has put three
bytes and whose send header the caller has pointed at them. -/
def ex_control : sockbuf :=
  { mk_open 5 ⟨true, true⟩ 0 true with
    _cbufs := ([], [1, 2, 3])
    _msghdrs := (⟨false, 0, false, 0, false, 0⟩, ⟨false, 0, false, 0, true, 3⟩) }

/-- A kernel that accepts the next two `sendmsg` calls. -/
def ex_accept_twice : Kernel := ⟨[.accept 0, .accept 0], [], [], [], []⟩

end sockbuf
end buffers

/-! ## The calls of the compaction and example windows -/

namespace buffers

/-- The arguments `(dst, src, n)` of the `memcpy` call that `pipebuf::_mvrbuf`
makes, as offsets from `eback()`; `none` when it makes none (it then calls
`memmove`, or nothing). -/
def pipebuf._mvrbuf_memcpy (s : pipebuf) : Option (Nat × Nat × Nat) :=
  let garea := s.egptr - s.gptr
  let oldarea := s.gptr
  if garea > 0 ∧ garea < oldarea then some (0, s.gptr, garea) else none

/-- The arguments `(dst, src, n)` of the `memcpy` call that
`sockbuf::_memmoverbuf` makes, as offsets from `eback()`; `none` when it makes
none. -/
def sockbuf._memmoverbuf_memcpy (s : sockbuf) : Option (Nat × Nat × Nat) :=
  let ga := s.egptr - s.gptr
  let oldarea := s.gptr
  if ga > 0 ∧ ga < oldarea then some (0, s.gptr.toNat, ga.toNat) else none

/-- A read+write `pipebuf` on the descriptors 3 and 4 whose write vector holds
`cap` zero bytes, with the put cursor at offset `p`. -/
def pipebuf.ex_zeros (cap : Nat) (p : Int) : pipebuf :=
  { pipebuf.mk_open ⟨true, true⟩ 3 4 with
    _write := List.replicate cap 0, pptr := p, epptr := cap }

/-- A read+write `pipebuf` whose write window has grown to `2 ^ 31` bytes and is
full of zero bytes: nothing has read from the pipe. -/
def pipebuf.ex_two_gib : pipebuf := pipebuf.ex_zeros (2 ^ 31) (2 ^ 31)

/-- A kernel whose next `write` would block. -/
def pipebuf.ex_would_block : Kernel := ⟨[.fail EAGAIN], [], [], [], []⟩

/-- A fresh read-only `pipebuf` that has received the bytes 1, 2, 3, 4, 5, of
which three were consumed. -/
def pipebuf.ex_consumed : pipebuf :=
  { pipebuf.mk_open ⟨true, false⟩ 3 4 with
    _read := store (resize [] pipebuf.DEFAULT_BUFSIZE) 0 [1, 2, 3, 4, 5], gptr := 3, egptr := 5 }

end buffers

/-! ## Gets, and the states a pipe buffer reaches -/

namespace buffers
namespace pipebuf

/-- The `std::streambuf` member `sgetc` on a `pipebuf`: the byte at the cursor
when the get area holds one, `underflow()` otherwise. -/
def sgetc (fuel : Nat) (s : pipebuf) (k : Kernel) : Outcome × pipebuf × Kernel :=
  if s.gptr < s.egptr then (.ret (to_int_type (s._read.getD s.gptr 0)), s, k)
  else underflow_go fuel s k

/-- The `std::streambuf` member `sbumpc` on a `pipebuf`: the byte at the cursor
and `gbump(1)` when the get area holds one; otherwise `uflow()`, which calls
`underflow()` and, unless that returned `eof`, returns `*gptr()` and does
`gbump(1)`. -/
def sbumpc (fuel : Nat) (s : pipebuf) (k : Kernel) : Outcome × pipebuf × Kernel :=
  if s.gptr < s.egptr then
    (.ret (to_int_type (s._read.getD s.gptr 0)), { s with gptr := s.gptr + 1 }, k)
  else
    match underflow_go fuel s k with
    | (.ret v, s1, k1) =>
      if v = eof then (.ret eof, s1, k1)
      else (.ret (to_int_type (s1._read.getD s1.gptr 0)), { s1 with gptr := s1.gptr + 1 }, k1)
    | (o, s1, k1) => (o, s1, k1)

/-- The states of a `pipebuf` between calls: the state after construction, in
any open mode and on any descriptors, and the state each of `sputc`, `sputn`
(byte after byte), `sgetc`, `sbumpc`, `sync`, `showmanyc`, `underflow` and
`overflow` leaves, called with any argument and in any kernel (any answers to the coming calls; the kernel
of the model takes at most the bytes offered and delivers at most the bytes
asked for), however the call ends. -/
inductive Reachable : pipebuf → Prop where
  | init (which : openmode) (rfd wfd : Int) : Reachable (mk_open which rfd wfd)
  | sputc (fuel : Nat) (s : pipebuf) (k : Kernel) (c : Byte) :
      Reachable s → Reachable (sputc fuel s k c).2.1
  | sputn (fuel : Nat) (cs : List Byte) (s : pipebuf) (k : Kernel) :
      Reachable s → Reachable (sputn fuel cs s k).2.1
  | sgetc (fuel : Nat) (s : pipebuf) (k : Kernel) :
      Reachable s → Reachable (sgetc fuel s k).2.1
  | sbumpc (fuel : Nat) (s : pipebuf) (k : Kernel) :
      Reachable s → Reachable (sbumpc fuel s k).2.1
  | sync (s : pipebuf) (k : Kernel) : Reachable s → Reachable (sync s k).2.1
  | showmanyc (s : pipebuf) (k : Kernel) : Reachable s → Reachable (showmanyc s k).2.1
  | underflow (fuel : Nat) (s : pipebuf) (k : Kernel) :
      Reachable s → Reachable (underflow_go fuel s k).2.1
  | overflow (fuel : Nat) (s : pipebuf) (k : Kernel) (ch : Int) :
      Reachable s → Reachable (overflow_go fuel s k ch).2.1

/-- The put window of a `pipebuf` whose cursor is inside the vector `_write`:
`pbase ≤ pptr ≤ epptr = pbase + _write.size()`, with a capacity that is 0 or a
power of two up to `2 ^ 31`. -/
structure put_inside (s : pipebuf) : Prop where
  low : 0 ≤ s.pptr
  cursor : s.pptr ≤ s.epptr
  limit : s.epptr = s._write.length
  grid : s.epptr = 0 ∨ s.epptr ∣ 2 ^ 31

/-- The put window of a `pipebuf` after `pbump` was called with `2 ^ 31`: the
capacity is `2 ^ 31` and the cursor is wherever an `int` offset has put it. -/
structure put_wrapped (s : pipebuf) : Prop where
  limit : s.epptr = 2 ^ 31
  low : -2 ^ 31 ≤ s.pptr
  high : s.pptr ≤ 2 ^ 31

/-- What holds in every state a `pipebuf` reaches: the window invariant of the
get area, the two facts that carry it through the calls (`BUFSIZE` is the
constant the constructor stores, and the read vector of a buffer opened for
reading has `BUFSIZE` bytes), and a put window that is inside its vector or
has been left by `pbump(2 ^ 31)`. -/
structure window_inv (s : pipebuf) : Prop where
  get_cursor : s.gptr ≤ s.egptr
  get_limit : s.egptr ≤ s._read.length
  bufsize : s.BUFSIZE = DEFAULT_BUFSIZE
  read_size : s._which.in_ = true → s._read.length = s.BUFSIZE
  put_window : put_inside s ∨ put_wrapped s

/-- The state after the byte 7 was put into a fresh read+write `pipebuf` and
`sync` met a kernel that accepts two bytes and then would block. -/
def ex_reached : pipebuf :=
  (sync (sputc 0 (mk_open ⟨true, true⟩ 3 4) ex_idle 7).2.1 ex_two_then_block).2.1

end pipebuf
end buffers

/-! ## Connecting, swapping and the readiness of the put area -/

namespace buffers

namespace pipebuf

/-- A kernel that accepts two bytes, then fails with the fatal error `EIO`, and
accepts up to three bytes at the `write` after that. -/
def ex_two_then_fail : Kernel := ⟨[.accept 2, .fail EIO, .accept 3], [], [], [], []⟩

/-- The put area of a `pipebuf` is there and has at least the default
capacity. -/
structure put_ready (s : pipebuf) : Prop where
  nonnull : s.pbase_null = false
  capacity : DEFAULT_BUFSIZE ≤ s.epptr

end pipebuf

namespace sockbuf

/-- A fresh read+write `sockbuf` on the descriptor 6 into which the byte 65 was
put. -/
def ex_other : sockbuf := put (mk_open 6 ⟨true, true⟩ 0 false) 65

end sockbuf
end buffers

namespace streams

/-- State of a `sockstream`: the `sockbuf` it owns (the state of the
`std::iostream` base holds no buffer contents and no descriptor). -/
structure sockstream where
  _buf : buffers.sockbuf
deriving DecidableEq, Repr

namespace sockstream

/-- The function `sockstream::swap` on `self` with the argument `other`; the
result is the pair of `self` and `other` afterwards, and `none` when one of
its move assignments has undefined behaviour.  `tmp` is move-constructed from
`other._buf` (`e` and `c` are the values its uninitialised `_errno` and
`_connected` happen to hold), then `other._buf = std::move(tmp)` and
`_buf = std::move(tmp)`.  The closing `Base::swap(other)` exchanges the state
of the two `std::iostream` bases, which is not part of this model. -/
def swap (self other : sockstream) (e : Int) (c : Bool) : Option (sockstream × sockstream) :=
  let step1 := buffers.sockbuf.move_construct other._buf e c
  match buffers.sockbuf.move_assign step1.2 step1.1 with
  | none => none
  | some step2 =>
    match buffers.sockbuf.move_assign self._buf step2.2 with
    | none => none
    | some step3 => some (⟨step3.1⟩, ⟨step2.1⟩)

/-- A `sockstream` on the descriptor 5 with nothing buffered. -/
def ex_a : sockstream := ⟨buffers.sockbuf.ex_fresh⟩

/-- A `sockstream` on the descriptor 6 with the byte 65 buffered for
writing. -/
def ex_b : sockstream := ⟨buffers.sockbuf.ex_other⟩

end sockstream
end streams

/-! ## Theorems -/

theorem size_t_pred_le (n : Nat) (h : 1 ≤ n) : size_t_pred n ≤ n - 1 := by
  unfold size_t_pred SIZE_MAX
  omega

theorem take_resize (v : List Byte) (n off : Nat) (h1 : off ≤ n) (h2 : off ≤ v.length) :
    (resize v n).take off = v.take off := by
  unfold resize
  rw [List.take_append_of_le_length (by simp; omega), List.take_take]
  congr 1
  omega

theorem take_memmove_zero (mem : List Byte) (src n : Nat) (h : src + n ≤ mem.length) :
    (memmove mem 0 src n).take n = (mem.drop src).take n := by
  unfold memmove
  simp only [List.take_zero, List.nil_append]
  rw [List.take_append_of_le_length (by simp; omega)]
  simp

theorem length_memmove_zero (mem : List Byte) (src n : Nat) (h : src + n ≤ mem.length) :
    (memmove mem 0 src n).length = mem.length := by
  unfold memmove
  simp
  omega

theorem size_t_of_int_eq (i : Int) (h0 : 0 ≤ i) (h1 : i < 2 ^ 64) :
    size_t_of_int i = i.toNat := by
  unfold size_t_of_int
  omega

theorem size_t_of_int_natCast (n : Nat) (h : n < 2 ^ 64) : size_t_of_int (n : Int) = n := by
  unfold size_t_of_int
  omega

/-- The conversion to `int` is the representative of the residue modulo
`2 ^ 32` that lies in the range of `int`. -/
theorem to_int_spec (i : Int) : to_int i = (i + 2 ^ 31) % 2 ^ 32 - 2 ^ 31 := by
  unfold to_int
  dsimp only
  split <;> omega

theorem to_int_range (i : Int) : -2 ^ 31 ≤ to_int i ∧ to_int i < 2 ^ 31 := by
  rw [to_int_spec]
  omega

/-- An offset below `2 ^ 31` is kept by the conversion to `int`. -/
theorem to_int_eq (i : Int) (h0 : -2 ^ 31 ≤ i) (h1 : i < 2 ^ 31) : to_int i = i := by
  rw [to_int_spec]
  omega

theorem to_int_natCast (n : Nat) (h : n < 2 ^ 31) : to_int (n : Int) = (n : Int) := by
  rw [to_int_spec]
  omega

/-- The offset `2 ^ 31` becomes the smallest `int`. -/
theorem to_int_two_pow_31 : to_int (2 ^ 31) = -2 ^ 31 := by
  rw [to_int_spec]
  omega

namespace buffers
namespace pipebuf

/-- What `_send` does to fewer than `2 ^ 31` bytes: when it returns 0, the
bytes the kernel accepted followed by the bytes left in `[pbase, pptr)` are the
bytes offered, and only `_write` and `pptr` of the buffer have changed. -/
theorem pipe_send_go_bytes (ws : List WRes) :
    ∀ (s : pipebuf) (k : Kernel) (buf size : Nat) (s1 : pipebuf) (k1 : Kernel),
      buf + size ≤ s._write.length → size < 2 ^ 31 →
      _send_go ws s k buf size = (Outcome.ret 0, s1, k1) →
      ∃ acc, k1.sent = k.sent ++ acc ∧
        acc ++ s1.pending = (s._write.drop buf).take size ∧
        s1 = { s with _write := s1._write, pptr := s1.pptr } ∧
        s1._write.length = s._write.length ∧ 0 ≤ s1.pptr ∧ s1.pptr ≤ size := by
  induction ws with
  | nil => intro s k buf size s1 k1 _ _ h; simp [_send_go] at h
  | cons r ws ih =>
    intro s k buf size s1 k1 hb hz h
    cases r with
    | accept room =>
      simp only [_send_go, WRes.len] at h
      by_cases hlt : min room size < size
      · simp only [hlt, if_true] at h
        obtain ⟨acc, h1, h2, h3, h4, h5, h6⟩ :=
          ih s _ (buf + min room size) (size - min room size) s1 k1 (by omega) (by omega) h
        refine ⟨(List.take size (List.drop buf s._write)).take (min room size) ++ acc,
          ?_, ?_, h3, h4, h5, by omega⟩
        · rw [h1]; simp
        · rw [List.append_assoc, h2, List.take_take, ← List.drop_drop]
          have : min (min room size) size = min room size := by omega
          rw [this]
          have e : size = min room size + (size - min room size) := by omega
          conv_rhs => rw [e, List.take_add]
      · simp only [hlt, if_false, Prod.mk.injEq] at h
        obtain ⟨_, rfl, rfl⟩ := h
        have hm : min room size = size := by omega
        exact ⟨(List.take size (List.drop buf s._write)), by simp [hm], by simp [pending],
          by simp, by simp, le_refl _, Int.ofNat_nonneg _⟩
    | fail e =>
      simp only [_send_go, WRes.len] at h
      by_cases h1 : e = EINTR
      · simp only [h1, if_true] at h
        obtain ⟨acc, h1, h2, h3, h4, h5⟩ := ih s _ buf size s1 k1 hb hz h
        exact ⟨acc, by simpa using h1, h2, h3, h4, h5⟩
      · simp only [h1, if_false] at h
        by_cases h2 : e = EAGAIN
        · simp only [h2, if_true, Prod.mk.injEq] at h
          rw [to_int_natCast size hz] at h
          obtain ⟨_, rfl, rfl⟩ := h
          refine ⟨[], by simp, ?_, rfl, ?_, Int.ofNat_nonneg _, le_refl _⟩
          · simp only [pending, List.nil_append, Int.toNat_ofNat]
            exact take_memmove_zero _ _ _ hb
          · exact length_memmove_zero _ _ _ hb
        · simp [h2] at h

theorem pipe_pending_take (s : pipebuf) (n : Nat) (h : s.pptr = n) :
    s.pending = s._write.take n := by
  unfold pending
  rw [h, Int.toNat_ofNat]

/-- The grow/shrink step keeps the bytes of `[pbase, pptr)` and a cursor offset
below `2 ^ 31`. -/
theorem pipe_resizewbuf_pending (s : pipebuf) (hB : 1 ≤ s.BUFSIZE) (h0 : 0 ≤ s.pptr)
    (hc : s.pptr ≤ s._write.length) (hz : s.pptr < 2 ^ 31) :
    (_resizewbuf s).pending = s.pending ∧ (_resizewbuf s).pptr = s.pptr ∧
    (_resizewbuf s).pbase_null = false ∨ _resizewbuf s = s := by
  have hp := size_t_pred_le s.BUFSIZE hB
  obtain ⟨n, hn⟩ := Int.eq_ofNat_of_zero_le h0
  have hoff : size_t_of_int s.pptr = n := by
    rw [hn]
    exact size_t_of_int_natCast n (by omega)
  have hto : to_int (n : Int) = s.pptr := by
    rw [hn]
    exact to_int_natCast n (by omega)
  unfold _resizewbuf
  dsimp only
  rw [hoff, hto]
  by_cases h1 : n < size_t_pred s.BUFSIZE ∧ s._write.length > s.BUFSIZE
  · left
    rw [if_pos h1]
    refine ⟨?_, rfl, rfl⟩
    unfold pending
    dsimp only
    rw [hn, Int.toNat_ofNat]
    exact take_resize s._write s.BUFSIZE n (by omega) (by omega)
  · rw [if_neg h1]
    by_cases h2 : s.pptr = s.epptr
    · left
      rw [if_pos h2]
      refine ⟨?_, rfl, rfl⟩
      unfold pending
      dsimp only
      rw [hn, Int.toNat_ofNat]
      exact take_resize s._write (2 * s._write.length) n (by omega) (by omega)
    · right
      rw [if_neg h2]

/-- The grow/shrink step keeps the window invariant when the cursor offset is
below `2 ^ 31`. -/
theorem pipe_resizewbuf_wf (s : pipebuf) (h : wf_write s) (hz : s.pptr < 2 ^ 31) :
    wf_write (_resizewbuf s) := by
  have hB : s.BUFSIZE = 4096 := h.bufsize
  have hp := size_t_pred_le s.BUFSIZE (by omega)
  have hl := h.limit
  have hc := h.cursor
  have h0 := h.low
  obtain ⟨n, hn⟩ := Int.eq_ofNat_of_zero_le h0
  have hoff : size_t_of_int s.pptr = n := by
    rw [hn]
    exact size_t_of_int_natCast n (by omega)
  have hto : to_int (n : Int) = s.pptr := by
    rw [hn]
    exact to_int_natCast n (by omega)
  unfold _resizewbuf
  dsimp only
  rw [hoff, hto]
  by_cases h1 : n < size_t_pred s.BUFSIZE ∧ s._write.length > s.BUFSIZE
  · rw [if_pos h1]
    refine ⟨h.open_, rfl, rfl, h0, ?_, h.bufsize⟩
    show s.pptr ≤ ((resize s._write s.BUFSIZE).length : Int)
    unfold resize
    rw [List.length_append, List.length_take, List.length_replicate]
    omega
  · rw [if_neg h1]
    by_cases h2 : s.pptr = s.epptr
    · rw [if_pos h2]
      refine ⟨h.open_, rfl, rfl, h0, ?_, h.bufsize⟩
      show s.pptr ≤ ((resize s._write (2 * s._write.length)).length : Int)
      unfold resize
      rw [List.length_append, List.length_take, List.length_replicate]
      omega
    · rw [if_neg h2]
      exact h

/-- Bytes through `sync` on the write side, with fewer than `2 ^ 31` bytes in
the window: when `sync` returns 0, the bytes the kernel accepted during the
call followed by the bytes left in `[pbase, pptr)` are the bytes that were in
the window, and the window invariant still holds. -/
theorem pipe_sync_bytes (s : pipebuf) (k : Kernel) (s' : pipebuf) (k' : Kernel) (h : wf_write s)
    (hz : s.pptr < 2 ^ 31) (h0 : sync s k = (Outcome.ret 0, s', k')) :
    ∃ acc, k'.sent = k.sent ++ acc ∧ acc ++ s'.pending = s.pending ∧ wf_write s' ∧
      s'.pptr ≤ s.pptr := by
  have hB : s.BUFSIZE = 4096 := h.bufsize
  have hl := h.limit
  have hc := h.cursor
  have ho := h.open_
  have hlow := h.low
  obtain ⟨n, hn⟩ := Int.eq_ofNat_of_zero_le hlow
  have hoff : size_t_of_int s.pptr = n := by
    rw [hn]
    exact size_t_of_int_natCast n (by omega)
  have hpend := pipe_pending_take s n hn
  unfold sync at h0
  rw [if_pos ho] at h0
  dsimp only at h0
  rw [hoff] at h0
  by_cases hs : n > 0
  · rw [if_pos hs] at h0
    rcases hsend : _send s k 0 n with ⟨o, s1, k1⟩
    rw [hsend] at h0
    cases o with
    | ret v =>
      dsimp only at h0
      by_cases hv : v ≠ 0
      · rw [if_pos hv] at h0
        simp at h0
      · rw [if_neg hv] at h0
        have hv0 : v = 0 := by_contra hv
        subst hv0
        simp only [Prod.mk.injEq, true_and] at h0
        obtain ⟨rfl, rfl⟩ := h0
        obtain ⟨acc, a1, a2, a3, a4, a5, a6⟩ :=
          pipe_send_go_bytes k.writes s k 0 n s1 k1 (by omega) (by omega) hsend
        have hw1 : wf_write s1 := by
          rw [a3]
          exact ⟨ho, h.nonnull, by rw [← a4] at hl; exact hl, a5,
            by show s1.pptr ≤ s.epptr; omega, h.bufsize⟩
        have hB1 : s1.BUFSIZE = 4096 := hw1.bufsize
        have hl1 := hw1.limit
        have hc1 := hw1.cursor
        refine ⟨acc, a1, ?_, pipe_resizewbuf_wf s1 hw1 (by omega), ?_⟩
        · have hp : (_resizewbuf s1).pending = s1.pending := by
            rcases pipe_resizewbuf_pending s1 (by omega) a5 (by omega) (by omega) with hh | hh
            · exact hh.1
            · rw [hh]
          rw [hp, a2, hpend]
          simp
        · have hle : s1.pptr ≤ s.pptr := by omega
          rcases pipe_resizewbuf_pending s1 (by omega) a5 (by omega) (by omega) with hh | hh
          · rw [hh.2.1]; exact hle
          · rw [hh]; exact hle
    | pending => simp at h0
    | throws => simp at h0
  · rw [if_neg hs] at h0
    simp only [Prod.mk.injEq, true_and] at h0
    obtain ⟨rfl, rfl⟩ := h0
    refine ⟨[], by simp, ?_, pipe_resizewbuf_wf s h hz, ?_⟩
    · rcases pipe_resizewbuf_pending s (by omega) hlow (by omega) hz with hh | hh
      · rw [hh.1]; rfl
      · rw [hh]; rfl
    · rcases pipe_resizewbuf_pending s (by omega) hlow (by omega) hz with hh | hh
      · exact le_of_eq hh.2.1
      · rw [hh]

theorem no_read_since_refl (k : Kernel) : no_read_since k k :=
  ⟨rfl, [], by simp, by simp⟩

theorem no_read_since_trans {a b c : Kernel} (h1 : no_read_since a b) (h2 : no_read_since b c) :
    no_read_since a c := by
  obtain ⟨l1, e1, f1⟩ := h1.calls
  obtain ⟨l2, e2, f2⟩ := h2.calls
  refine ⟨h2.reads.trans h1.reads, l1 ++ l2, by rw [e2, e1, List.append_assoc], ?_⟩
  intro c hc
  rcases List.mem_append.mp hc with h | h
  · exact f1 c h
  · exact f2 c h

theorem same_read_side_trans {a b c : pipebuf} (h1 : same_read_side a b)
    (h2 : same_read_side b c) : same_read_side a c :=
  ⟨h2.which.trans h1.which, h2.null.trans h1.null, h2.gptr.trans h1.gptr,
    h2.egptr.trans h1.egptr, h2.read.trans h1.read, h2.pipe.trans h1.pipe⟩

/-- The write path `_send` issues no `read` and leaves the read side alone. -/
theorem pipe_send_go_no_read (ws : List WRes) :
    ∀ (s : pipebuf) (k : Kernel) (buf size : Nat),
      same_read_side s (_send_go ws s k buf size).2.1 ∧
      no_read_since k (_send_go ws s k buf size).2.2 := by
  induction ws with
  | nil => intro s k buf size; exact ⟨⟨rfl, rfl, rfl, rfl, rfl, rfl⟩, no_read_since_refl k⟩
  | cons r ws ih =>
    intro s k buf size
    have step : ∀ (off : List Byte) (n : Nat), no_read_since k
        { k with writes := ws, calls := k.calls ++ [SysCall.write s._pipe.2 off],
                 sent := k.sent ++ off.take n } := by
      intro off n
      refine ⟨rfl, [SysCall.write s._pipe.2 off], rfl, ?_⟩
      intro c hc
      rw [List.mem_singleton.mp hc]
      rfl
    cases r with
    | accept room =>
      simp only [_send_go, WRes.len]
      split
      · exact ⟨(ih _ _ _ _).1, no_read_since_trans (step _ _) (ih _ _ _ _).2⟩
      · exact ⟨⟨rfl, rfl, rfl, rfl, rfl, rfl⟩, step _ _⟩
    | fail e =>
      simp only [_send_go, WRes.len]
      split
      · exact ⟨(ih _ _ _ _).1, no_read_since_trans (step _ _) (ih _ _ _ _).2⟩
      · split
        · exact ⟨⟨rfl, rfl, rfl, rfl, rfl, rfl⟩, step _ _⟩
        · exact ⟨⟨rfl, rfl, rfl, rfl, rfl, rfl⟩, step _ _⟩

theorem pipe_resizewbuf_read_side (s : pipebuf) : same_read_side s (_resizewbuf s) := by
  unfold _resizewbuf
  dsimp only
  split
  · exact ⟨rfl, rfl, rfl, rfl, rfl, rfl⟩
  · split
    · exact ⟨rfl, rfl, rfl, rfl, rfl, rfl⟩
    · exact ⟨rfl, rfl, rfl, rfl, rfl, rfl⟩

/-- With the write bit set, `sync` takes its write branch: it issues no `read`
and leaves the read side alone. -/
theorem pipe_sync_out_no_read (s : pipebuf) (k : Kernel) (ho : s._which.out = true) :
    same_read_side s (sync s k).2.1 ∧ no_read_since k (sync s k).2.2 := by
  unfold sync
  rw [if_pos ho]
  dsimp only
  split
  · have hs := pipe_send_go_no_read k.writes s k 0 (size_t_of_int s.pptr)
    unfold _send
    rcases hsend : _send_go k.writes s k 0 (size_t_of_int s.pptr) with ⟨o, s1, k1⟩
    rw [hsend] at hs
    cases o with
    | ret v =>
      dsimp only
      split
      · exact hs
      · dsimp only at hs ⊢
        exact ⟨same_read_side_trans hs.1 (pipe_resizewbuf_read_side s1), hs.2⟩
    | pending => exact hs
    | throws => exact hs
  · dsimp only
    exact ⟨pipe_resizewbuf_read_side s, no_read_since_refl k⟩

theorem pipe_send_go_not_throws (ws : List WRes) :
    ∀ (s : pipebuf) (k : Kernel) (buf size : Nat),
      (_send_go ws s k buf size).1 ≠ Outcome.throws := by
  induction ws with
  | nil => intro s k buf size; simp [_send_go]
  | cons r ws ih =>
    intro s k buf size
    cases r with
    | accept room =>
      simp only [_send_go, WRes.len]
      split
      · exact ih _ _ _ _
      · simp
    | fail e =>
      simp only [_send_go, WRes.len]
      split
      · exact ih _ _ _ _
      · split <;> simp

theorem pipe_recv_go_not_throws (rs : List RRes) :
    ∀ (s : pipebuf) (k : Kernel), (_recv_go rs s k).1 ≠ Outcome.throws := by
  induction rs with
  | nil => intro s k; simp [_recv_go]
  | cons r rs ih =>
    intro s k
    cases r with
    | deliver data =>
      simp only [_recv_go]
      split <;> simp
    | fail e =>
      simp only [_recv_go]
      split
      · exact ih _ _
      · split <;> simp

theorem pipe_sync_not_throws (s : pipebuf) (k : Kernel) : (sync s k).1 ≠ Outcome.throws := by
  unfold sync
  split
  · dsimp only
    split
    · have := pipe_send_go_not_throws k.writes s k 0 (size_t_of_int s.pptr)
      unfold _send
      rcases hsend : _send_go k.writes s k 0 (size_t_of_int s.pptr) with ⟨o, s1, k1⟩
      rw [hsend] at this
      cases o with
      | ret v => dsimp only; split <;> simp
      | pending => simp
      | throws => exact absurd rfl this
    · simp
  · split
    · dsimp only
      generalize (if s.gptr ≠ 0 then s._mvrbuf else s) = s0
      have := pipe_recv_go_not_throws k.reads s0 k
      unfold _recv
      rcases hrecv : _recv_go k.reads s0 k with ⟨o, s1, k1⟩
      rw [hrecv] at this
      cases o with
      | ret v => dsimp only; split <;> simp
      | pending => simp
      | throws => exact absurd rfl this
    · simp

theorem pipe_poll_no_read (pipe : Int × Int) (events : Nat) (p : PRes) (k : Kernel) :
    no_read_since k (_poll pipe events p k).2 := by
  have step : ∀ fd : Int, no_read_since k
      { k with polls := k.polls.tail, calls := k.calls ++ [SysCall.poll fd events] } := by
    intro fd
    refine ⟨rfl, [SysCall.poll fd events], rfl, ?_⟩
    intro c hc
    rw [List.mem_singleton.mp hc]
    rfl
  unfold _poll
  dsimp only
  split
  · exact step _
  · exact step _

/-- C3 (what the code does). In every open mode that has the write bit,
the default read+write mode included, `underflow` on an exhausted read window
(`gptr == egptr`) never issues a `read`: however deep the recursion goes, the
kernel's answers to `read` are untouched, no `read` is in the log of calls,
and the call either is still recursing or returns end-of-stream; it never
returns a byte. -/
theorem pipe_underflow_with_write_bit_never_reads (fuel : Nat) :
    ∀ (s : pipebuf) (k : Kernel), s._which.out = true → s.gptr = s.egptr →
      no_read_since k (underflow_go fuel s k).2.2 ∧
      ((underflow_go fuel s k).1 = Outcome.pending ∨
        (underflow_go fuel s k).1 = Outcome.ret eof) := by
  induction fuel with
  | zero => intro s k _ _; exact ⟨no_read_since_refl k, Or.inl rfl⟩
  | succ fuel ih =>
    intro s k ho hex
    unfold underflow_go
    split
    · exact ⟨no_read_since_refl k, Or.inr rfl⟩
    · have hs := pipe_sync_out_no_read s k ho
      rcases hsync : sync s k with ⟨o, s1, k1⟩
      rw [hsync] at hs
      dsimp only at hs
      cases o with
      | ret v =>
        dsimp only
        split
        · exact ⟨hs.2, Or.inr rfl⟩
        · have hex1 : s1.gptr = s1.egptr := by rw [hs.1.gptr, hs.1.egptr]; exact hex
          rw [if_pos hex1]
          split
          · exact ⟨hs.2, Or.inl rfl⟩
          · rename_i p ps hp
            have hp1 := pipe_poll_no_read s1._pipe POLLIN p k1
            split
            · exact ⟨no_read_since_trans hs.2 hp1, Or.inr rfl⟩
            · have := ih s1 (_poll s1._pipe POLLIN p k1).2 (by rw [hs.1.which]; exact ho) hex1
              exact ⟨no_read_since_trans hs.2 (no_read_since_trans hp1 this.1), this.2⟩
      | pending => exact ⟨hs.2, Or.inl rfl⟩
      | throws =>
        exfalso
        have := pipe_sync_not_throws s k
        rw [hsync] at this
        exact this rfl

/-- C3 at a concrete input: a fresh `pipebuf` in the default mode, the peer has
written a byte and `poll` reports the read descriptor readable three times.
Three levels of `underflow` issue three `poll`s and no `read`; the byte stays
in the kernel and the call is still recursing. -/
theorem pipe_underflow_with_write_bit_never_reads_witness :
    ex_default._which.out = true ∧ ex_default.gptr = ex_default.egptr ∧
    ex_default.eback_null = false ∧
    (no_read_since ex_readable (underflow_go 3 ex_default ex_readable).2.2 ∧
      ((underflow_go 3 ex_default ex_readable).1 = Outcome.pending ∨
        (underflow_go 3 ex_default ex_readable).1 = Outcome.ret eof)) ∧
    (underflow_go 3 ex_default ex_readable).1 = Outcome.pending ∧
    (underflow_go 3 ex_default ex_readable).2.2.reads = [RRes.deliver [65]] ∧
    (underflow_go 3 ex_default ex_readable).2.2.calls =
      [SysCall.poll 3 POLLIN, SysCall.poll 3 POLLIN, SysCall.poll 3 POLLIN] :=
  ⟨rfl, rfl, rfl, pipe_underflow_with_write_bit_never_reads 3 ex_default ex_readable rfl rfl,
    by decide!, by decide!, by decide!⟩

/-- In the read-only mode `underflow` does what C3 says: on an exhausted read
window it compacts the window, issues one `read` for the whole capacity on the
read descriptor, and when the kernel delivers at least one byte it returns the
first delivered byte without recursing or polling. -/
theorem pipe_underflow_read_only_reads_first (fuel : Nat) (s : pipebuf) (k : Kernel)
    (c : Byte) (data : List Byte) (rest : List RRes)
    (hw : s._which = ⟨true, false⟩) (hn : s.eback_null = false) (hex : s.gptr = s.egptr)
    (hB : s.BUFSIZE = DEFAULT_BUFSIZE) (hk : k.reads = RRes.deliver (c :: data) :: rest) :
    (underflow_go (fuel + 1) s k).1 = Outcome.ret (to_int_type c) ∧
    (underflow_go (fuel + 1) s k).2.2.calls = k.calls ++ [SysCall.read s._pipe.1 s.BUFSIZE] ∧
    (underflow_go (fuel + 1) s k).2.2.reads = rest ∧
    (underflow_go (fuel + 1) s k).2.2.polls = k.polls ∧
    (underflow_go (fuel + 1) s k).2.1.gptr = 0 ∧
    (underflow_go (fuel + 1) s k).2.1.unread = (c :: data).take s.BUFSIZE := by
  -- the window after the compaction is empty at offset 0
  obtain ⟨s0, hs0, g0, e0, B0, p0⟩ : ∃ s0 : pipebuf,
      s0 = (if s.gptr ≠ 0 then _mvrbuf s else s) ∧ s0.gptr = 0 ∧ s0.egptr = 0 ∧
      s0.BUFSIZE = s.BUFSIZE ∧ s0._pipe = s._pipe := by
    refine ⟨_, rfl, ?_, ?_, ?_, ?_⟩
    · split
      · rfl
      · rename_i h; exact not_not.mp h
    · split
      · show s.egptr - s.gptr = 0
        omega
      · rename_i h; rw [← hex]; exact not_not.mp h
    · split <;> rfl
    · split <;> rfl
  have hsize : size_t_of_int ((s0.BUFSIZE : Int) - (s0.egptr : Int)) = s.BUFSIZE := by
    rw [e0, B0, hB]
    decide
  have hgot : ((c :: data).take s.BUFSIZE).length ≠ 0 := by
    rw [hB]
    simp [DEFAULT_BUFSIZE]
  have hrecv : _recv s0 k = (Outcome.ret 0,
      { s0 with _read := store s0._read s0.egptr ((c :: data).take s.BUFSIZE),
                egptr := s0.egptr + ((c :: data).take s.BUFSIZE).length },
      { k with reads := rest, calls := k.calls ++ [SysCall.read s0._pipe.1 s.BUFSIZE] }) := by
    unfold _recv
    rw [hk]
    simp only [_recv_go, hsize]
    rw [if_neg hgot]
  have hsync : sync s k = (Outcome.ret 0,
      { s0 with _read := store s0._read s0.egptr ((c :: data).take s.BUFSIZE),
                egptr := s0.egptr + ((c :: data).take s.BUFSIZE).length },
      { k with reads := rest, calls := k.calls ++ [SysCall.read s0._pipe.1 s.BUFSIZE] }) := by
    unfold sync
    rw [hw]
    simp only [Bool.false_eq_true, if_false, if_true, ← hs0, hrecv]
    rfl
  have hne : ¬ ((0 : Nat) = 0 + ((c :: data).take s.BUFSIZE).length) := by omega
  unfold underflow_go
  rw [hn, hsync]
  simp only [Bool.false_eq_true, if_false, ne_eq, not_true_eq_false, g0, e0, hne, p0]
  refine ⟨?_, trivial, trivial, trivial, trivial, ?_⟩
  · have : (c :: data).take s.BUFSIZE = c :: data.take (s.BUFSIZE - 1) := by
      rw [hB]; rfl
    rw [this]
    simp [store]
  · simp [unread, store]

/-- After the grow/shrink step `write_remaining()` is the cursor offset, when
that is below `2 ^ 31`. -/
theorem pipe_resizewbuf_remaining (s : pipebuf) (n : Nat) (hn : s.pbase_null = false)
    (hp : s.pptr = n) (hz : n < 2 ^ 31) :
    write_remaining (_resizewbuf s) = n := by
  have hoff : size_t_of_int s.pptr = n := by
    rw [hp]
    exact size_t_of_int_natCast n (by omega)
  have hto : to_int (n : Int) = n := to_int_natCast n hz
  have key : ∀ t : pipebuf, t.pbase_null = false → t.pptr = n → write_remaining t = n := by
    intro t h1 h2
    unfold write_remaining
    rw [h1, h2, size_t_of_int_natCast n (by omega)]
    rfl
  unfold _resizewbuf
  dsimp only
  rw [hoff, hto]
  split
  · exact key _ rfl rfl
  · split
    · exact key _ rfl rfl
    · exact key s hn hp

/-- The two runs of `sync` that C2 names, on the kernel's answers themselves,
with `n < 2 ^ 31` bytes in the window: the kernel takes everything at once, or
it takes `j` bytes and then would block. -/
theorem pipe_sync_runs (s : pipebuf) (k : Kernel) (n : Nat) (h : wf_write s) (hp : s.pptr = n)
    (hpos : 0 < n) (hz : n < 2 ^ 31) :
    (∀ (room : Nat) (ws : List WRes), k.writes = WRes.accept room :: ws → n ≤ room →
      (sync s k).1 = Outcome.ret 0 ∧ write_remaining (sync s k).2.1 = 0 ∧
      (sync s k).2.2.sent = k.sent ++ s.pending) ∧
    (∀ (j : Nat) (ws : List WRes), k.writes = WRes.accept j :: WRes.fail EAGAIN :: ws →
      j < n →
      (sync s k).1 = Outcome.ret 0 ∧ write_remaining (sync s k).2.1 = n - j ∧
      (sync s k).2.2.sent = k.sent ++ s.pending.take j) := by
  have ho := h.open_
  have hn := h.nonnull
  have hc := h.cursor
  have hl := h.limit
  have hoff : size_t_of_int s.pptr = n := by
    rw [hp]
    exact size_t_of_int_natCast n (by omega)
  have hpend := pipe_pending_take s n hp
  constructor
  · intro room ws hk hroom
    have hm : min room n = n := by omega
    have hsend : _send s k 0 n = (Outcome.ret 0, { s with pptr := 0 },
        { k with writes := ws
                 calls := k.calls ++ [SysCall.write s._pipe.2 ((s._write.drop 0).take n)]
                 sent := k.sent ++ ((s._write.drop 0).take n).take (min room n) }) := by
      unfold _send
      rw [hk]
      simp only [_send_go, WRes.len]
      rw [if_neg (by omega)]
    unfold sync
    rw [if_pos ho]
    dsimp only
    rw [hoff, if_pos hpos, hsend]
    dsimp only
    rw [if_neg (by simp)]
    dsimp only
    refine ⟨rfl, ?_, ?_⟩
    · exact pipe_resizewbuf_remaining { s with pptr := 0 } 0 hn rfl (by decide)
    · rw [hm, List.take_take, Nat.min_self, hpend]
      rfl
  · intro j ws hk hj
    have hm : min j n = j := by omega
    have hsend : _send s k 0 n = (Outcome.ret 0,
        { s with _write := memmove s._write 0 (0 + min j n) (n - min j n),
                 pptr := ((n - min j n : Nat) : Int) },
        { k with writes := ws
                 calls := (k.calls ++ [SysCall.write s._pipe.2 ((s._write.drop 0).take n)]) ++
                   [SysCall.write s._pipe.2
                     ((s._write.drop (0 + min j n)).take (n - min j n))]
                 sent := (k.sent ++ ((s._write.drop 0).take n).take (min j n)) ++
                   ((s._write.drop (0 + min j n)).take (n - min j n)).take 0 }) := by
      unfold _send
      rw [hk]
      simp only [_send_go, WRes.len]
      rw [if_pos (by omega), if_neg (by decide), to_int_natCast (n - min j n) (by omega)]
      exact if_pos trivial
    unfold sync
    rw [if_pos ho]
    dsimp only
    rw [hoff, if_pos hpos, hsend]
    dsimp only
    rw [if_neg (by simp)]
    dsimp only
    refine ⟨rfl, ?_, ?_⟩
    · have := pipe_resizewbuf_remaining
        { s with _write := memmove s._write 0 (0 + min j n) (n - min j n),
                 pptr := ((n - min j n : Nat) : Int) } (n - min j n) hn rfl (by omega)
      rw [this, hm]
    · rw [hm, List.take_zero, List.append_nil, List.take_take]
      have : min j n = j := hm
      rw [this, hpend, List.take_take, this]
      rfl

/-- What C2 says holds for every window of fewer than `2 ^ 31` buffered bytes.
For a `pipebuf` with the write side open that holds `n = pptr - pbase < 2 ^ 31`
unflushed bytes: when `sync` returns 0 after the kernel accepted the bytes
`acc` during the call, `write_remaining()` is exactly `n - acc.length`; it is
0 when the kernel accepted every buffered byte, and `n - k` when the call was
cut short by would-block after `k` bytes.  Both runs do return 0: the one in
which the kernel takes all `n` bytes at once, and the one in which it takes
`j < n` bytes and then answers `EAGAIN`. -/
theorem pipe_write_remaining_below_two_gib (s : pipebuf) (k : Kernel) (n : Nat)
    (h : wf_write s) (hp : s.pptr = n) (hz : n < 2 ^ 31) :
    (∀ (s' : pipebuf) (k' : Kernel), sync s k = (Outcome.ret 0, s', k') →
      ∃ acc, k'.sent = k.sent ++ acc ∧ acc.length ≤ n ∧
        write_remaining s' = n - acc.length ∧
        (acc = s.pending → write_remaining s' = 0)) ∧
    (∀ (room : Nat) (ws : List WRes), 0 < n → k.writes = WRes.accept room :: ws →
      n ≤ room →
      (sync s k).1 = Outcome.ret 0 ∧ write_remaining (sync s k).2.1 = 0) ∧
    (∀ (j : Nat) (ws : List WRes), k.writes = WRes.accept j :: WRes.fail EAGAIN :: ws →
      j < n →
      (sync s k).1 = Outcome.ret 0 ∧ write_remaining (sync s k).2.1 = n - j) := by
  refine ⟨?_, ?_, ?_⟩
  · intro s' k' h0
    obtain ⟨acc, a1, a2, a3, a4⟩ := pipe_sync_bytes s k s' k' h (by omega) h0
    have hl := h.limit
    have hc := h.cursor
    have hl' := a3.limit
    have hc' := a3.cursor
    obtain ⟨m, hm⟩ := Int.eq_ofNat_of_zero_le a3.low
    have hlen := congrArg List.length a2
    rw [pipe_pending_take s n hp, pipe_pending_take s' m hm] at hlen
    simp only [List.length_append, List.length_take] at hlen
    have hw : write_remaining s' = m := by
      unfold write_remaining
      rw [a3.nonnull, hm, size_t_of_int_natCast m (by omega)]
      rfl
    refine ⟨acc, a1, by omega, by omega, ?_⟩
    intro hacc
    have : acc.length = n := by
      rw [hacc, pipe_pending_take s n hp]
      simp only [List.length_take]
      omega
    omega
  · intro room ws hpos hk hroom
    have := (pipe_sync_runs s k n h hp hpos hz).1 room ws hk hroom
    exact ⟨this.1, this.2.1⟩
  · intro j ws hk hj
    have := (pipe_sync_runs s k n h hp (by omega) hz).2 j ws hk hj
    exact ⟨this.1, this.2.1⟩

theorem pipe_ex_three_wf : wf_write ex_three :=
  ⟨rfl, rfl, by decide!, by decide!, by decide!, rfl⟩

/-- The bounded statement at a concrete input: three bytes buffered, the kernel
accepts two and then would block; `sync` returns 0 and one byte remains. -/
theorem pipe_write_remaining_below_two_gib_witness :
    wf_write ex_three ∧ ex_three.pptr = (3 : Nat) ∧
    ex_two_then_block.writes = WRes.accept 2 :: WRes.fail EAGAIN :: [] ∧
    (sync ex_three ex_two_then_block).1 = Outcome.ret 0 ∧
    write_remaining (sync ex_three ex_two_then_block).2.1 = 3 - 2 :=
  ⟨pipe_ex_three_wf, rfl, rfl,
    ((pipe_write_remaining_below_two_gib ex_three ex_two_then_block 3 pipe_ex_three_wf rfl
      (by decide)).2.2 2 [] rfl (by decide)).1,
    ((pipe_write_remaining_below_two_gib ex_three ex_two_then_block 3 pipe_ex_three_wf rfl
      (by decide)).2.2 2 [] rfl (by decide)).2⟩

theorem to_int_type_ne_eof (c : Byte) : to_int_type c ≠ eof := by
  unfold to_int_type eof
  omega

theorem pipe_sputn_cons (fuel : Nat) (c : Byte) (cs : List Byte) (s : pipebuf) (k : Kernel) :
    sputn fuel (c :: cs) s k =
      match sputc fuel s k c with
      | (Outcome.ret v, s1, k1) =>
        if v = eof then (Outcome.ret eof, s1, k1) else sputn fuel cs s1 k1
      | (o, s1, k1) => (o, s1, k1) := by
  rw [sputn]

theorem pipe_put_length (s : pipebuf) (c : Byte) : (put s c)._write.length = s._write.length := by
  unfold put
  dsimp only
  split
  · exact List.length_set _ _ _
  · rfl

/-- Bytes that fit into the put area are stored one after the other without
any call of `overflow`. -/
theorem pipe_sputn_fits (fuel : Nat) (rest : List Byte) (cs : List Byte) :
    ∀ (s : pipebuf) (k : Kernel) (n : Nat), s.pptr = n → n + cs.length ≤ s.epptr →
      ∃ s1, sputn fuel (cs ++ rest) s k = sputn fuel rest s1 k ∧
        put_area_at s s1 (n + cs.length) := by
  induction cs with
  | nil => intro s k n hn _; exact ⟨s, rfl, ⟨hn, rfl, rfl, rfl, rfl, rfl, rfl⟩⟩
  | cons c cs ih =>
    intro s k n hn h
    simp only [List.length_cons] at h
    have hp : (put s c).pptr = ((n + 1 : Nat) : Int) := by
      show s.pptr + 1 = _
      rw [hn]
      rfl
    obtain ⟨s1, e1, f1⟩ := ih (put s c) k (n + 1) hp (by show n + 1 + cs.length ≤ s.epptr; omega)
    refine ⟨s1, ?_, ?_⟩
    · rw [List.cons_append, pipe_sputn_cons]
      unfold sputc
      rw [if_pos (by omega)]
      dsimp only
      rw [if_neg (to_int_type_ne_eof c)]
      exact e1
    · exact ⟨by rw [f1.pptr, List.length_cons]; omega, f1.epptr, f1.null, f1.bufsize,
        f1.which, f1.size.trans (pipe_put_length s c), f1.pipe⟩

/-- A byte put into a full window of the default size while the kernel has room
for the whole window: `overflow` flushes the window and stores the byte at its
front. -/
theorem pipe_sputc_full (s : pipebuf) (k : Kernel) (c : Byte) (room : Nat) (ws : List WRes)
    (h : wf_write s) (hfull : s.pptr = s.epptr) (hsize : s._write.length = DEFAULT_BUFSIZE)
    (hk : k.writes = WRes.accept room :: ws) (hroom : DEFAULT_BUFSIZE ≤ room) :
    ∃ s1 k1, sputc 1 s k c = (Outcome.ret (to_int_type c), s1, k1) ∧ put_area_at s s1 1 ∧
      k1.sent.length = k.sent.length + DEFAULT_BUFSIZE ∧ k1.writes = ws := by
  have hl := h.limit
  have hB := h.bufsize
  have hd : DEFAULT_BUFSIZE = 4096 := rfl
  have hoff : size_t_of_int s.pptr = 4096 := by
    rw [hfull, hl, hsize, hd]
    exact size_t_of_int_natCast 4096 (by decide)
  obtain ⟨k1, hk1s, hk1w, hsend⟩ : ∃ k1 : Kernel, k1.sent.length = k.sent.length + DEFAULT_BUFSIZE ∧
      k1.writes = ws ∧ _send s k 0 4096 = (Outcome.ret 0, { s with pptr := 0 }, k1) := by
    refine ⟨{ k with writes := ws
                     calls := k.calls ++ [SysCall.write s._pipe.2 ((s._write.drop 0).take 4096)]
                     sent := k.sent ++ ((s._write.drop 0).take 4096).take (min room 4096) },
      ?_, rfl, ?_⟩
    · simp only [List.length_append, List.length_take, List.length_drop]
      omega
    · unfold _send
      rw [hk]
      simp only [_send_go, WRes.len]
      rw [if_neg (by omega)]
  have hres : _resizewbuf { s with pptr := 0 } = { s with pptr := 0 } := by
    have h0 : size_t_of_int (0 : Int) = 0 := size_t_of_int_natCast 0 (by decide)
    have hp := size_t_pred_le s.BUFSIZE (by omega)
    unfold _resizewbuf
    dsimp only
    rw [h0, if_neg (by omega), if_neg (by omega)]
  have hsync : sync s k = (Outcome.ret 0, { s with pptr := 0 }, k1) := by
    unfold sync
    rw [if_pos h.open_]
    dsimp only
    rw [hoff, if_pos (by decide), hsend]
    dsimp only
    rw [if_neg (by simp), hres]
  refine ⟨put { s with pptr := 0 } ((to_int_type c) % 256).toNat, k1, ?_, ?_, hk1s, hk1w⟩
  · unfold sputc
    rw [if_neg (by omega)]
    unfold overflow_go
    rw [h.nonnull, hsync]
    dsimp only
    have e0 : ¬ ((0 : Int) = s.epptr) := by omega
    have e1 : (0 : Int) < s.epptr := by omega
    simp only [Bool.false_eq_true, if_false, ne_eq, not_true_eq_false, e0, e1, if_true,
      to_int_type_ne_eof c]
    have : to_int_type (to_int_type c % 256).toNat = to_int_type c := by
      unfold to_int_type
      omega
    rw [this, h.nonnull]
  · exact ⟨rfl, rfl, h.nonnull ▸ rfl, rfl, rfl, pipe_put_length _ _, rfl⟩

/-- The illustration of C2: 5000 bytes put into a fresh `pipebuf` (window of
4096 bytes) while the kernel has room for at least 4096 bytes.  The window
fills, the 4097th byte makes `overflow` flush the 4096 bytes, which the kernel
accepts, and the other 904 bytes stay buffered: `write_remaining()` is 904. -/
theorem pipe_put_5000_leaves_904 (c : Byte) (rfd wfd : Int) (room : Nat) (k : Kernel)
    (ws : List WRes) (hk : k.writes = WRes.accept room :: ws) (hroom : 4096 ≤ room) :
    (sputn 1 (List.replicate 5000 c) (mk_open ⟨true, true⟩ rfd wfd) k).1 = Outcome.ret 0 ∧
    write_remaining (sputn 1 (List.replicate 5000 c) (mk_open ⟨true, true⟩ rfd wfd) k).2.1
      = 904 ∧
    (sputn 1 (List.replicate 5000 c) (mk_open ⟨true, true⟩ rfd wfd) k).2.2.sent.length
      = k.sent.length + 4096 := by
  have hsplit : List.replicate 5000 c =
      List.replicate 4096 c ++ (c :: (List.replicate 903 c ++ [])) := by
    rw [List.append_nil, show (5000 : Nat) = 4096 + (1 + 903) from rfl, List.replicate_add,
      List.replicate_add]
    rfl
  have hw0 : (mk_open ⟨true, true⟩ rfd wfd)._write.length = 4096 := by
    show (resize [] DEFAULT_BUFSIZE).length = 4096
    unfold resize
    rw [List.length_append, List.length_take, List.length_replicate]
    rfl
  have h0 : wf_write (mk_open ⟨true, true⟩ rfd wfd) :=
    ⟨rfl, rfl, hw0.symm, le_refl _, Int.ofNat_nonneg _, rfl⟩
  obtain ⟨s1, e1, f1⟩ := pipe_sputn_fits 1 (c :: (List.replicate 903 c ++ []))
    (List.replicate 4096 c) (mk_open ⟨true, true⟩ rfd wfd) k 0 rfl
    (by rw [List.length_replicate]; exact Nat.le_refl _)
  have hp1 : s1.pptr = 4096 := by
    rw [f1.pptr, List.length_replicate]
    rfl
  have he1 : s1.epptr = 4096 := f1.epptr
  have hwf1 : wf_write s1 :=
    ⟨f1.which ▸ rfl, f1.null ▸ rfl, by rw [he1, f1.size, hw0], by omega, by omega,
      f1.bufsize ▸ rfl⟩
  obtain ⟨s2, k2, e2, f2, hsent, _⟩ := pipe_sputc_full s1 k c room ws hwf1 (by omega)
    (by rw [f1.size, hw0]; rfl) hk hroom
  obtain ⟨s3, e3, f3⟩ := pipe_sputn_fits 1 [] (List.replicate 903 c) s2 k2 1 f2.pptr
    (by rw [List.length_replicate, f2.epptr, he1]; decide)
  have hall : sputn 1 (List.replicate 5000 c) (mk_open ⟨true, true⟩ rfd wfd) k
      = (Outcome.ret 0, s3, k2) := by
    rw [hsplit, e1]
    show (match sputc 1 s1 k c with
      | (Outcome.ret v, s1, k1) =>
        if v = eof then (Outcome.ret eof, s1, k1)
        else sputn 1 (List.replicate 903 c ++ []) s1 k1
      | (o, s1, k1) => (o, s1, k1)) = _
    rw [e2]
    dsimp only
    rw [if_neg (to_int_type_ne_eof c), e3]
    rfl
  rw [hall]
  refine ⟨rfl, ?_, hsent⟩
  show write_remaining s3 = 904
  unfold write_remaining
  rw [f3.null, f2.null, f1.null, f3.pptr, List.length_replicate]
  exact size_t_of_int_natCast 904 (by decide)

end pipebuf
end buffers
namespace buffers
namespace sockbuf

theorem sock_set_buffer_pbase (s : sockbuf) (b : Option Nat) (v : List Byte) :
    (s.set_buffer b v).pbase = s.pbase := by
  cases b <;> rfl

theorem sock_buffer_at_set_buffer (s : sockbuf) (b : Option Nat) (v : List Byte)
    (h : v.length = (s.buffer_at b).length) : (s.set_buffer b v).buffer_at b = v := by
  cases b with
  | none =>
    exact (List.length_eq_zero.mp h).symm
  | some i =>
    show (s._buffers.set i v).getD i [] = v
    have h' : v.length = (s._buffers.getD i []).length := h
    by_cases hi : i < s._buffers.length
    · simp [List.getD_eq_getElem?_getD, hi]
    · have h1 : s._buffers.getD i [] = [] := by
        simp [List.getD_eq_getElem?_getD, List.getElem?_eq_none (Nat.le_of_not_lt hi)]
      rw [h1] at h'
      have hv : v = [] := List.length_eq_zero.mp h'
      subst hv
      have : (s._buffers.set i [])[i]? = none :=
        List.getElem?_eq_none (by rw [List.length_set]; exact Nat.le_of_not_lt hi)
      simp [List.getD_eq_getElem?_getD, this]

theorem sock_wbuf_set_buffer (s : sockbuf) (v : List Byte) (h : v.length = s.wbuf.length) :
    (s.set_buffer s.pbase v).wbuf = v := by
  unfold wbuf
  rw [sock_set_buffer_pbase]
  exact sock_buffer_at_set_buffer s s.pbase v h

theorem sock_wbuf_with_pptr (t : sockbuf) (p : Int) :
    ({ t with pptr := p } : sockbuf).wbuf = t.wbuf := rfl

theorem sock_keep_unsent_wbuf (s : sockbuf) (buf size : Nat) :
    (s.keep_unsent buf size).wbuf = (s.set_buffer s.pbase (memmove s.wbuf 0 buf size)).wbuf := by
  unfold keep_unsent
  exact sock_wbuf_with_pptr _ _

theorem sock_keep_unsent_pptr (s : sockbuf) (buf size : Nat) :
    (s.keep_unsent buf size).pptr = to_int size := by
  unfold keep_unsent
  rfl

/-- What `keep_unsent` leaves of fewer than `2 ^ 31` unsent bytes: they are the
bytes of `[pbase, pptr)`, in a vector of the same size. -/
theorem sock_keep_unsent (s : sockbuf) (buf size : Nat) (hb : buf + size ≤ s.wbuf.length)
    (hz : size < 2 ^ 31) :
    (s.keep_unsent buf size).pending = (s.wbuf.drop buf).take size ∧
    (s.keep_unsent buf size).wbuf.length = s.wbuf.length := by
  have hl := length_memmove_zero s.wbuf buf size hb
  have hw : (s.keep_unsent buf size).wbuf = memmove s.wbuf 0 buf size :=
    (sock_keep_unsent_wbuf s buf size).trans (sock_wbuf_set_buffer s _ hl)
  constructor
  · unfold pending
    rw [hw, sock_keep_unsent_pptr, to_int_natCast size hz, Int.toNat_ofNat]
    exact take_memmove_zero _ _ _ hb
  · rw [hw, hl]

theorem sock_keep_unsent_frame (s : sockbuf) (buf size : Nat) (hb : buf + size ≤ s.wbuf.length) :
    send_frame s (s.keep_unsent buf size) := by
  have key : ∀ (b : Option Nat) (v : List Byte) (p : Int),
      ({ s.set_buffer b v with pptr := p } : sockbuf).pbase = s.pbase ∧
      ({ s.set_buffer b v with pptr := p } : sockbuf)._buffers.length = s._buffers.length ∧
      ({ s.set_buffer b v with pptr := p } : sockbuf).epptr = s.epptr ∧
      ({ s.set_buffer b v with pptr := p } : sockbuf).BUFSIZE = s.BUFSIZE ∧
      ({ s.set_buffer b v with pptr := p } : sockbuf)._which = s._which := by
    intro b v p
    cases b
    · exact ⟨rfl, rfl, rfl, rfl, rfl⟩
    · exact ⟨rfl, List.length_set _ _ _, rfl, rfl, rfl⟩
  obtain ⟨k1, k2, k3, k4, k5⟩ := key s.pbase (memmove s.wbuf 0 buf size) (to_int size)
  have hl := length_memmove_zero s.wbuf buf size hb
  have hw : (s.keep_unsent buf size).wbuf.length = s.wbuf.length := by
    rw [sock_keep_unsent_wbuf, sock_wbuf_set_buffer s _ hl, hl]
  exact ⟨k1, k2, hw, k3, k4, k5⟩

theorem sock_setup_wbuf (s : sockbuf) (buf size : Nat) :
    (_send_setup s buf size).wbuf = s.wbuf := by
  unfold _send_setup
  by_cases hs : size > 0
  · rw [if_pos hs]; rfl
  · rw [if_neg hs]; rfl

theorem sock_setup_frame (s : sockbuf) (buf size : Nat) :
    send_frame s (_send_setup s buf size) := by
  have hw := sock_setup_wbuf s buf size
  unfold _send_setup at hw ⊢
  by_cases hs : size > 0
  · rw [if_pos hs] at hw ⊢
    exact ⟨rfl, rfl, by rw [hw], rfl, rfl, rfl⟩
  · rw [if_neg hs] at hw ⊢
    exact ⟨rfl, rfl, by rw [hw], rfl, rfl, rfl⟩

theorem sock_setup_offered (s : sockbuf) (buf size : Nat) :
    (_send_setup s buf size).offered = (s.wbuf.drop buf).take size := by
  unfold _send_setup
  by_cases hs : size > 0
  · rw [if_pos hs]
    rfl
  · rw [if_neg hs]
    have : size = 0 := by omega
    subst this
    rfl

theorem sock_setup_pptr (s : sockbuf) (buf size : Nat) :
    (_send_setup s buf size).pptr = s.pptr := by
  unfold _send_setup
  by_cases hs : size > 0
  · rw [if_pos hs]
  · rw [if_neg hs]

theorem sock_send_frame_trans {a b c : sockbuf} (h1 : send_frame a b) (h2 : send_frame b c) :
    send_frame a c :=
  ⟨h2.pbase.trans h1.pbase, h2.buffers.trans h1.buffers, h2.size.trans h1.size,
    h2.epptr.trans h1.epptr, h2.bufsize.trans h1.bufsize, h2.which.trans h1.which⟩

/-- What `_send` does to fewer than `2 ^ 31` bytes: when it returns, the bytes
the kernel accepted followed by the bytes left in `[pbase, pptr)` are the bytes
offered.  The state a `sendmsg` is issued from is `s0`, after the header was
filled when the call starts at the top of the function. -/
theorem sock_send_go_bytes (ws : List WRes) :
    ∀ (entry : Bool) (s : sockbuf) (k : Kernel) (buf size : Nat) (v : Int) (s1 : sockbuf)
      (k1 : Kernel),
      (entry = false → s._msghdrs.2.msg_iov = true ∧ s._iov.2 = ⟨some buf, size⟩) →
      buf + size ≤ s.wbuf.length → size < 2 ^ 31 →
      _send_go ws entry s k buf size = (Outcome.ret v, s1, k1) →
      ∃ acc, k1.sent = k.sent ++ acc ∧
        acc ++ s1.pending = (s.wbuf.drop buf).take size ∧
        send_frame s s1 ∧ 0 ≤ s1.pptr ∧ s1.pptr ≤ size := by
  induction ws with
  | nil => intro entry s k buf size v s1 k1 _ _ _ h; simp [_send_go] at h
  | cons r ws ih =>
    intro entry s k buf size v s1 k1 hent hb hz h
    -- the state the `sendmsg` is issued from
    obtain ⟨s0, hs0, hw0, hf0, hoff0, hiov0⟩ : ∃ s0 : sockbuf,
        s0 = (if entry then _send_setup s buf size else s) ∧ s0.wbuf = s.wbuf ∧
        send_frame s s0 ∧ s0.offered = (s.wbuf.drop buf).take size ∧
        (size > 0 → s0._msghdrs.2.msg_iov = true) := by
      refine ⟨_, rfl, ?_, ?_, ?_, ?_⟩
      · cases entry
        · rfl
        · exact sock_setup_wbuf s buf size
      · cases entry
        · exact ⟨rfl, rfl, rfl, rfl, rfl, rfl⟩
        · exact sock_setup_frame s buf size
      · cases entry
        · obtain ⟨e1, e2⟩ := hent rfl
          show s.offered = _
          unfold offered
          rw [e1, e2]
          rfl
        · exact sock_setup_offered s buf size
      · intro hpos
        cases entry
        · exact (hent rfl).1
        · show (_send_setup s buf size)._msghdrs.2.msg_iov = true
          unfold _send_setup
          rw [if_pos hpos]
    have hlen0 : s0.offered.length = size := by
      rw [hoff0, List.length_take, List.length_drop]
      omega
    cases r with
    | accept room =>
      simp only [_send_go, ← hs0, WRes.len] at h
      by_cases hm : min room size = size
      · rw [if_pos hm] at h
        simp only [Prod.mk.injEq] at h
        obtain ⟨_, rfl, rfl⟩ := h
        refine ⟨s0.offered, ?_, ?_, ?_, le_refl _, by simp⟩
        · simp only [hm]
          rw [List.take_of_length_le (by omega)]
        · rw [hoff0]
          show _ ++ List.take (0 : Int).toNat _ = _
          simp
        · exact sock_send_frame_trans hf0 ⟨rfl, rfl, rfl, rfl, rfl, rfl⟩
      · rw [if_neg hm] at h
        have hlt : min room size < size := by omega
        obtain ⟨acc, a1, a2, a3, a4, a5⟩ := ih false _ _ (buf + min room size)
          (size - min room size) v s1 k1
          (by
            intro _
            refine ⟨?_, rfl⟩
            have := hiov0 (by omega)
            show (if s0._msghdrs.2.msg_control = true then _ else s0._msghdrs.2).msg_iov = true
            split
            · exact this
            · exact this)
          (by
            show buf + min room size + (size - min room size) ≤ s0.wbuf.length
            rw [hw0]; omega)
          (by omega) h
        refine ⟨s0.offered.take (min room size) ++ acc, ?_, ?_, ?_, a4, by omega⟩
        · rw [a1]; simp
        · rw [List.append_assoc, a2]
          show _ ++ List.take _ (List.drop _ s0.wbuf) = _
          rw [hoff0, hw0, List.take_take, ← List.drop_drop]
          have : min (min room size) size = min room size := by omega
          rw [this]
          have e : size = min room size + (size - min room size) := by omega
          conv_rhs => rw [e, List.take_add]
        · exact sock_send_frame_trans hf0
            (sock_send_frame_trans (b := { s0 with
                _msghdrs := (s0._msghdrs.1,
                  if s0._msghdrs.2.msg_control = true then
                    { s0._msghdrs.2 with msg_control := false, msg_controllen := 0 }
                  else s0._msghdrs.2)
                _iov := (s0._iov.1, ⟨some (buf + min room size), size - min room size⟩) })
              ⟨rfl, rfl, rfl, rfl, rfl, rfl⟩ a3)
    | fail e =>
      simp only [_send_go, ← hs0, WRes.len, List.take_zero, List.append_nil] at h
      by_cases h1 : e = EISCONN
      · rw [if_pos h1] at h
        obtain ⟨acc, a1, a2, a3, a4, a5⟩ := ih true _ _ buf size v s1 k1
          (by intro hc; cases hc) (by show buf + size ≤ s0.wbuf.length; rw [hw0]; exact hb) hz h
        refine ⟨acc, a1, ?_, ?_, a4, a5⟩
        · rw [a2]
          show List.take _ (List.drop _ s0.wbuf) = _
          rw [hw0]
        · exact sock_send_frame_trans hf0
            (sock_send_frame_trans (b := { s0 with _connected := true })
              ⟨rfl, rfl, rfl, rfl, rfl, rfl⟩ a3)
      · rw [if_neg h1] at h
        by_cases h2 : e = EINTR
        · rw [if_pos h2] at h
          obtain ⟨acc, a1, a2, a3, a4, a5⟩ := ih true _ _ buf size v s1 k1
            (by intro hc; cases hc) (by rw [hw0]; exact hb) hz h
          refine ⟨acc, a1, ?_, sock_send_frame_trans hf0 a3, a4, a5⟩
          rw [a2, hw0]
        · rw [if_neg h2] at h
          have hb0 : buf + size ≤ s0.wbuf.length := by rw [hw0]; exact hb
          have hk := sock_keep_unsent s0 buf size hb0 hz
          have hkf := sock_keep_unsent_frame s0 buf size hb0
          have hkp : (s0.keep_unsent buf size).pptr = (size : Int) :=
            (sock_keep_unsent_pptr s0 buf size).trans (to_int_natCast size hz)
          generalize s0.keep_unsent buf size = s2 at h hk hkf hkp
          by_cases h3 : e = EWOULDBLOCK
          · rw [if_pos h3] at h
            simp only [Prod.mk.injEq] at h
            obtain ⟨_, rfl, rfl⟩ := h
            refine ⟨[], by simp, ?_, sock_send_frame_trans hf0 hkf, ?_, ?_⟩
            · rw [List.nil_append, hk.1, hw0]
            · rw [hkp]
              exact Int.ofNat_nonneg _
            · exact le_of_eq hkp
          · rw [if_neg h3] at h
            simp only [Prod.mk.injEq] at h
            obtain ⟨_, rfl, rfl⟩ := h
            refine ⟨[], by simp, ?_, ?_, ?_, ?_⟩
            · rw [List.nil_append]
              show s2.pending = _
              rw [hk.1, hw0]
            · exact sock_send_frame_trans hf0
                (sock_send_frame_trans hkf ⟨rfl, rfl, rfl, rfl, rfl, rfl⟩)
            · show 0 ≤ s2.pptr
              rw [hkp]
              exact Int.ofNat_nonneg _
            · exact le_of_eq hkp

/-- The grow/shrink step of a `sockbuf` whose `BUFSIZE` is not 0 keeps the
bytes of `[pbase, pptr)`, when the cursor offset is below `2 ^ 31`. -/
theorem sock_resizewbuf_pending (s : sockbuf) (h : wf_write s) (hB : 1 ≤ s.BUFSIZE)
    (hz : s.pptr < 2 ^ 31) :
    ∃ s2, _resizewbuf s = some s2 ∧ s2.pending = s.pending := by
  obtain ⟨i, hi, hlt⟩ := h.found
  have hl := h.limit
  have hlow := h.low
  have hc := h.cursor
  have hfit := h.fits
  have hp := size_t_pred_le s.BUFSIZE hB
  have hget : s._buffers.get? i = some s.wbuf := by
    unfold wbuf buffer_at
    rw [hi]
    simp [List.getD_eq_getElem?_getD, hlt]
  have hoff : size_t_of_int s.pptr = s.pptr.toNat := size_t_of_int_eq _ hlow (by omega)
  have hto : to_int (s.pptr.toNat : Int) = (s.pptr.toNat : Int) :=
    to_int_natCast _ (by omega)
  have key : ∀ (s2 : sockbuf) (w : List Byte), s2.pbase = some i →
      s2._buffers = s._buffers.set i w → s2.pptr = (s.pptr.toNat : Int) →
      w.take s.pptr.toNat = s.wbuf.take s.pptr.toNat → s2.pending = s.pending := by
    intro s2 w e1 e2 e3 hw
    have e4 : s2.wbuf = w := by
      unfold wbuf buffer_at
      rw [e1, e2]
      simp [List.getD_eq_getElem?_getD, hlt]
    unfold pending
    rw [e4, e3, Int.toNat_ofNat]
    exact hw
  unfold _resizewbuf
  rw [hi]
  dsimp only
  rw [hget]
  dsimp only
  rw [hoff, hto]
  by_cases h1 : s.pptr.toNat < size_t_pred s.BUFSIZE ∧ s.wbuf.length > s.BUFSIZE
  · rw [if_pos h1]
    exact ⟨_, rfl, key _ _ rfl rfl rfl (take_resize _ _ _ (by omega) (by omega))⟩
  · rw [if_neg h1]
    by_cases h2 : s.pptr = s.epptr
    · rw [if_pos h2]
      exact ⟨_, rfl, key _ _ rfl rfl rfl (take_resize _ _ _ (by omega) (by omega))⟩
    · rw [if_neg h2]
      exact ⟨s, rfl, rfl⟩

/-- Bytes through `sockbuf::sync` on the write side when `BUFSIZE` is not 0 and
the window holds fewer than `2 ^ 31` bytes: when `sync` returns 0, the bytes
the kernel accepted during the call followed by the bytes left in
`[pbase, pptr)` are the bytes that were in the window. -/
theorem sock_sync_bytes (s : sockbuf) (k : Kernel) (s' : sockbuf) (k' : Kernel)
    (h : wf_write s) (hB : 1 ≤ s.BUFSIZE) (hz : s.pptr < 2 ^ 31)
    (h0 : sync s k = (Outcome.ret 0, s', k')) :
    ∃ acc, k'.sent = k.sent ++ acc ∧ acc ++ s'.pending = s.pending := by
  have hl := h.limit
  have hlow := h.low
  have hc := h.cursor
  have hfit := h.fits
  have hoff : size_t_of_int s.pptr = s.pptr.toNat := size_t_of_int_eq _ hlow (by omega)
  -- the send step
  obtain ⟨v, s1, k1, acc, hsent, a1, a2, a3, a4, a5⟩ : ∃ (v : Int) (s1 : sockbuf) (k1 : Kernel) (acc : List Byte),
      sync s k = (if v ≠ 0 then (Outcome.ret (-1), s1, k1)
        else match _resizewbuf s1 with
          | some s2 => (Outcome.ret 0, s2, k1)
          | none => (Outcome.throws, s1, k1)) ∧
      k1.sent = k.sent ++ acc ∧ acc ++ s1.pending = s.pending ∧ send_frame s s1 ∧
      0 ≤ s1.pptr ∧ s1.pptr ≤ s.pptr := by
    unfold sync
    rw [if_pos h.open_, hoff]
    by_cases hs : s.pptr.toNat > 0 ∨ s._cbufs.2.length > 0
    · simp only [hs, if_true]
      rcases hsend : _send s k 0 s.pptr.toNat with ⟨o, s1, k1⟩
      cases o with
      | ret v =>
        obtain ⟨acc, b1, b2, b3, b4, b5⟩ := sock_send_go_bytes k.writes true s k 0 s.pptr.toNat
          v s1 k1 (by intro hc; cases hc) (by omega) (by omega) hsend
        refine ⟨v, s1, k1, acc, rfl, b1, ?_, b3, b4, by omega⟩
        rw [b2]
        simp [pending]
      | pending =>
        exfalso
        unfold sync at h0
        rw [if_pos h.open_, hoff] at h0
        simp only [hs, if_true, hsend] at h0
        exact absurd (congrArg Prod.fst h0) (by simp)
      | throws =>
        exfalso
        unfold sync at h0
        rw [if_pos h.open_, hoff] at h0
        simp only [hs, if_true, hsend] at h0
        exact absurd (congrArg Prod.fst h0) (by simp)
    · simp only [hs, if_false]
      exact ⟨0, s, k, [], rfl, by simp, by simp, ⟨rfl, rfl, rfl, rfl, rfl, rfl⟩, hlow, le_refl _⟩
  rw [hsent] at h0
  by_cases hv : v ≠ 0
  · rw [if_pos hv] at h0
    simp at h0
  · rw [if_neg hv] at h0
    have hw1 : wf_write s1 :=
      ⟨a3.which ▸ h.open_, by
        obtain ⟨i, hi, hlt⟩ := h.found
        exact ⟨i, a3.pbase.trans hi, by rw [a3.buffers]; exact hlt⟩,
        by rw [a3.epptr, a3.size]; exact hl, a4, by rw [a3.epptr]; omega,
        by rw [a3.size]; exact hfit⟩
    obtain ⟨s2, r1, r2⟩ := sock_resizewbuf_pending s1 hw1 (by rw [a3.bufsize]; exact hB)
      (by omega)
    rw [r1] at h0
    simp only [Prod.mk.injEq, true_and] at h0
    obtain ⟨rfl, rfl⟩ := h0
    exact ⟨acc, a1, by rw [r2]; exact a2⟩

theorem sock_ex_bufsize_zero_wf : wf_write ex_bufsize_zero :=
  ⟨rfl, ⟨1, by decide!, by decide!⟩, by decide!, by decide!, by decide!, by decide!⟩

/-- C1 (failing input). A read+write `sockbuf` whose caller has set `bufsize()`
to 0 holds the three unflushed bytes 10, 20, 30, and the kernel would block at
once.  `sync` returns 0 and the kernel accepted nothing, but the three bytes
are not in the write window any more: `_send` kept them at the front, and
`_resizewbuf`, whose test `off < BUFSIZE-1` wraps to `off < SIZE_MAX`, has
resized the vector to length 0 while `pptr - pbase` is still 3. -/
theorem sock_sync_bufsize_zero_drops_bytes :
    wf_write ex_bufsize_zero ∧ ex_bufsize_zero.BUFSIZE = 0 ∧
    ex_bufsize_zero.pending = [10, 20, 30] ∧
    (sync ex_bufsize_zero ex_block).1 = Outcome.ret 0 ∧
    (sync ex_bufsize_zero ex_block).2.2.sent = [] ∧
    (sync ex_bufsize_zero ex_block).2.2.sent ++ (sync ex_bufsize_zero ex_block).2.1.pending
      ≠ ex_bufsize_zero.pending ∧
    (sync ex_bufsize_zero ex_block).2.1.wbuf = [] ∧
    (sync ex_bufsize_zero ex_block).2.1.pptr = 3 ∧
    (sync ex_bufsize_zero ex_block).2.1.epptr = 0 :=
  ⟨sock_ex_bufsize_zero_wf, rfl, by decide!, by decide!, by decide!, by decide!, by decide!,
    by decide!, by decide!⟩

/-- C6 (what the code does). A seek whose target lies below the start of the
window is not rejected: for every read window with `eback ≤ gptr ≤ egptr` and
every target `pos < 0`, `seekpos(pos)`, `seekoff(pos - (gptr - eback), cur)`
and `seekoff(pos - (egptr - eback), end)` all return `pos` and move the read
cursor to `eback + pos`, below `eback`; on the write side `seekpos(pos, out)`
returns `pos` as well and moves `pptr` by `pbump(pos)`, whose parameter is an
`int`: for every target from `-2 ^ 31` on that puts `pptr` at `pbase + pos`,
below `pbase` in the same way. -/
theorem sock_seek_below_start_accepted (s : sockbuf) (pos : Int) (out : Bool)
    (h0 : 0 ≤ s.gptr) (h1 : s.gptr ≤ s.egptr) (h2 : 0 ≤ s.epptr) (hneg : pos < 0) :
    seekpos s pos ⟨true, out⟩ = (pos, { s with gptr := pos }) ∧
    seekoff s (pos - s.gptr) seekdir.cur ⟨true, out⟩ = (pos, { s with gptr := pos }) ∧
    seekoff s (pos - s.egptr) seekdir.end_ ⟨true, out⟩ = (pos, { s with gptr := pos }) ∧
    seekpos s pos ⟨false, true⟩ = (pos, { s with pptr := to_int pos }) ∧
    (-2 ^ 31 ≤ pos → seekpos s pos ⟨false, true⟩ = (pos, { s with pptr := pos })) := by
  have hp : seekpos s pos ⟨true, out⟩ = (pos, { s with gptr := pos }) := by
    unfold seekpos
    rw [if_pos rfl, if_pos (by omega)]
  have hq : seekpos s pos ⟨false, true⟩ = (pos, { s with pptr := to_int pos }) := by
    unfold seekpos
    rw [if_neg (by simp), if_pos rfl, if_pos (by omega)]
  refine ⟨hp, ?_, ?_, hq, ?_⟩
  · unfold seekoff
    dsimp only
    rw [if_pos rfl, if_neg (by omega), if_neg (by omega)]
    have : s.gptr + (pos - s.gptr) = pos := by omega
    rw [this]
    exact hp
  · unfold seekoff
    dsimp only
    rw [if_neg (by omega), if_pos rfl]
    have : s.egptr + (pos - s.egptr) = pos := by omega
    rw [this]
    exact hp
  · intro hlow
    rw [hq, to_int_eq pos hlow (by omega)]

/-- C6 at a concrete input: read cursor at offset 3 of 5 received bytes, target
offset -2.  The three seeks return -2 (not the failure position -1) and leave
the read cursor two bytes below `eback`. -/
theorem sock_seek_below_start_accepted_witness :
    ((0 : Int) ≤ ex_three_of_five.gptr ∧ ex_three_of_five.gptr ≤ ex_three_of_five.egptr ∧
      (0 : Int) ≤ ex_three_of_five.epptr ∧ (-2 : Int) < 0) ∧
    (seekpos ex_three_of_five (-2) ⟨true, true⟩ = (-2, { ex_three_of_five with gptr := -2 }) ∧
      seekoff ex_three_of_five (-2 - ex_three_of_five.gptr) seekdir.cur ⟨true, true⟩ =
        (-2, { ex_three_of_five with gptr := -2 }) ∧
      seekoff ex_three_of_five (-2 - ex_three_of_five.egptr) seekdir.end_ ⟨true, true⟩ =
        (-2, { ex_three_of_five with gptr := -2 }) ∧
      seekpos ex_three_of_five (-2) ⟨false, true⟩ = (-2, { ex_three_of_five with pptr := -2 })) ∧
    (-2 - ex_three_of_five.gptr = -5 ∧ -2 - ex_three_of_five.egptr = -7) :=
  ⟨⟨by decide, by decide, by decide, by decide⟩,
    ⟨(sock_seek_below_start_accepted ex_three_of_five (-2) true (by decide) (by decide)
        (by decide) (by decide)).1,
      (sock_seek_below_start_accepted ex_three_of_five (-2) true (by decide) (by decide)
        (by decide) (by decide)).2.1,
      (sock_seek_below_start_accepted ex_three_of_five (-2) true (by decide) (by decide)
        (by decide) (by decide)).2.2.1,
      (sock_seek_below_start_accepted ex_three_of_five (-2) true (by decide) (by decide)
        (by decide) (by decide)).2.2.2.2 (by decide)⟩,
    ⟨by decide, by decide⟩⟩

/-- C7 (what the code does). Every backward seek relative to the read cursor
that stays strictly inside the window (`off < 0` and `-off < gptr - eback`) is
rejected: `seekoff(off, cur, in)` returns the failure position and leaves the
buffer unchanged, because the test `gptr - eback > -off` breaks out for exactly
these offsets. -/
theorem sock_seekoff_cur_backward_inside_rejected (s : sockbuf) (off : Int) (out : Bool)
    (hneg : off < 0) (hin : -off < s.gptr) :
    seekoff s off seekdir.cur ⟨true, out⟩ = (seek_failed, s) := by
  unfold seekoff
  dsimp only
  rw [if_pos rfl]
  split
  · rfl
  · rw [if_pos ⟨hneg, hin⟩]

/-- C7 at a concrete input: read cursor at offset 3 of 5, `seekoff(-1, cur)`;
the target offset 2 is inside the window and the seek fails. -/
theorem sock_seekoff_cur_backward_inside_rejected_witness :
    ((-1 : Int) < 0 ∧ -(-1 : Int) < ex_three_of_five.gptr) ∧
    (0 ≤ ex_three_of_five.gptr + (-1) ∧ ex_three_of_five.gptr + (-1) ≤ ex_three_of_five.egptr) ∧
    seekoff ex_three_of_five (-1) seekdir.cur ⟨true, true⟩ = (-1, ex_three_of_five) :=
  ⟨⟨by decide, by decide⟩, ⟨by decide, by decide⟩,
    sock_seekoff_cur_backward_inside_rejected ex_three_of_five (-1) true (by decide) (by decide)⟩

/-- The part of C7 the code keeps: a seek relative to the read cursor that does
not move backward and stays inside the window succeeds. -/
theorem sock_seekoff_cur_forward_inside (s : sockbuf) (off : Int) (out : Bool)
    (h0 : 0 ≤ off) (h1 : s.gptr + off ≤ s.egptr) :
    seekoff s off seekdir.cur ⟨true, out⟩ = (s.gptr + off, { s with gptr := s.gptr + off }) := by
  unfold seekoff seekpos
  dsimp only
  rw [if_pos rfl, if_neg (by omega), if_neg (by omega), if_pos rfl, if_pos h1]

end sockbuf

theorem pipe_recv_go_would_block (m : Nat) (rest : List RRes) :
    ∀ (s : pipebuf) (k : Kernel),
      (pipebuf._recv_go (List.replicate m (RRes.fail EINTR) ++ RRes.fail EAGAIN :: rest) s k).1
        = Outcome.ret 0 ∧
      (pipebuf._recv_go (List.replicate m (RRes.fail EINTR) ++ RRes.fail EAGAIN :: rest) s k).2.1
        = s ∧
      (pipebuf._recv_go (List.replicate m (RRes.fail EINTR) ++ RRes.fail EAGAIN :: rest)
        s k).2.2.reads = rest := by
  induction m with
  | zero =>
    intro s k
    simp [pipebuf._recv_go, EAGAIN, EINTR]
  | succ m ih =>
    intro s k
    rw [List.replicate_succ, List.cons_append]
    simp only [pipebuf._recv_go, if_true]
    exact ih s _

theorem sock_recv_go_would_block (m : Nat) (rest : List RRes) :
    ∀ (s : sockbuf) (k : Kernel),
      (sockbuf._recv_go (List.replicate m (RRes.fail EINTR) ++ RRes.fail EWOULDBLOCK :: rest)
        s k).1 = Outcome.ret 0 ∧
      (sockbuf._recv_go (List.replicate m (RRes.fail EINTR) ++ RRes.fail EWOULDBLOCK :: rest)
        s k).2.1 = s ∧
      (sockbuf._recv_go (List.replicate m (RRes.fail EINTR) ++ RRes.fail EWOULDBLOCK :: rest)
        s k).2.2.reads = rest := by
  induction m with
  | zero =>
    intro s k
    simp [sockbuf._recv_go, EWOULDBLOCK, EINTR]
  | succ m ih =>
    intro s k
    rw [List.replicate_succ, List.cons_append]
    simp only [sockbuf._recv_go, if_true]
    exact ih s _

/-- C4. When the kernel's `read`/`recvmsg` fails with would-block, after any
number `m` of `EINTR` retries, `pipebuf::_recv` and `sockbuf::_recv` return 0
(not -1) and leave the read window as it was: for the pipe buffer the whole
state is unchanged, for the socket buffer (whose get area is one of its
vectors, so that the call reaches `recvmsg`) `eback`, `gptr`, `egptr`, the
bytes of the buffers and the error field are unchanged. -/
theorem recv_would_block_returns_zero (m : Nat) (rest : List RRes) :
    (∀ (s : pipebuf) (k : Kernel),
      k.reads = List.replicate m (RRes.fail EINTR) ++ RRes.fail EAGAIN :: rest →
      (s._recv k).1 = Outcome.ret 0 ∧ (s._recv k).2.1 = s ∧ (s._recv k).2.2.reads = rest) ∧
    (∀ (s : sockbuf) (k : Kernel), s.getbuflen s.eback ≠ SIZE_MAX →
      k.reads = List.replicate m (RRes.fail EINTR) ++ RRes.fail EWOULDBLOCK :: rest →
      (s._recv k).1 = Outcome.ret 0 ∧ (s._recv k).2.1.eback = s.eback ∧
      (s._recv k).2.1.gptr = s.gptr ∧ (s._recv k).2.1.egptr = s.egptr ∧
      (s._recv k).2.1._buffers = s._buffers ∧ (s._recv k).2.1._errno = s._errno ∧
      (s._recv k).2.2.reads = rest) := by
  constructor
  · intro s k hk
    unfold pipebuf._recv
    rw [hk]
    exact pipe_recv_go_would_block m rest s k
  · intro s k hb hk
    unfold sockbuf._recv
    dsimp only
    rw [if_neg hb, hk]
    obtain ⟨h1, h2, h3⟩ := sock_recv_go_would_block m rest (s._recv_setup (s.getbuflen s.eback)) k
    rw [h2]
    exact ⟨h1, rfl, rfl, rfl, rfl, rfl, h3⟩

/-- C4 at a concrete input: a fresh socket buffer, two `EINTR` and then
would-block. -/
theorem recv_would_block_returns_zero_witness :
    sockbuf.ex_fresh.getbuflen sockbuf.ex_fresh.eback ≠ SIZE_MAX ∧
    sockbuf.ex_intr_then_block.reads =
      List.replicate 2 (RRes.fail EINTR) ++ RRes.fail EWOULDBLOCK :: [] ∧
    (sockbuf.ex_fresh._recv sockbuf.ex_intr_then_block).1 = Outcome.ret 0 ∧
    (sockbuf.ex_fresh._recv sockbuf.ex_intr_then_block).2.1.egptr = sockbuf.ex_fresh.egptr :=
  ⟨by decide!, rfl,
    ((recv_would_block_returns_zero 2 []).2 sockbuf.ex_fresh sockbuf.ex_intr_then_block
      (by decide!) rfl).1,
    ((recv_would_block_returns_zero 2 []).2 sockbuf.ex_fresh sockbuf.ex_intr_then_block
      (by decide!) rfl).2.2.2.1⟩

/-- C5 (counterexample). On a fresh read-only pipe buffer a zero-length read
and a read that fails with `EIO` are reported in the same way and leave the
same buffer state: `_recv` and `sync` return -1 in both cases, `underflow`
returns `eof` in both cases, and the states are equal. -/
theorem read_eof_same_as_error_on_pipe :
    (pipebuf.ex_read_only._recv pipebuf.ex_peer_closed).1 =
      (pipebuf.ex_read_only._recv pipebuf.ex_read_error).1 ∧
    (pipebuf.ex_read_only._recv pipebuf.ex_peer_closed).2.1 =
      (pipebuf.ex_read_only._recv pipebuf.ex_read_error).2.1 ∧
    (pipebuf.ex_read_only.sync pipebuf.ex_peer_closed).1 =
      (pipebuf.ex_read_only.sync pipebuf.ex_read_error).1 ∧
    (pipebuf.ex_read_only.sync pipebuf.ex_peer_closed).2.1 =
      (pipebuf.ex_read_only.sync pipebuf.ex_read_error).2.1 ∧
    (pipebuf.underflow_go 1 pipebuf.ex_read_only pipebuf.ex_peer_closed).1 =
      (pipebuf.underflow_go 1 pipebuf.ex_read_only pipebuf.ex_read_error).1 ∧
    (pipebuf.underflow_go 1 pipebuf.ex_read_only pipebuf.ex_peer_closed).2.1 =
      (pipebuf.underflow_go 1 pipebuf.ex_read_only pipebuf.ex_read_error).2.1 :=
  ⟨by decide!, by decide!, by decide!, by decide!, by decide!, by decide!⟩

theorem pipe_recv_eof_or_error (s : pipebuf) (k : Kernel) (e : Nat) (rest : List RRes)
    (h1 : e ≠ EINTR) (h2 : e ≠ EAGAIN) :
    ((s._recv { k with reads := RRes.deliver [] :: rest }).1 = Outcome.ret (-1) ∧
      (s._recv { k with reads := RRes.deliver [] :: rest }).2.1 = s) ∧
    ((s._recv { k with reads := RRes.fail e :: rest }).1 = Outcome.ret (-1) ∧
      (s._recv { k with reads := RRes.fail e :: rest }).2.1 = s) := by
  unfold pipebuf._recv
  simp [pipebuf._recv_go, h1, h2]

theorem sock_getbuflen_found (s : sockbuf) (i : Nat) (h1 : s.eback = some i)
    (h2 : i < s._buffers.length) : s.getbuflen s.eback = s.rbuf.length := by
  unfold sockbuf.getbuflen sockbuf.rbuf sockbuf.buffer_at
  rw [h1]
  simp [List.getD_eq_getElem?_getD, h2]

/-- The compaction of the get area keeps it one of the vectors. -/
theorem sock_memmoverbuf_found (s : sockbuf) (h : sockbuf.wf_read s) :
    s._memmoverbuf.getbuflen s._memmoverbuf.eback ≠ SIZE_MAX := by
  obtain ⟨i, hi, hlt⟩ := h.found
  have hl := h.limit
  have hlow := h.low
  have hc := h.cursor
  have hf := h.fits
  have hlen : ∀ (v : List Byte) (u : sockbuf), v.length = s.rbuf.length → u.eback = some i →
      u._buffers = s._buffers.set i v → u.getbuflen u.eback ≠ SIZE_MAX := by
    intro v u hv e1 e2
    rw [sock_getbuflen_found u i e1 (by rw [e2]; simpa using hlt)]
    have : u.rbuf = v := by
      unfold sockbuf.rbuf sockbuf.buffer_at
      rw [e1, e2]
      simp [List.getD_eq_getElem?_getD, hlt]
    rw [this, hv]
    omega
  have hsame : ∀ u : sockbuf, u.eback = some i → u._buffers = s._buffers →
      u.getbuflen u.eback ≠ SIZE_MAX := by
    intro u e1 e2
    rw [sock_getbuflen_found u i e1 (by rw [e2]; exact hlt)]
    have : u.rbuf = s.rbuf := by
      unfold sockbuf.rbuf sockbuf.buffer_at
      rw [e1, e2, hi]
    rw [this]
    omega
  unfold sockbuf._memmoverbuf
  dsimp only
  by_cases hga : s.egptr - s.gptr > 0
  · rw [if_pos hga]
    have hm : (memmove s.rbuf 0 s.gptr.toNat (s.egptr - s.gptr).toNat).length = s.rbuf.length :=
      length_memmove_zero _ _ _ (by omega)
    have hset : ∀ v : List Byte, (s.set_buffer s.eback v).eback = some i ∧
        (s.set_buffer s.eback v)._buffers = s._buffers.set i v := by
      intro v
      rw [hi]
      exact ⟨hi, rfl⟩
    split
    · exact hlen _ _ hm (hset _).1 (hset _).2
    · exact hlen _ _ hm (hset _).1 (hset _).2
  · rw [if_neg hga]
    exact hsame _ hi rfl

theorem sock_memmoverbuf_errno (s : sockbuf) :
    s._memmoverbuf._errno = s._errno ∧ s._memmoverbuf._which = s._which := by
  have hset : ∀ (b : Option Nat) (v : List Byte),
      (s.set_buffer b v)._errno = s._errno ∧ (s.set_buffer b v)._which = s._which := by
    intro b v
    cases b <;> exact ⟨rfl, rfl⟩
  unfold sockbuf._memmoverbuf
  dsimp only
  by_cases hga : s.egptr - s.gptr > 0
  · rw [if_pos hga]
    exact hset _ _
  · rw [if_neg hga]
    exact ⟨rfl, rfl⟩

theorem sock_recv_eof_or_error (s : sockbuf) (k : Kernel) (e : Nat) (rest : List RRes)
    (hb : s.getbuflen s.eback ≠ SIZE_MAX) (h1 : e ≠ EINTR) (h2 : e ≠ EWOULDBLOCK) :
    (s._recv { k with reads := RRes.deliver [] :: rest }).1 = Outcome.ret (-1) ∧
    (s._recv { k with reads := RRes.fail e :: rest }).1 = Outcome.ret (-1) ∧
    (s._recv { k with reads := RRes.deliver [] :: rest }).2.1._errno = s._errno ∧
    (s._recv { k with reads := RRes.deliver [] :: rest }).2.1._which = s._which ∧
    (s._recv { k with reads := RRes.fail e :: rest }).2.1 =
      { (s._recv { k with reads := RRes.deliver [] :: rest }).2.1 with _errno := e } := by
  unfold sockbuf._recv
  simp [sockbuf._recv_go, h1, h2, hb, sockbuf._recv_setup]

/-- C5 (amended). On the read path a zero-length read and a fatal read error
(`errno` other than `EINTR` and would-block) are both reported as -1 by
`_recv` and `sync` and as `eof` by `underflow`.  The pipe buffer is left in the
same state in both cases (`_recv` leaves it unchanged).  The socket buffer
differs in its error field only: the fatal error stores `errno` there, the
zero-length read leaves the field at its previous value. -/
theorem read_eof_and_error_reports (e : Nat) (rest : List RRes) (h1 : e ≠ EINTR)
    (h2 : e ≠ EWOULDBLOCK) :
    (∀ (s : pipebuf) (k : Kernel),
      (s._recv { k with reads := RRes.deliver [] :: rest }).1 = Outcome.ret (-1) ∧
      (s._recv { k with reads := RRes.fail e :: rest }).1 = Outcome.ret (-1) ∧
      (s._recv { k with reads := RRes.deliver [] :: rest }).2.1 = s ∧
      (s._recv { k with reads := RRes.fail e :: rest }).2.1 = s) ∧
    (∀ (s : pipebuf) (k : Kernel) (fuel : Nat), s._which = ⟨true, false⟩ →
      s.eback_null = false →
      (s.sync { k with reads := RRes.deliver [] :: rest }).1 = Outcome.ret (-1) ∧
      (s.sync { k with reads := RRes.fail e :: rest }).1 = Outcome.ret (-1) ∧
      (s.sync { k with reads := RRes.deliver [] :: rest }).2.1 =
        (s.sync { k with reads := RRes.fail e :: rest }).2.1 ∧
      (pipebuf.underflow_go (fuel + 1) s { k with reads := RRes.deliver [] :: rest }).1 =
        Outcome.ret eof ∧
      (pipebuf.underflow_go (fuel + 1) s { k with reads := RRes.fail e :: rest }).1 =
        Outcome.ret eof ∧
      (pipebuf.underflow_go (fuel + 1) s { k with reads := RRes.deliver [] :: rest }).2.1 =
        (pipebuf.underflow_go (fuel + 1) s { k with reads := RRes.fail e :: rest }).2.1) ∧
    (∀ (s : sockbuf) (k : Kernel), s.getbuflen s.eback ≠ SIZE_MAX →
      (s._recv { k with reads := RRes.deliver [] :: rest }).1 = Outcome.ret (-1) ∧
      (s._recv { k with reads := RRes.fail e :: rest }).1 = Outcome.ret (-1) ∧
      (s._recv { k with reads := RRes.deliver [] :: rest }).2.1._errno = s._errno ∧
      (s._recv { k with reads := RRes.fail e :: rest }).2.1 =
        { (s._recv { k with reads := RRes.deliver [] :: rest }).2.1 with _errno := e }) ∧
    (∀ (s : sockbuf) (k : Kernel) (fuel : Nat), sockbuf.wf_read s → s._which.in_ = true →
      (s._which.out = false →
        (s.sync { k with reads := RRes.deliver [] :: rest }).1 = Outcome.ret (-1) ∧
        (s.sync { k with reads := RRes.fail e :: rest }).1 = Outcome.ret (-1) ∧
        (s.sync { k with reads := RRes.deliver [] :: rest }).2.1._errno = s._errno ∧
        (s.sync { k with reads := RRes.fail e :: rest }).2.1 =
          { (s.sync { k with reads := RRes.deliver [] :: rest }).2.1 with _errno := e }) ∧
      (sockbuf.underflow_go (fuel + 1) s { k with reads := RRes.deliver [] :: rest }).1 =
        Outcome.ret eof ∧
      (sockbuf.underflow_go (fuel + 1) s { k with reads := RRes.fail e :: rest }).1 =
        Outcome.ret eof ∧
      (sockbuf.underflow_go (fuel + 1) s { k with reads := RRes.deliver [] :: rest }).2.1._errno
        = s._errno ∧
      (sockbuf.underflow_go (fuel + 1) s { k with reads := RRes.fail e :: rest }).2.1 =
        { (sockbuf.underflow_go (fuel + 1) s { k with reads := RRes.deliver [] :: rest }).2.1
          with _errno := e }) := by
  have h2' : e ≠ EAGAIN := h2
  refine ⟨?_, ?_, ?_, ?_⟩
  · intro s k
    obtain ⟨⟨a1, a2⟩, b1, b2⟩ := pipe_recv_eof_or_error s k e rest h1 h2'
    exact ⟨a1, b1, a2, b2⟩
  · intro s k fuel hw hn
    have key : ∀ s0 : pipebuf,
        (match s0._recv { k with reads := RRes.deliver [] :: rest } with
          | (Outcome.ret v, s1, k1) =>
            if v ≠ 0 then (Outcome.ret (-1), s1, k1) else (Outcome.ret 0, s1, k1)
          | (o, s1, k1) => (o, s1, k1)) =
          (Outcome.ret (-1), s0, (s0._recv { k with reads := RRes.deliver [] :: rest }).2.2) ∧
        (match s0._recv { k with reads := RRes.fail e :: rest } with
          | (Outcome.ret v, s1, k1) =>
            if v ≠ 0 then (Outcome.ret (-1), s1, k1) else (Outcome.ret 0, s1, k1)
          | (o, s1, k1) => (o, s1, k1)) =
          (Outcome.ret (-1), s0, (s0._recv { k with reads := RRes.fail e :: rest }).2.2) := by
      intro s0
      unfold pipebuf._recv
      simp [pipebuf._recv_go, h1, h2']
    have hsA : s.sync { k with reads := RRes.deliver [] :: rest } =
        (Outcome.ret (-1), (if s.gptr ≠ 0 then s._mvrbuf else s),
          ((if s.gptr ≠ 0 then s._mvrbuf else s)._recv
            { k with reads := RRes.deliver [] :: rest }).2.2) := by
      unfold pipebuf.sync
      rw [hw]
      simp only [Bool.false_eq_true, if_false, if_true]
      exact (key _).1
    have hsB : s.sync { k with reads := RRes.fail e :: rest } =
        (Outcome.ret (-1), (if s.gptr ≠ 0 then s._mvrbuf else s),
          ((if s.gptr ≠ 0 then s._mvrbuf else s)._recv
            { k with reads := RRes.fail e :: rest }).2.2) := by
      unfold pipebuf.sync
      rw [hw]
      simp only [Bool.false_eq_true, if_false, if_true]
      exact (key _).2
    refine ⟨by rw [hsA], by rw [hsB], by rw [hsA, hsB], ?_, ?_, ?_⟩
    · unfold pipebuf.underflow_go
      rw [hn, hsA]
      simp
    · unfold pipebuf.underflow_go
      rw [hn, hsB]
      simp
    · unfold pipebuf.underflow_go
      rw [hn, hsA, hsB]
      simp
  · intro s k hb
    obtain ⟨a1, a2, a3, _, a5⟩ := sock_recv_eof_or_error s k e rest hb h1 h2
    exact ⟨a1, a2, a3, a5⟩
  · intro s k fuel hwf hin
    -- `sync` on a state whose write bit is clear
    have hsync : ∀ u : sockbuf, sockbuf.wf_read u → u._which.in_ = true → u._which.out = false →
        (u.sync { k with reads := RRes.deliver [] :: rest }).1 = Outcome.ret (-1) ∧
        (u.sync { k with reads := RRes.fail e :: rest }).1 = Outcome.ret (-1) ∧
        (u.sync { k with reads := RRes.deliver [] :: rest }).2.1._errno = u._errno ∧
        (u.sync { k with reads := RRes.deliver [] :: rest }).2.1._which = u._which ∧
        (u.sync { k with reads := RRes.fail e :: rest }).2.1 =
          { (u.sync { k with reads := RRes.deliver [] :: rest }).2.1 with _errno := e } := by
      intro u hu hi ho
      obtain ⟨u0, hu0, hb0, he0, hw0⟩ : ∃ u0 : sockbuf,
          u0 = (if u.gptr ≠ 0 then u._memmoverbuf else u) ∧
          u0.getbuflen u0.eback ≠ SIZE_MAX ∧ u0._errno = u._errno ∧ u0._which = u._which := by
        refine ⟨_, rfl, ?_, ?_, ?_⟩
        · split
          · exact sock_memmoverbuf_found u hu
          · obtain ⟨i, hi, hlt⟩ := hu.found
            rw [sock_getbuflen_found u i hi hlt]
            have := hu.fits
            omega
        · split
          · exact (sock_memmoverbuf_errno u).1
          · rfl
        · split
          · exact (sock_memmoverbuf_errno u).2
          · rfl
      obtain ⟨a1, a2, a3, a4, a5⟩ := sock_recv_eof_or_error u0 k e rest hb0 h1 h2
      unfold sockbuf.sync
      simp only [ho, hi, Bool.false_eq_true, if_false, if_true, ← hu0]
      rcases hA : u0._recv { k with reads := RRes.deliver [] :: rest } with ⟨oA, sA, kA⟩
      rcases hB : u0._recv { k with reads := RRes.fail e :: rest } with ⟨oB, sB, kB⟩
      rw [hA] at a1 a3 a4 a5
      rw [hB] at a2 a5
      dsimp only at a1 a2 a3 a4 a5
      subst a1 a2
      simp only [ne_eq, Int.reduceNeg, neg_eq_zero, one_ne_zero, not_false_eq_true, if_true]
      exact ⟨trivial, trivial, a3.trans he0, a4.trans hw0, a5⟩
    refine ⟨fun ho => ?_, ?_⟩
    · obtain ⟨c1, c2, c3, _, c5⟩ := hsync s hwf hin ho
      exact ⟨c1, c2, c3, c5⟩
    have hmask : sockbuf.wf_read ({ s with _which := { s._which with out := false } } : sockbuf) :=
      ⟨hwf.found, hwf.low, hwf.cursor, hwf.limit, hwf.fits⟩
    obtain ⟨b1, b2, b3, b4, b5⟩ := hsync _ hmask hin rfl
    obtain ⟨i, hi, _⟩ := hwf.found
    have hne : ¬ s.eback = none := by rw [hi]; simp
    unfold sockbuf.underflow_go
    rw [if_neg hne, if_neg hne]
    dsimp only
    rcases hA : sockbuf.sync { s with _which := { s._which with out := false } }
      { k with reads := RRes.deliver [] :: rest } with ⟨oA, sA, kA⟩
    rcases hB : sockbuf.sync { s with _which := { s._which with out := false } }
      { k with reads := RRes.fail e :: rest } with ⟨oB, sB, kB⟩
    rw [hA] at b1 b3 b4 b5
    rw [hB] at b2 b5
    dsimp only at b1 b2 b3 b4 b5
    subst b1 b2
    simp only [ne_eq, Int.reduceNeg, neg_eq_zero, one_ne_zero, not_false_eq_true, if_true]
    refine ⟨trivial, trivial, b3, ?_⟩
    rw [b5]

/-- C5 (amended) at a concrete input: a fresh read-only pipe buffer, the fatal
error `EIO`. -/
theorem read_eof_and_error_reports_witness :
    EIO ≠ EINTR ∧ EIO ≠ EWOULDBLOCK ∧
    (pipebuf.ex_read_only._recv { pipebuf.ex_peer_closed with reads := RRes.deliver [] :: [] }).1
      = Outcome.ret (-1) ∧
    (pipebuf.ex_read_only._recv { pipebuf.ex_peer_closed with reads := RRes.fail EIO :: [] }).1
      = Outcome.ret (-1) :=
  ⟨by decide, by decide,
    ((read_eof_and_error_reports EIO [] (by decide) (by decide)).1
      pipebuf.ex_read_only pipebuf.ex_peer_closed).1,
    ((read_eof_and_error_reports EIO [] (by decide) (by decide)).1
      pipebuf.ex_read_only pipebuf.ex_peer_closed).2.1⟩

end buffers
/-! ### `find_if` on lists with a key -/

theorem find_if_eq_none {α : Type} (p : α → Bool) (l : List α) :
    find_if p l = none ↔ ∀ x ∈ l, p x = false := by
  induction l with
  | nil => simp [find_if]
  | cons a l ih =>
    unfold find_if
    by_cases ha : p a = true
    · simp [ha]
    · simp [ha, ih]

theorem find_if_lt {α : Type} (p : α → Bool) (l : List α) (i : Nat) (h : find_if p l = some i) :
    i < l.length := by
  induction l generalizing i with
  | nil => simp [find_if] at h
  | cons a l ih =>
    unfold find_if at h
    by_cases ha : p a = true
    · simp [ha] at h
      subst h
      simp
    · simp only [ha, Bool.false_eq_true, if_false, Option.map_eq_some'] at h
      obtain ⟨j, hj, rfl⟩ := h
      have := ih j hj
      simp
      omega

theorem find_if_map {α β : Type} (f : α → β) (p : β → Bool) (l : List α) :
    find_if (fun x => p (f x)) l = find_if p (l.map f) := by
  induction l with
  | nil => rfl
  | cons a l ih => simp [find_if, ih]

theorem map_eraseIdx_key {α β : Type} (f : α → β) (l : List α) (i : Nat) :
    (l.eraseIdx i).map f = (l.map f).eraseIdx i := by
  induction l generalizing i with
  | nil => rfl
  | cons a l ih =>
    cases i with
    | zero => rfl
    | succ i => simp [ih]

theorem map_set_found {α : Type} (key : α → Int) (h : Int) (l : List α) (i : Nat) (y : α)
    (hf : find_if (fun x => key x == h) l = some i) (hy : key y = h) :
    (l.set i y).map key = l.map key := by
  induction l generalizing i with
  | nil => rfl
  | cons a l ih =>
    unfold find_if at hf
    by_cases ha : key a = h
    · simp [ha] at hf
      subst hf
      simp [ha, hy]
    · have hb : (key a == h) = false := by simp [ha]
      simp only [hb, Bool.false_eq_true, if_false, Option.map_eq_some'] at hf
      obtain ⟨j, hj, rfl⟩ := hf
      simp [ih j hj]

theorem eraseIdx_set_same {α : Type} (l : List α) (i : Nat) (x : α) :
    (l.set i x).eraseIdx i = l.eraseIdx i := by
  induction l generalizing i with
  | nil => rfl
  | cons a l ih =>
    cases i with
    | zero => rfl
    | succ i => simp [ih]

theorem map_modify_key {α β : Type} (key : α → β) (f : α → α) (l : List α) (i : Nat)
    (hk : ∀ x, key (f x) = key x) : (l.modify f i).map key = l.map key := by
  induction l generalizing i with
  | nil => cases i <;> rfl
  | cons a l ih =>
    cases i with
    | zero => simp [List.modify, hk]
    | succ i =>
      show List.map key (a :: List.modify f i l) = _
      rw [List.map_cons, ih, List.map_cons]

namespace trigger

theorem trigger_find_events (t : trigger) (h : Int) (hs : in_sync t) :
    find_if (fun ev : pollfd => ev.fd == h) t._poller._events =
      find_if (fun i : Int × Nat => i.1 == h) t._list := by
  rw [find_if_map pollfd.fd (fun y => y == h), find_if_map Prod.fst (fun y => y == h), hs.same]

theorem trigger_find_none (l : List (Int × Nat)) (h : Int) :
    find_if (fun i : Int × Nat => i.1 == h) l = none ↔ h ∉ l.map Prod.fst := by
  rw [find_if_eq_none]
  constructor
  · intro hh hm
    obtain ⟨x, hx, rfl⟩ := List.mem_map.mp hm
    simpa using hh x hx
  · intro hh x hx
    have : x.1 ≠ h := fun e => hh (e ▸ List.mem_map_of_mem Prod.fst hx)
    simpa using this

/-- `set` of a handle that is not in the list appends it to the list and to
the poller. -/
theorem trigger_set_new (t : trigger) (h : Int) (A : Nat) (hs : in_sync t)
    (hn : h ∉ t._list.map Prod.fst) :
    t.set h A = ((t._poller._events ++ [mkevent h A]).length,
      ⟨t._list ++ [(h, A)], ⟨t._poller._events ++ [mkevent h A]⟩⟩) := by
  have h1 := (trigger_find_none t._list h).mpr hn
  have h2 := (trigger_find_events t h hs).trans h1
  unfold set poller.add poller._add
  rw [h1, h2]

/-- `set` of a listed handle ORs the bits into the entry `find_if` finds and
writes the low 16 bits of the result into the poller entry at the same
place. -/
theorem trigger_set_found (t : trigger) (h : Int) (B i : Nat) (hs : in_sync t)
    (hf : find_if (fun x : Int × Nat => x.1 == h) t._list = some i) :
    t.set h B = (t._poller._events.length,
      ⟨t._list.set i (h, (t._list.getD i (h, 0)).2 ||| B),
        ⟨t._poller._events.modify
          (fun ev => { ev with events := ((t._list.getD i (h, 0)).2 ||| B) % 2 ^ 16 }) i⟩⟩) := by
  have h2 := (trigger_find_events t h hs).trans hf
  unfold set poller.update poller._update
  rw [hf]
  dsimp only
  rw [h2]
  rfl

/-- `clear` of a listed handle, when bits remain. -/
theorem trigger_clear_some (t : trigger) (h : Int) (M i : Nat) (hs : in_sync t)
    (hf : find_if (fun x : Int × Nat => x.1 == h) t._list = some i)
    (hz : (t._list.getD i (h, 0)).2 &&& (UINT32_MAX - M) ≠ 0) :
    t.clear h M = (t._poller._events.length,
      ⟨t._list.set i (h, (t._list.getD i (h, 0)).2 &&& (UINT32_MAX - M)),
        ⟨t._poller._events.modify
          (fun ev => { ev with
            events := ((t._list.getD i (h, 0)).2 &&& (UINT32_MAX - M)) % 2 ^ 16 }) i⟩⟩) := by
  have h2 := (trigger_find_events t h hs).trans hf
  unfold clear poller.update poller._update
  rw [hf]
  dsimp only
  rw [if_pos hz, h2]
  rfl

/-- `clear` of a listed handle, when no bit remains. -/
theorem trigger_clear_zero (t : trigger) (h : Int) (M i : Nat) (hs : in_sync t)
    (hf : find_if (fun x : Int × Nat => x.1 == h) t._list = some i)
    (hz : (t._list.getD i (h, 0)).2 &&& (UINT32_MAX - M) = 0) :
    t.clear h M = ((t._poller._events.eraseIdx i).length,
      ⟨t._list.eraseIdx i, ⟨t._poller._events.eraseIdx i⟩⟩) := by
  have h2 := (trigger_find_events t h hs).trans hf
  have hlt := find_if_lt _ _ _ hf
  unfold clear poller.del poller._del
  rw [hf]
  dsimp only
  rw [if_neg (by rw [hz]; simp), h2]
  dsimp only
  rw [eraseIdx_set_same]

theorem trigger_in_sync_set (t : trigger) (h : Int) (A : Nat) (hs : in_sync t) :
    in_sync (t.set h A).2 := by
  cases hf : find_if (fun x : Int × Nat => x.1 == h) t._list with
  | none =>
    have hn := (trigger_find_none t._list h).mp hf
    rw [trigger_set_new t h A hs hn]
    refine ⟨?_, ?_⟩
    · show ((t._list ++ [(h, A)]).map Prod.fst).Nodup
      rw [List.map_append, List.nodup_append]
      refine ⟨hs.unique, by simp, ?_⟩
      intro a ha hb
      simp only [List.map_cons, List.map_nil, List.mem_singleton] at hb
      exact hn (hb ▸ ha)
    · show (t._poller._events ++ [mkevent h A]).map pollfd.fd = (t._list ++ [(h, A)]).map Prod.fst
      rw [List.map_append, List.map_append, hs.same]
      rfl
  | some i =>
    rw [trigger_set_found t h A i hs hf]
    refine ⟨?_, ?_⟩
    · show ((t._list.set i _).map Prod.fst).Nodup
      rw [map_set_found Prod.fst h t._list i _ hf rfl]
      exact hs.unique
    · show (t._poller._events.modify _ i).map pollfd.fd = (t._list.set i _).map Prod.fst
      rw [map_set_found Prod.fst h t._list i _ hf rfl]
      refine Eq.trans (map_modify_key pollfd.fd _ _ _ ?_) hs.same
      intro _
      rfl

theorem trigger_in_sync_clear (t : trigger) (h : Int) (M : Nat) (hs : in_sync t) :
    in_sync (t.clear h M).2 := by
  cases hf : find_if (fun x : Int × Nat => x.1 == h) t._list with
  | none =>
    unfold clear
    rw [hf]
    exact hs
  | some i =>
    by_cases hz : (t._list.getD i (h, 0)).2 &&& (UINT32_MAX - M) = 0
    · rw [trigger_clear_zero t h M i hs hf hz]
      refine ⟨?_, ?_⟩
      · show ((t._list.eraseIdx i).map Prod.fst).Nodup
        rw [map_eraseIdx_key]
        exact hs.unique.sublist (List.eraseIdx_sublist _ _)
      · show (t._poller._events.eraseIdx i).map pollfd.fd = (t._list.eraseIdx i).map Prod.fst
        rw [map_eraseIdx_key, map_eraseIdx_key, hs.same]
    · rw [trigger_clear_some t h M i hs hf hz]
      refine ⟨?_, ?_⟩
      · show ((t._list.set i _).map Prod.fst).Nodup
        rw [map_set_found Prod.fst h t._list i _ hf rfl]
        exact hs.unique
      · show (t._poller._events.modify _ i).map pollfd.fd = (t._list.set i _).map Prod.fst
        rw [map_set_found Prod.fst h t._list i _ hf rfl]
        refine Eq.trans (map_modify_key pollfd.fd _ _ _ ?_) hs.same
        intro _
        rfl

/-- Every state a `trigger` can reach has its poller in step with its list. -/
theorem trigger_reachable_in_sync (t : trigger) (hr : Reachable t) : in_sync t := by
  induction hr with
  | init => exact ⟨List.nodup_nil, rfl⟩
  | set t h A _ _ ih => exact trigger_in_sync_set t h A ih
  | clear t h M _ _ ih => exact trigger_in_sync_clear t h M ih

theorem trigger_ex_one_reachable : Reachable ex_one :=
  Reachable.set empty 3 5 Reachable.init (by decide)

theorem trigger_ex_two_reachable : Reachable ex_two :=
  Reachable.set ex_one 7 6 trigger_ex_one_reachable (by decide)

end trigger

/-! ### The poller entries under `set` and `clear` -/

theorem map_modify_const {α β : Type} (g : α → β) (f : α → α) (c : β) (l : List α) (i : Nat)
    (hc : ∀ x, g (f x) = c) : (l.modify f i).map g = (l.map g).set i c := by
  induction l generalizing i with
  | nil => cases i <;> rfl
  | cons a l ih =>
    cases i with
    | zero => simp [List.modify, hc]
    | succ i =>
      show List.map g (a :: List.modify f i l) = _
      rw [List.map_cons, ih, List.map_cons, List.set_cons_succ]

theorem map_set_value {α β : Type} (g : α → β) (l : List α) (i : Nat) (y : α) :
    (l.set i y).map g = (l.map g).set i (g y) := by
  induction l generalizing i with
  | nil => rfl
  | cons a l ih =>
    cases i with
    | zero => rfl
    | succ i => simp [ih]

theorem map_pair_of_maps {α β γ δ : Type} (f : α → γ) (g : α → δ) (f' : β → γ) (g' : β → δ)
    (l : List α) (l' : List β) (h1 : l.map f = l'.map f') (h2 : l.map g = l'.map g') :
    l.map (fun x => (f x, g x)) = l'.map (fun x => (f' x, g' x)) := by
  induction l generalizing l' with
  | nil =>
    cases l' with
    | nil => rfl
    | cons b l' => simp at h1
  | cons a l ih =>
    cases l' with
    | nil => simp at h1
    | cons b l' =>
      simp only [List.map_cons, List.cons.injEq] at h1 h2 ⊢
      exact ⟨by rw [h1.1, h2.1], ih l' h1.2 h2.2⟩

theorem eq_of_nodup_key {α : Type} (key : α → Int) (l : List α) (hn : (l.map key).Nodup)
    (x y : α) (hx : x ∈ l) (hy : y ∈ l) (h : key x = key y) : x = y :=
  List.inj_on_of_nodup_map hn hx hy h

namespace trigger

theorem trigger_masks_set (t : trigger) (h : Int) (A : Nat) (hs : in_sync t)
    (hm : t._poller._events.map pollfd.events = t._list.map (fun i => i.2 % 2 ^ 16)) :
    (t.set h A).2._poller._events.map pollfd.events =
      (t.set h A).2._list.map (fun i => i.2 % 2 ^ 16) := by
  cases hf : find_if (fun x : Int × Nat => x.1 == h) t._list with
  | none =>
    have hn := (trigger_find_none t._list h).mp hf
    rw [trigger_set_new t h A hs hn]
    show (t._poller._events ++ [mkevent h A]).map pollfd.events =
      (t._list ++ [(h, A)]).map (fun i => i.2 % 2 ^ 16)
    rw [List.map_append, List.map_append, hm]
    rfl
  | some i =>
    rw [trigger_set_found t h A i hs hf]
    show (t._poller._events.modify _ i).map pollfd.events =
      (t._list.set i _).map (fun i => i.2 % 2 ^ 16)
    rw [map_set_value, ← hm]
    exact map_modify_const pollfd.events _ _ _ _ (fun _ => rfl)

theorem trigger_masks_clear (t : trigger) (h : Int) (M : Nat) (hs : in_sync t)
    (hm : t._poller._events.map pollfd.events = t._list.map (fun i => i.2 % 2 ^ 16)) :
    (t.clear h M).2._poller._events.map pollfd.events =
      (t.clear h M).2._list.map (fun i => i.2 % 2 ^ 16) := by
  cases hf : find_if (fun x : Int × Nat => x.1 == h) t._list with
  | none =>
    unfold clear
    rw [hf]
    exact hm
  | some i =>
    by_cases hz : (t._list.getD i (h, 0)).2 &&& (UINT32_MAX - M) = 0
    · rw [trigger_clear_zero t h M i hs hf hz]
      show (t._poller._events.eraseIdx i).map pollfd.events =
        (t._list.eraseIdx i).map (fun i => i.2 % 2 ^ 16)
      rw [map_eraseIdx_key, map_eraseIdx_key, hm]
    · rw [trigger_clear_some t h M i hs hf hz]
      show (t._poller._events.modify _ i).map pollfd.events =
        (t._list.set i _).map (fun i => i.2 % 2 ^ 16)
      rw [map_set_value, ← hm]
      exact map_modify_const pollfd.events _ _ _ _ (fun _ => rfl)

theorem trigger_reachable_masks (t : trigger) (hr : Reachable t) :
    t._poller._events.map pollfd.events = t._list.map (fun i => i.2 % 2 ^ 16) := by
  induction hr with
  | init => rfl
  | set t h A hr _ ih => exact trigger_masks_set t h A (trigger_reachable_in_sync t hr) ih
  | clear t h M hr _ ih => exact trigger_masks_clear t h M (trigger_reachable_in_sync t hr) ih

theorem trigger_ex_high_reachable : Reachable ex_high :=
  Reachable.set empty 3 65536 Reachable.init (by decide)

/-- C11 (counterexample). After `set(3, 0x10000)` on a fresh trigger the handle
3 is in the interest list with accumulated interest `0x10000` and registered
in the poller, but the poller entry requests the event mask 0: the two masks
differ. -/
theorem trigger_high_bits_missing_in_poller :
    Reachable ex_high ∧ ex_high.interest 3 = some 65536 ∧
    ex_high._poller._events = [⟨3, 0, 0⟩] ∧
    ex_high._poller._events.map pollfd.events ≠ ex_high._list.map Prod.snd :=
  ⟨trigger_ex_high_reachable, by decide, by decide, by decide⟩

/-- C11 (amended). In every state reachable from an empty trigger by `set` and
`clear` calls with 32-bit bitmasks, no handle is listed twice, the poller
holds one entry for each entry of the interest list, in the same order and
with the same handle, and the event mask that entry requests is the low 16
bits of the handle's accumulated interest (`pollfd::events` is a `short`). In
particular a poller entry and a list entry with the same handle carry masks
equal modulo `2 ^ 16`. -/
theorem trigger_poller_holds_low_bits (t : trigger) (hr : Reachable t) :
    (t._list.map Prod.fst).Nodup ∧
    t._poller._events.map (fun e => (e.fd, e.events)) =
      t._list.map (fun i => (i.1, i.2 % 2 ^ 16)) ∧
    (∀ h, h ∈ t._list.map Prod.fst ↔ h ∈ t._poller._events.map pollfd.fd) ∧
    (∀ e ∈ t._poller._events, ∀ i ∈ t._list, e.fd = i.1 → e.events = i.2 % 2 ^ 16) := by
  have hs := trigger_reachable_in_sync t hr
  have hm := trigger_reachable_masks t hr
  have hp := map_pair_of_maps pollfd.fd pollfd.events Prod.fst (fun i => i.2 % 2 ^ 16)
    t._poller._events t._list hs.same hm
  refine ⟨hs.unique, hp, ?_, ?_⟩
  · intro h
    rw [hs.same]
  · intro e he i hi hfd
    have hmem : (e.fd, e.events) ∈ t._list.map (fun i => (i.1, i.2 % 2 ^ 16)) := by
      rw [← hp]
      exact List.mem_map_of_mem (fun e : pollfd => (e.fd, e.events)) he
    obtain ⟨j, hj, hje⟩ := List.mem_map.mp hmem
    simp only [Prod.mk.injEq] at hje
    have hij : i = j := eq_of_nodup_key Prod.fst t._list hs.unique i j hi hj (by rw [← hfd, hje.1])
    rw [hij, hje.2]

/-- C11 (amended) at a concrete input: the trigger with the handles 3
(interest 5) and 7 (interest 6). -/
theorem trigger_poller_holds_low_bits_witness :
    Reachable ex_two ∧
    ex_two._poller._events.map (fun e => (e.fd, e.events)) = [(3, 5), (7, 6)] :=
  ⟨trigger_ex_two_reachable, (trigger_poller_holds_low_bits ex_two trigger_ex_two_reachable).2.1⟩

end trigger

/-! ### The first entry `find_if` finds -/

theorem find_if_first {α : Type} (p : α → Bool) (l₁ l₂ : List α) (x : α) (hx : p x = true)
    (h : ∀ y ∈ l₁, p y = false) : find_if p (l₁ ++ x :: l₂) = some l₁.length := by
  induction l₁ with
  | nil => simp [find_if, hx]
  | cons a l ih =>
    have ha : p a = false := h a (List.mem_cons_self a l)
    have := ih (fun y hy => h y (List.mem_cons_of_mem a hy))
    simp [find_if, ha, this]

theorem find_if_split {α : Type} (p : α → Bool) (l : List α) (i : Nat) (h : find_if p l = some i) :
    ∃ l₁ x l₂, l = l₁ ++ x :: l₂ ∧ l₁.length = i ∧ p x = true ∧ ∀ y ∈ l₁, p y = false := by
  induction l generalizing i with
  | nil => simp [find_if] at h
  | cons a l ih =>
    unfold find_if at h
    by_cases ha : p a = true
    · simp [ha] at h
      subst h
      exact ⟨[], a, l, rfl, rfl, ha, by simp⟩
    · simp only [ha, Bool.false_eq_true, if_false, Option.map_eq_some'] at h
      obtain ⟨j, hj, rfl⟩ := h
      obtain ⟨l₁, x, l₂, hl, hlen, hx, hb⟩ := ih j hj
      refine ⟨a :: l₁, x, l₂, by rw [hl]; rfl, by simp [hlen], hx, ?_⟩
      intro y hy
      rcases List.mem_cons.mp hy with rfl | hy
      · simpa using ha
      · exact hb y hy

theorem find_if_some_of_mem {α : Type} (p : α → Bool) (l : List α) (h : ∃ x ∈ l, p x = true) :
    ∃ i, find_if p l = some i := by
  cases hf : find_if p l with
  | some i => exact ⟨i, rfl⟩
  | none =>
    obtain ⟨x, hx, hp⟩ := h
    rw [find_if_eq_none] at hf
    rw [hf x hx] at hp
    cases hp

theorem modify_at_split {α : Type} (f : α → α) (l₁ l₂ : List α) (x : α) :
    (l₁ ++ x :: l₂).modify f l₁.length = l₁ ++ f x :: l₂ := by
  induction l₁ with
  | nil => rfl
  | cons a l ih =>
    show a :: (l ++ x :: l₂).modify f l.length = _
    rw [ih]
    rfl

theorem eraseIdx_at_split {α : Type} (l₁ l₂ : List α) (x : α) :
    (l₁ ++ x :: l₂).eraseIdx l₁.length = l₁ ++ l₂ := by
  induction l₁ with
  | nil => rfl
  | cons a l ih => simp [ih]

namespace poller

theorem poller_max_size_lt_npos : max_size + 1 < npos := by
  unfold max_size npos SIZE_MAX
  norm_num

/-- C12. For every poller state (a vector within `max_size`), handle `h` and
event `e`.  When an entry with `fd = h` is registered: `add(h, e)` returns
`npos` and leaves the list unchanged, while `update(h, e)` and `del(h)` act on
the first such entry `x` (the list is `l₁ ++ x :: l₂` with no `fd = h` in
`l₁`): `update` replaces the events of `x` in place, `del` removes `x`, the
other entries keep their order, and both return the entry count after the
operation, which is not `npos`.  When no entry has `fd = h`: `update(h, e)`
and `del(h)` return `npos` and leave the list unchanged, while `add(h, e)`
appends `e` at the end and returns the new entry count, which is not
`npos`. -/
theorem poller_ops_sentinel_or_count (p : poller) (h : Int) (e : pollfd)
    (hsz : p.size < max_size) :
    ((∃ x ∈ p._events, x.fd = h) →
      p.add h e = (npos, p) ∧
      ∃ l₁ x l₂, p._events = l₁ ++ x :: l₂ ∧ x.fd = h ∧ (∀ y ∈ l₁, y.fd ≠ h) ∧
        p.update h e = (p.size, ⟨l₁ ++ { x with events := e.events } :: l₂⟩) ∧
        p.del h = (p.size - 1, ⟨l₁ ++ l₂⟩) ∧
        (p.update h e).1 = (p.update h e).2.size ∧ (p.update h e).1 ≠ npos ∧
        (p.del h).1 = (p.del h).2.size ∧ (p.del h).1 ≠ npos) ∧
    ((∀ x ∈ p._events, x.fd ≠ h) →
      p.update h e = (npos, p) ∧ p.del h = (npos, p) ∧
      p.add h e = (p.size + 1, ⟨p._events ++ [e]⟩) ∧
      (p.add h e).1 = (p.add h e).2.size ∧ (p.add h e).1 ≠ npos) := by
  have hnpos := poller_max_size_lt_npos
  unfold size at hsz
  constructor
  · rintro ⟨x0, hx0, hfd0⟩
    obtain ⟨i, hi⟩ := find_if_some_of_mem (fun ev : pollfd => ev.fd == h) p._events
      ⟨x0, hx0, by simp [hfd0]⟩
    obtain ⟨l₁, x, l₂, hl, hlen, hx, hb⟩ := find_if_split _ _ _ hi
    have hadd : p.add h e = (npos, p) := by
      unfold add _add
      rw [hi]
    have hupd : p.update h e = (p.size, ⟨l₁ ++ { x with events := e.events } :: l₂⟩) := by
      unfold update _update size
      rw [hi]
      dsimp only
      rw [← hlen, hl, modify_at_split]
    have hdel : p.del h = (p.size - 1, ⟨l₁ ++ l₂⟩) := by
      unfold del _del size
      rw [hi]
      dsimp only
      rw [← hlen, hl, eraseIdx_at_split]
      simp
    refine ⟨hadd, l₁, x, l₂, hl, by simpa using hx, ?_, hupd, hdel, ?_, ?_, ?_, ?_⟩
    · intro y hy
      simpa using hb y hy
    · rw [hupd]
      simp [size, hl]
    · rw [hupd]
      show p.size ≠ npos
      unfold size
      omega
    · rw [hdel]
      simp [size, hl]
    · rw [hdel]
      show p.size - 1 ≠ npos
      unfold size
      omega
  · intro hno
    have hf : find_if (fun ev : pollfd => ev.fd == h) p._events = none := by
      rw [find_if_eq_none]
      intro x hx
      simpa using hno x hx
    refine ⟨?_, ?_, ?_, ?_, ?_⟩
    · unfold update _update
      rw [hf]
    · unfold del _del
      rw [hf]
    · unfold add _add size
      rw [hf]
      simp
    · unfold add _add size
      rw [hf]
    · unfold add _add
      rw [hf]
      show (p._events ++ [e]).length ≠ npos
      rw [List.length_append, List.length_singleton]
      omega

/-- C12 at a concrete input: the poller with the descriptors 3 and 7; `add`
of the registered 7 is rejected, `update` and `del` of the unregistered 9 are
rejected. -/
theorem poller_ops_sentinel_or_count_witness :
    ex_pair.size < max_size ∧ ex_pair.add 7 ⟨7, 1, 0⟩ = (npos, ex_pair) ∧
    ex_pair.update 9 ⟨9, 1, 0⟩ = (npos, ex_pair) ∧ ex_pair.del 9 = (npos, ex_pair) :=
  ⟨by decide,
    ((poller_ops_sentinel_or_count ex_pair 7 ⟨7, 1, 0⟩ (by decide)).1
      ⟨⟨7, 4, 0⟩, by decide, rfl⟩).1,
    ((poller_ops_sentinel_or_count ex_pair 9 ⟨9, 1, 0⟩ (by decide)).2 (by decide)).1,
    ((poller_ops_sentinel_or_count ex_pair 9 ⟨9, 1, 0⟩ (by decide)).2 (by decide)).2.1⟩

/-! ### Uniqueness of the handles -/

theorem poller_matched_unique (p : poller) (hr : ReachableMatched p) :
    (p._events.map pollfd.fd).Nodup := by
  induction hr with
  | init => exact List.nodup_nil
  | add p h e _ hfd ih =>
    unfold add _add
    cases hf : find_if (fun ev : pollfd => ev.fd == h) p._events with
    | some i => exact ih
    | none =>
      show ((p._events ++ [e]).map pollfd.fd).Nodup
      rw [find_if_eq_none] at hf
      rw [List.map_append, List.nodup_append]
      refine ⟨ih, by simp, ?_⟩
      intro a ha hb
      simp only [List.map_cons, List.map_nil, List.mem_singleton] at hb
      obtain ⟨x, hx, rfl⟩ := List.mem_map.mp ha
      have := hf x hx
      rw [hb, hfd] at this
      simp at this
  | update p h e _ ih =>
    unfold update _update
    cases hf : find_if (fun ev : pollfd => ev.fd == h) p._events with
    | none => exact ih
    | some i =>
      show ((p._events.modify _ i).map pollfd.fd).Nodup
      have hk := map_modify_key pollfd.fd (fun ev : pollfd => { ev with events := e.events })
        p._events i (fun _ => rfl)
      rw [hk]
      exact ih
  | del p h _ ih =>
    unfold del _del
    cases hf : find_if (fun ev : pollfd => ev.fd == h) p._events with
    | none => exact ih
    | some i =>
      show ((p._events.eraseIdx i).map pollfd.fd).Nodup
      rw [map_eraseIdx_key]
      exact ih.sublist (List.eraseIdx_sublist _ _)

theorem poller_ex_mismatch_reachable : Reachable ex_mismatch :=
  Reachable.add _ 5 ⟨7, 1, 0⟩ (Reachable.add _ 3 ⟨7, 1, 0⟩ Reachable.init)

/-- C13. After `add(3, ev)` and `add(5, ev)` on a fresh poller, with the same
event `ev` whose `fd` is 7, both calls were accepted (they returned the entry
counts 1 and 2) and the list holds two entries with `fd = 7`: the handles of
a reachable state are not unique. -/
theorem poller_add_mismatched_event_duplicates_fd :
    Reachable ex_mismatch ∧
    (empty.add 3 ⟨7, 1, 0⟩).1 = 1 ∧ ((empty.add 3 ⟨7, 1, 0⟩).2.add 5 ⟨7, 1, 0⟩).1 = 2 ∧
    ex_mismatch._events.map pollfd.fd = [7, 7] ∧
    ¬ (ex_mismatch._events.map pollfd.fd).Nodup :=
  ⟨poller_ex_mismatch_reachable, by decide, by decide, by decide, by decide⟩

end poller

namespace buffers
namespace pipebuf

/-! ### Closing a pipe buffer -/

/-- A second `close_read` leaves the buffer as the first left it and issues
`close` on the read descriptor a second time. -/
theorem pipe_close_read_twice (s : pipebuf) (k : Kernel) :
    (close_read (close_read s k).1 (close_read s k).2).1 = (close_read s k).1 ∧
    (close_read (close_read s k).1 (close_read s k).2).2.calls =
      k.calls ++ [SysCall.close s._pipe.1, SysCall.close s._pipe.1] := by
  simp [close_read]

/-- A second `close_write` leaves the buffer as the first left it and issues
`close` on the write descriptor a second time. -/
theorem pipe_close_write_twice (s : pipebuf) (k : Kernel) :
    (close_write (close_write s k).1 (close_write s k).2).1 = (close_write s k).1 ∧
    (close_write (close_write s k).1 (close_write s k).2).2.calls =
      k.calls ++ [SysCall.close s._pipe.2, SysCall.close s._pipe.2] := by
  simp [close_write]

/-- C14. A pipe buffer on the descriptors 3 and 4, in a kernel that has seen no
call.  Calling `close_read` twice passes the descriptor 3 to `close` twice,
and so does `close_write` with the descriptor 4; calling `close_read` and
`close_write` once each and then the destructor passes both descriptors to
`close` twice.  (The second call does leave the buffer state unchanged.) -/
theorem pipe_close_read_not_idempotent :
    (close_read (close_read ex_default ex_idle).1 (close_read ex_default ex_idle).2).2.calls =
      [SysCall.close 3, SysCall.close 3] ∧
    (close_write (close_write ex_default ex_idle).1 (close_write ex_default ex_idle).2).2.calls =
      [SysCall.close 4, SysCall.close 4] ∧
    (destructor (close_write (close_read ex_default ex_idle).1 (close_read ex_default ex_idle).2).1
      (close_write (close_read ex_default ex_idle).1 (close_read ex_default ex_idle).2).2).calls =
      [SysCall.close 3, SysCall.close 4, SysCall.close 3, SysCall.close 4] ∧
    (close_read (close_read ex_default ex_idle).1 (close_read ex_default ex_idle).2).1 =
      (close_read ex_default ex_idle).1 :=
  ⟨by decide!, by decide!, by decide!, by decide!⟩

/-! ### Moving a pipe buffer -/

/-- The new object of a move construction is the source as it was. -/
theorem pipe_move_construct_destination (s : pipebuf) :
    (move_construct s).1 = s ∧ (move_assign s s).1 = s := ⟨rfl, rfl⟩

/-- The source of a move keeps its pointers and its open mode. -/
theorem pipe_move_source_keeps_areas (s : pipebuf) :
    (move_construct s).2.pbase_null = s.pbase_null ∧
    (move_construct s).2.eback_null = s.eback_null ∧
    (move_construct s).2.pptr = s.pptr ∧ (move_construct s).2._which = s._which ∧
    (move_construct s).2._pipe = (0, 0) ∧
    (move_assign s s).2 = (move_construct s).2 := ⟨rfl, rfl, rfl, rfl, rfl, rfl⟩

/-- C15. A read+write pipe buffer into which the bytes 10, 20, 30 were put is
moved from, by the move constructor or by the move assignment.  The new object
is the old state, and the source holds the descriptors 0 and 0, but its get
and put areas are not null: `write_remaining` still reports 3, and `overflow`
and `underflow` on the source do not return end-of-stream at once: each
issues a `write` on the descriptor 0, and `overflow(65)` returns 65. -/
theorem pipe_move_source_not_closed :
    (move_construct ex_three).1 = ex_three ∧
    (move_construct ex_three).2._pipe = (0, 0) ∧
    (move_construct ex_three).2.pbase_null = false ∧
    (move_construct ex_three).2.eback_null = false ∧
    (move_assign ex_default ex_three).2.pbase_null = false ∧
    (move_assign ex_default ex_three).2.eback_null = false ∧
    write_remaining (move_construct ex_three).2 = 3 ∧
    (overflow_go 1 (move_construct ex_three).2 ex_accept_three 65).1 = Outcome.ret 65 ∧
    (overflow_go 1 (move_construct ex_three).2 ex_accept_three 65).2.2.calls.map SysCall.fd = [0] ∧
    (underflow_go 1 (move_construct ex_three).2 ex_accept_three).2.2.calls.map SysCall.fd = [0] :=
  ⟨rfl, by decide!, by decide!, by decide!, by decide!, by decide!, by decide!, by decide!,
    by decide!, by decide!⟩

end pipebuf

namespace sockbuf

/-- The move assignment of `sockbuf` sets both areas of its source to null, so
that `underflow` on the source returns end-of-stream without a system call. -/
theorem sock_move_assign_source_null (self other d src : sockbuf) (k : Kernel) (fuel : Nat)
    (h : move_assign self other = some (d, src)) :
    src.eback = none ∧ src.pbase = none ∧ src._socket = 0 ∧
    underflow_go (fuel + 1) src k = (Outcome.ret eof, src, k) := by
  unfold move_assign at h
  split at h
  · cases h
  · simp only [Option.some.injEq, Prod.mk.injEq] at h
    obtain ⟨_, rfl⟩ := h
    refine ⟨rfl, rfl, rfl, ?_⟩
    simp [underflow_go]

/-- The move constructor of `sockbuf` leaves the two pointers of its source as
they were. -/
theorem sock_move_construct_source_keeps_areas (s : sockbuf) (e : Int) (c : Bool) :
    (move_construct s e c).2.eback = s.eback ∧ (move_construct s e c).2.pbase = s.pbase ∧
    (move_construct s e c).2.pptr = s.pptr ∧ (move_construct s e c).2._socket = 0 :=
  ⟨rfl, rfl, rfl, rfl⟩

/-! ### The control buffer of the send direction -/

theorem sock_set_buffer_cbufs (s : sockbuf) (b : Option Nat) (v : List Byte) :
    (s.set_buffer b v)._cbufs = s._cbufs := by
  unfold set_buffer
  cases b <;> rfl

theorem sock_setup_cbufs (s : sockbuf) (buf size : Nat) :
    (_send_setup s buf size)._cbufs = s._cbufs := by
  unfold _send_setup
  by_cases hs : size > 0
  · rw [if_pos hs]
  · rw [if_neg hs]

theorem sock_resizewbuf_cbufs (s s2 : sockbuf) (h : _resizewbuf s = some s2) :
    s2._cbufs = s._cbufs := by
  unfold _resizewbuf at h
  cases hp : s.pbase with
  | none =>
    rw [hp] at h
    cases h
  | some i =>
    rw [hp] at h
    dsimp only at h
    cases hg : s._buffers.get? i with
    | none =>
      rw [hg] at h
      cases h
    | some it =>
      rw [hg] at h
      dsimp only at h
      by_cases h1 : size_t_of_int s.pptr < size_t_pred s.BUFSIZE ∧ it.length > s.BUFSIZE
      · rw [if_pos h1] at h
        cases h
        rfl
      · rw [if_neg h1] at h
        by_cases h2 : s.pptr = s.epptr
        · rw [if_pos h2] at h
          cases h
          rfl
        · rw [if_neg h2] at h
          cases h
          rfl

theorem sock_send_go_cbufs (ws : List WRes) :
    ∀ (entry : Bool) (s : sockbuf) (k : Kernel) (buf size : Nat),
      (_send_go ws entry s k buf size).2.1._cbufs = s._cbufs := by
  induction ws with
  | nil => intro entry s k buf size; rfl
  | cons r ws ih =>
    intro entry s k buf size
    have h0 : (if entry then _send_setup s buf size else s)._cbufs = s._cbufs := by
      cases entry
      · rfl
      · exact sock_setup_cbufs s buf size
    cases r with
    | accept room =>
      simp only [_send_go]
      split
      · exact h0
      · rw [ih]
        exact h0
    | fail e =>
      simp only [_send_go]
      split
      · rw [ih]
        exact h0
      · split
        · rw [ih]
          exact h0
        · split
          · unfold keep_unsent
            exact (sock_set_buffer_cbufs _ _ _).trans h0
          · unfold keep_unsent
            exact (sock_set_buffer_cbufs _ _ _).trans h0

/-- No `sync` changes the control buffers: whatever the kernel answers,
`cmsgs()` is afterwards what it was. -/
theorem sock_sync_keeps_cbufs (s : sockbuf) (k : Kernel) (ho : s._which.out = true) :
    (s.sync k).2.1._cbufs = s._cbufs := by
  unfold sync
  rw [if_pos ho]
  dsimp only
  by_cases hs : size_t_of_int s.pptr > 0 ∨ s._cbufs.2.length > 0
  · rw [if_pos hs]
    have hc := sock_send_go_cbufs k.writes true s k 0 (size_t_of_int s.pptr)
    unfold _send
    rcases hsend : _send_go k.writes true s k 0 (size_t_of_int s.pptr) with ⟨o, s1, k1⟩
    rw [hsend] at hc
    cases o with
    | ret v =>
      dsimp only
      by_cases hv : v ≠ 0
      · rw [if_pos hv]
        exact hc
      · rw [if_neg hv]
        cases hr : _resizewbuf s1 with
        | none => exact hc
        | some s2 => exact (sock_resizewbuf_cbufs s1 s2 hr).trans hc
    | pending => exact hc
    | throws => exact hc
  · rw [if_neg hs]
    dsimp only
    rw [if_neg (by simp)]
    cases hr : _resizewbuf s with
    | none => rfl
    | some s2 => exact sock_resizewbuf_cbufs s s2 hr

/-- C16. A read+write socket buffer with no payload buffered, three bytes in
the control buffer `cmsgs()[1]` and the send header pointed at them; the
kernel accepts every `sendmsg`.  The first `sync` returns 0 after one
`sendmsg` with the control data attached and clears `msg_control` and
`msg_controllen` of the header, but `cmsgs()[1]` still holds the three bytes;
the following `sync`, still with no payload, returns 0 after a second
`sendmsg`, an empty message without control data. -/
theorem sock_control_buffer_not_cleared :
    ex_control._cbufs.2 = [1, 2, 3] ∧ ex_control.pptr = 0 ∧
    (ex_control.sync ex_accept_twice).1 = Outcome.ret 0 ∧
    (ex_control.sync ex_accept_twice).2.2.calls = [SysCall.sendmsg 5 [] true] ∧
    (ex_control.sync ex_accept_twice).2.1._msghdrs.2.msg_control = false ∧
    (ex_control.sync ex_accept_twice).2.1._msghdrs.2.msg_controllen = 0 ∧
    (ex_control.sync ex_accept_twice).2.1._cbufs.2 = [1, 2, 3] ∧
    (ex_control.sync ex_accept_twice).2.1.pptr = 0 ∧
    ((ex_control.sync ex_accept_twice).2.1.sync (ex_control.sync ex_accept_twice).2.2).1 =
      Outcome.ret 0 ∧
    ((ex_control.sync ex_accept_twice).2.1.sync (ex_control.sync ex_accept_twice).2.2).2.2.calls =
      [SysCall.sendmsg 5 [] true, SysCall.sendmsg 5 [] false] :=
  ⟨by decide!, by decide!, by decide!, by decide!, by decide!, by decide!, by decide!,
    by decide!, by decide!, by decide!⟩

/-- C18. A read+write socket buffer whose caller has set `bufsize()` to 0, with
three bytes in use in a write window of capacity 16535: `_resizewbuf` shrinks
the window to capacity 0, below the three bytes in use, and leaves the cursor
offset 3 beyond the capacity. -/
theorem sock_resizewbuf_bufsize_zero_below_use :
    ex_bufsize_zero.BUFSIZE = 0 ∧ ex_bufsize_zero.wbuf.length = 16535 ∧
    ex_bufsize_zero.pptr = 3 ∧
    ex_bufsize_zero._resizewbuf.map (fun s => (s.wbuf.length, s.pptr, s.epptr)) =
      some (0, 3, 0) :=
  ⟨by decide!, by decide!, by decide!, by decide!⟩

end sockbuf
end buffers

/-! ### Growing, shrinking and compacting a window -/

theorem length_resize (v : List Byte) (n : Nat) : (resize v n).length = n := by
  unfold resize
  rw [List.length_append, List.length_take, List.length_replicate]
  omega

theorem drop_take_window (mem : List Byte) (g e : Nat) :
    (mem.drop g).take (e - g) = (mem.take e).drop g := by
  rw [List.drop_take]

theorem to_int_natCast_wrap (n : Nat) (h1 : 2 ^ 31 ≤ n) (h2 : n < 2 ^ 32) :
    to_int (n : Int) = (n : Int) - 2 ^ 32 := by
  rw [to_int_spec]
  omega

namespace buffers

/-- The three cases of `pipebuf::_resizewbuf`. -/
theorem pipe_resizewbuf_cases (s : pipebuf) :
    (size_t_of_int s.pptr < size_t_pred s.BUFSIZE ∧ s._write.length > s.BUFSIZE →
      pipebuf._resizewbuf s =
        { s with _write := resize s._write s.BUFSIZE, pbase_null := false,
                 pptr := to_int (size_t_of_int s.pptr),
                 epptr := (resize s._write s.BUFSIZE).length }) ∧
    (¬ (size_t_of_int s.pptr < size_t_pred s.BUFSIZE ∧ s._write.length > s.BUFSIZE) →
      s.pptr = s.epptr →
      pipebuf._resizewbuf s =
        { s with _write := resize s._write (2 * s._write.length), pbase_null := false,
                 pptr := to_int (size_t_of_int s.pptr),
                 epptr := (resize s._write (2 * s._write.length)).length }) ∧
    (¬ (size_t_of_int s.pptr < size_t_pred s.BUFSIZE ∧ s._write.length > s.BUFSIZE) →
      s.pptr ≠ s.epptr → pipebuf._resizewbuf s = s) := by
  refine ⟨?_, ?_, ?_⟩
  · intro h1
    unfold pipebuf._resizewbuf
    dsimp only
    rw [if_pos h1]
  · intro h1 h2
    unfold pipebuf._resizewbuf
    dsimp only
    rw [if_neg h1, if_pos h2]
  · intro h1 h2
    unfold pipebuf._resizewbuf
    dsimp only
    rw [if_neg h1, if_neg h2]

/-- The offset and its conversion to `int` for a cursor inside `[0, 2 ^ 31)`. -/
theorem pipe_offset_small (s : pipebuf) (h0 : 0 ≤ s.pptr) (hz : s.pptr < 2 ^ 31) :
    ((size_t_of_int s.pptr : Nat) : Int) = s.pptr ∧
    to_int (size_t_of_int s.pptr) = s.pptr := by
  obtain ⟨n, hn⟩ := Int.eq_ofNat_of_zero_le h0
  rw [hn, size_t_of_int_natCast n (by omega)]
  exact ⟨rfl, to_int_natCast n (by omega)⟩

/-- With a `BUFSIZE` of at least one and a cursor offset below `2 ^ 31`,
`pipebuf::_resizewbuf` keeps the cursor offset, leaves a capacity of at least
that offset, and a capacity it makes smaller is `BUFSIZE`. -/
theorem pipe_resizewbuf_capacity (s : pipebuf) (hB : 1 ≤ s.BUFSIZE)
    (hl : s.epptr = s._write.length) (h0 : 0 ≤ s.pptr) (hc : s.pptr ≤ s.epptr)
    (hz : s.pptr < 2 ^ 31) :
    (pipebuf._resizewbuf s).pptr = s.pptr ∧
    s.pptr ≤ (pipebuf._resizewbuf s)._write.length ∧
    (pipebuf._resizewbuf s).epptr = (pipebuf._resizewbuf s)._write.length ∧
    ((pipebuf._resizewbuf s)._write.length < s._write.length →
      (pipebuf._resizewbuf s)._write.length = s.BUFSIZE) := by
  have hp := size_t_pred_le s.BUFSIZE hB
  obtain ⟨o1, o2⟩ := pipe_offset_small s h0 hz
  obtain ⟨c1, c2, c3⟩ := pipe_resizewbuf_cases s
  by_cases h1 : size_t_of_int s.pptr < size_t_pred s.BUFSIZE ∧ s._write.length > s.BUFSIZE
  · rw [c1 h1]
    dsimp only
    rw [length_resize, o2]
    exact ⟨rfl, by omega, rfl, fun _ => rfl⟩
  · by_cases h2 : s.pptr = s.epptr
    · rw [c2 h1 h2]
      dsimp only
      rw [length_resize, o2]
      exact ⟨rfl, by omega, rfl, fun hlt => by omega⟩
    · rw [c3 h1 h2]
      exact ⟨rfl, by omega, hl, fun hlt => by omega⟩

/-- A full window makes `pipebuf::_resizewbuf` double the vector; the cursor is
set by `pbump` to the old capacity taken as an `int`. -/
theorem pipe_resizewbuf_full (s : pipebuf) (c : Nat) (hB : 1 ≤ s.BUFSIZE)
    (hl : s._write.length = c) (he : s.epptr = c) (hp : s.pptr = c) (h64 : c < 2 ^ 64) :
    pipebuf._resizewbuf s =
      { s with _write := resize s._write (2 * c), pbase_null := false,
               pptr := to_int c, epptr := 2 * c } := by
  have hpred := size_t_pred_le s.BUFSIZE hB
  have hoff : size_t_of_int s.pptr = c := by
    rw [hp]
    exact size_t_of_int_natCast c h64
  have h1 : ¬ (size_t_of_int s.pptr < size_t_pred s.BUFSIZE ∧ s._write.length > s.BUFSIZE) := by
    rw [hoff, hl]
    omega
  have h2 : s.pptr = s.epptr := by rw [hp, he]
  rw [(pipe_resizewbuf_cases s).2.1 h1 h2, length_resize, hoff, hl]

theorem sock_set_buffer_eback (s : sockbuf) (b : Option Nat) (v : List Byte) :
    (s.set_buffer b v).eback = s.eback := by
  cases b <;> rfl

/-- The three cases of `sockbuf::_resizewbuf` on a well-formed write window;
the cursor is set by `pbump` to its offset taken as an `int`. -/
theorem sock_resizewbuf_cases (s : sockbuf) (h : sockbuf.wf_write s) :
    (s.pptr.toNat < size_t_pred s.BUFSIZE ∧ s.wbuf.length > s.BUFSIZE →
      ∃ s2, s._resizewbuf = some s2 ∧ s2.wbuf = resize s.wbuf s.BUFSIZE ∧
        s2.pptr = to_int s.pptr ∧ s2.epptr = (s.BUFSIZE : Int)) ∧
    (¬ (s.pptr.toNat < size_t_pred s.BUFSIZE ∧ s.wbuf.length > s.BUFSIZE) → s.pptr = s.epptr →
      ∃ s2, s._resizewbuf = some s2 ∧ s2.wbuf = resize s.wbuf (2 * s.wbuf.length) ∧
        s2.pptr = to_int s.pptr ∧ s2.epptr = ((2 * s.wbuf.length : Nat) : Int)) ∧
    (¬ (s.pptr.toNat < size_t_pred s.BUFSIZE ∧ s.wbuf.length > s.BUFSIZE) → s.pptr ≠ s.epptr →
      s._resizewbuf = some s) := by
  obtain ⟨i, hi, hlt⟩ := h.found
  have hl := h.limit
  have hlow := h.low
  have hc := h.cursor
  have hfit := h.fits
  have hget : s._buffers.get? i = some s.wbuf := by
    unfold sockbuf.wbuf sockbuf.buffer_at
    rw [hi]
    simp [List.getD_eq_getElem?_getD, hlt]
  have hoff : size_t_of_int s.pptr = s.pptr.toNat :=
    size_t_of_int_eq _ hlow (by omega)
  have hw : ∀ (s2 : sockbuf) (w : List Byte), s2.pbase = some i →
      s2._buffers = s._buffers.set i w → s2.wbuf = w := by
    intro s2 w e1 e2
    unfold sockbuf.wbuf sockbuf.buffer_at
    rw [e1, e2]
    simp [List.getD_eq_getElem?_getD, hlt]
  have hpp : ((s.pptr.toNat : Nat) : Int) = s.pptr := Int.toNat_of_nonneg hlow
  refine ⟨?_, ?_, ?_⟩
  · intro h1
    unfold sockbuf._resizewbuf
    rw [hi]
    dsimp only
    rw [hget]
    dsimp only
    rw [hoff, if_pos h1, hpp]
    refine ⟨_, rfl, hw _ _ rfl rfl, rfl, ?_⟩
    show ((resize s.wbuf s.BUFSIZE).length : Int) = _
    rw [length_resize]
  · intro h1 h2
    unfold sockbuf._resizewbuf
    rw [hi]
    dsimp only
    rw [hget]
    dsimp only
    rw [hoff, if_neg h1, if_pos h2, hpp]
    refine ⟨_, rfl, hw _ _ rfl rfl, rfl, ?_⟩
    show ((resize s.wbuf (2 * s.wbuf.length)).length : Int) = _
    rw [length_resize]
  · intro h1 h2
    unfold sockbuf._resizewbuf
    rw [hi]
    dsimp only
    rw [hget]
    dsimp only
    rw [hoff, if_neg h1, if_neg h2]

/-- With a `BUFSIZE` of at least one and a cursor offset below `2 ^ 31`,
`sockbuf::_resizewbuf` keeps the cursor offset, leaves a capacity of at least
that offset, and a capacity it makes smaller is `BUFSIZE`. -/
theorem sock_resizewbuf_capacity (s : sockbuf) (h : sockbuf.wf_write s) (hB : 1 ≤ s.BUFSIZE)
    (hz : s.pptr < 2 ^ 31) :
    ∃ s2, s._resizewbuf = some s2 ∧ s2.pptr = s.pptr ∧ s2.pptr ≤ s2.wbuf.length ∧
      s2.epptr = s2.wbuf.length ∧
      (s2.wbuf.length < s.wbuf.length → s2.wbuf.length = s.BUFSIZE) := by
  have hp := size_t_pred_le s.BUFSIZE hB
  have hl := h.limit
  have hlow := h.low
  have hc := h.cursor
  have hto : to_int s.pptr = s.pptr := to_int_eq _ (by omega) hz
  obtain ⟨c1, c2, c3⟩ := sock_resizewbuf_cases s h
  by_cases h1 : s.pptr.toNat < size_t_pred s.BUFSIZE ∧ s.wbuf.length > s.BUFSIZE
  · obtain ⟨s2, e1, e2, e3, e4⟩ := c1 h1
    clear c1 c2 c3
    rw [hto] at e3
    refine ⟨s2, e1, e3, ?_, ?_, ?_⟩
    · rw [e2, e3, length_resize]
      omega
    · rw [e2, e4, length_resize]
    · intro _
      rw [e2, length_resize]
  · by_cases h2 : s.pptr = s.epptr
    · obtain ⟨s2, e1, e2, e3, e4⟩ := c2 h1 h2
      clear c1 c2 c3
      rw [hto] at e3
      refine ⟨s2, e1, e3, ?_, ?_, ?_⟩
      · rw [e2, e3, length_resize]
        omega
      · rw [e2, e4, length_resize]
      · intro hlt
        rw [e2, length_resize] at hlt
        omega
    · exact ⟨s, c3 h1 h2, rfl, by omega, hl, fun hlt => by omega⟩

/-- C19. `pipebuf::_mvrbuf` and `sockbuf::_memmoverbuf` on a read window with
`eback ≤ gptr ≤ egptr` inside its vector.  After the call the cursor is at the
start, `egptr - eback` is the previous unread length, the bytes of
`[eback, egptr)` are the previously unread bytes in their order, and the
vector has the size it had.  When the call uses `memcpy` (the unread length
is positive and smaller than the consumed length), the `n` bytes it copies
from and the `n` bytes it copies to share no byte. -/
theorem compact_moves_unread_to_start :
    (∀ s : pipebuf, s.gptr ≤ s.egptr → s.egptr ≤ s._read.length →
      (pipebuf._mvrbuf s).gptr = 0 ∧
      (pipebuf._mvrbuf s).egptr = s.egptr - s.gptr ∧
      (pipebuf._mvrbuf s).unread = s.unread ∧
      (pipebuf._mvrbuf s)._read.length = s._read.length ∧
      (pipebuf._mvrbuf s).eback_null = s.eback_null ∧
      (∀ dst src n, pipebuf._mvrbuf_memcpy s = some (dst, src, n) →
        n = s.egptr - s.gptr ∧ n < s.gptr ∧ disjoint_ranges dst src n)) ∧
    (∀ s : sockbuf, sockbuf.wf_read s →
      s._memmoverbuf.eback = s.eback ∧
      s._memmoverbuf.gptr = 0 ∧
      s._memmoverbuf.egptr = s.egptr - s.gptr ∧
      s._memmoverbuf.rbuf.take (s.egptr - s.gptr).toNat =
        (s.rbuf.take s.egptr.toNat).drop s.gptr.toNat ∧
      s._memmoverbuf.rbuf.length = s.rbuf.length ∧
      (∀ dst src n, sockbuf._memmoverbuf_memcpy s = some (dst, src, n) →
        (n : Int) = s.egptr - s.gptr ∧ (n : Int) < s.gptr ∧ disjoint_ranges dst src n)) := by
  constructor
  · intro s hc hl
    have hcopy : ∀ dst src n, pipebuf._mvrbuf_memcpy s = some (dst, src, n) →
        n = s.egptr - s.gptr ∧ n < s.gptr ∧ disjoint_ranges dst src n := by
      intro dst src n hm
      unfold pipebuf._mvrbuf_memcpy at hm
      dsimp only at hm
      split at hm
      · rename_i hb
        simp only [Option.some.injEq, Prod.mk.injEq] at hm
        obtain ⟨rfl, rfl, rfl⟩ := hm
        exact ⟨rfl, hb.2, Or.inl (by omega)⟩
      · cases hm
    have hmem : ∀ r : List Byte, r = memmove s._read 0 s.gptr (s.egptr - s.gptr) →
        ((r.take (s.egptr - s.gptr)).drop 0 = (s._read.take s.egptr).drop s.gptr) ∧
        r.length = s._read.length := by
      intro r hr
      subst hr
      refine ⟨?_, length_memmove_zero _ _ _ (by omega)⟩
      rw [List.drop_zero, take_memmove_zero _ _ _ (by omega), drop_take_window]
    unfold pipebuf._mvrbuf pipebuf.unread
    dsimp only
    refine ⟨rfl, rfl, ?_, ?_, rfl, hcopy⟩
    · by_cases hg : s.egptr - s.gptr > 0
      · rw [if_pos hg]
        split
        · exact (hmem _ rfl).1
        · exact (hmem _ rfl).1
      · rw [if_neg hg]
        have h0 : s.egptr - s.gptr = 0 := by omega
        have h1 : s.egptr = s.gptr := by omega
        rw [h0, h1]
        simp
    · by_cases hg : s.egptr - s.gptr > 0
      · rw [if_pos hg]
        split
        · exact (hmem _ rfl).2
        · exact (hmem _ rfl).2
      · rw [if_neg hg]
  · intro s hw
    obtain ⟨i, hi, hlt⟩ := hw.found
    have hlow := hw.low
    have hc := hw.cursor
    have hl := hw.limit
    have hcopy : ∀ dst src n, sockbuf._memmoverbuf_memcpy s = some (dst, src, n) →
        (n : Int) = s.egptr - s.gptr ∧ (n : Int) < s.gptr ∧ disjoint_ranges dst src n := by
      intro dst src n hm
      unfold sockbuf._memmoverbuf_memcpy at hm
      dsimp only at hm
      split at hm
      · rename_i hb
        simp only [Option.some.injEq, Prod.mk.injEq] at hm
        obtain ⟨rfl, rfl, rfl⟩ := hm
        refine ⟨by omega, by omega, Or.inl ?_⟩
        omega
      · cases hm
    have hmove : (memmove s.rbuf 0 s.gptr.toNat (s.egptr - s.gptr).toNat).length =
        s.rbuf.length := length_memmove_zero _ _ _ (by omega)
    have hbytes : (memmove s.rbuf 0 s.gptr.toNat (s.egptr - s.gptr).toNat).take
        (s.egptr - s.gptr).toNat = (s.rbuf.take s.egptr.toNat).drop s.gptr.toNat := by
      rw [take_memmove_zero _ _ _ (by omega)]
      have : (s.egptr - s.gptr).toNat = s.egptr.toNat - s.gptr.toNat := by omega
      rw [this, drop_take_window]
    have hrb : (s.set_buffer s.eback
        (memmove s.rbuf 0 s.gptr.toNat (s.egptr - s.gptr).toNat)).buffer_at s.eback =
        memmove s.rbuf 0 s.gptr.toNat (s.egptr - s.gptr).toNat :=
      sockbuf.sock_buffer_at_set_buffer s s.eback _ hmove
    have heb : ∀ v : List Byte, (s.set_buffer s.eback v).eback = s.eback :=
      fun v => sock_set_buffer_eback s s.eback v
    unfold sockbuf._memmoverbuf
    dsimp only
    by_cases hg : s.egptr - s.gptr > 0
    · rw [if_pos hg]
      have hres : ∀ u : sockbuf,
          u = { s.set_buffer s.eback (memmove s.rbuf 0 s.gptr.toNat (s.egptr - s.gptr).toNat) with
                gptr := 0, egptr := s.egptr - s.gptr } →
          u.eback = s.eback ∧ u.gptr = 0 ∧ u.egptr = s.egptr - s.gptr ∧
          u.rbuf.take (s.egptr - s.gptr).toNat = (s.rbuf.take s.egptr.toNat).drop s.gptr.toNat ∧
          u.rbuf.length = s.rbuf.length := by
        intro u hu
        subst hu
        have hr : sockbuf.rbuf { s.set_buffer s.eback
            (memmove s.rbuf 0 s.gptr.toNat (s.egptr - s.gptr).toNat) with
            gptr := 0, egptr := s.egptr - s.gptr } =
            memmove s.rbuf 0 s.gptr.toNat (s.egptr - s.gptr).toNat := by
          unfold sockbuf.rbuf
          dsimp only
          rw [heb]
          exact hrb
        refine ⟨heb _, rfl, rfl, ?_, ?_⟩
        · rw [hr]
          exact hbytes
        · rw [hr]
          exact hmove
      split
      · obtain ⟨a1, a2, a3, a4, a5⟩ := hres _ rfl
        exact ⟨a1, a2, a3, a4, a5, hcopy⟩
      · obtain ⟨a1, a2, a3, a4, a5⟩ := hres _ rfl
        exact ⟨a1, a2, a3, a4, a5, hcopy⟩
    · rw [if_neg hg]
      have h0 : s.egptr - s.gptr = 0 := by omega
      refine ⟨rfl, rfl, h0.symm, ?_, rfl, hcopy⟩
      have h1 : s.egptr.toNat = s.gptr.toNat := by omega
      rw [h0, h1]
      simp

/-- C19 at a concrete input: a pipe buffer that received 1, 2, 3, 4, 5 and
consumed three of them; the compaction leaves the unread bytes 4, 5 at the
start. -/
theorem compact_moves_unread_to_start_witness :
    pipebuf.ex_consumed.gptr ≤ pipebuf.ex_consumed.egptr ∧
    (pipebuf._mvrbuf pipebuf.ex_consumed).gptr = 0 ∧
    (pipebuf._mvrbuf pipebuf.ex_consumed).egptr =
      pipebuf.ex_consumed.egptr - pipebuf.ex_consumed.gptr ∧
    (pipebuf._mvrbuf pipebuf.ex_consumed).unread = pipebuf.ex_consumed.unread ∧
    pipebuf.ex_consumed.unread = [4, 5] :=
  ⟨by decide!,
    (compact_moves_unread_to_start.1 pipebuf.ex_consumed (by decide!) (by decide!)).1,
    (compact_moves_unread_to_start.1 pipebuf.ex_consumed (by decide!) (by decide!)).2.1,
    (compact_moves_unread_to_start.1 pipebuf.ex_consumed (by decide!) (by decide!)).2.2.1,
    by decide!⟩

end buffers

/-! ### The window invariant of the pipe buffer -/

theorem length_store (mem : List Byte) (pos : Nat) (data : List Byte)
    (h : pos + data.length ≤ mem.length) : (store mem pos data).length = mem.length := by
  unfold store
  simp only [List.length_append, List.length_take, List.length_drop]
  omega

theorem size_t_of_int_sub (a b : Nat) (h : b ≤ a) (ha : a < 2 ^ 64) :
    size_t_of_int ((a : Int) - (b : Int)) = a - b := by
  unfold size_t_of_int
  omega

theorem two_mul_dvd_two_pow_31 (c : Nat) (h : c ∣ 2 ^ 31) (hlt : c < 2 ^ 31) :
    2 * c ∣ 2 ^ 31 := by
  obtain ⟨i, hi, rfl⟩ := (Nat.dvd_prime_pow Nat.prime_two).mp h
  have hi' : i < 31 := by
    rcases Nat.lt_or_ge i 31 with h1 | h1
    · exact h1
    · have : i = 31 := by omega
      subst this
      exact absurd hlt (lt_irrefl _)
  have e : 2 * 2 ^ i = 2 ^ (i + 1) := by
    rw [Nat.pow_succ]
    omega
  rw [e]
  exact Nat.pow_dvd_pow 2 (by omega)

theorem size_t_of_int_zero_small (i : Int) (h1 : -2 ^ 31 ≤ i) (h2 : i ≤ 2 ^ 31)
    (h : size_t_of_int i = 0) : i = 0 := by
  unfold size_t_of_int at h
  omega

theorem size_t_of_int_neg_large (i : Int) (h1 : -2 ^ 31 ≤ i) (h2 : i < 0) :
    2 ^ 64 - 2 ^ 31 ≤ size_t_of_int i := by
  unfold size_t_of_int
  omega

namespace buffers
namespace pipebuf

/-- The put window looks at the put pointers and the write vector only. -/
theorem pipe_put_window_congr (s t : pipebuf) (h1 : t.pptr = s.pptr) (h2 : t.epptr = s.epptr)
    (h3 : t._write = s._write) (h : put_inside s ∨ put_wrapped s) :
    put_inside t ∨ put_wrapped t := by
  rcases h with h | h
  · left
    exact ⟨by rw [h1]; exact h.low, by rw [h1, h2]; exact h.cursor,
      by rw [h2, h3]; exact h.limit, by rw [h2]; exact h.grid⟩
  · right
    exact ⟨by rw [h2]; exact h.limit, by rw [h1]; exact h.low, by rw [h1]; exact h.high⟩

theorem pipe_put_inside_le (s : pipebuf) (h : put_inside s) : s.epptr ≤ 2 ^ 31 := by
  rcases h.grid with h0 | hd
  · rw [h0]
    exact Nat.zero_le _
  · exact Nat.le_of_dvd (by decide) hd

/-- In every state of the invariant the capacity of the put window is at most
`2 ^ 31` and the cursor offset is an `int`, or `2 ^ 31`. -/
theorem pipe_inv_pptr_range (s : pipebuf) (h : window_inv s) :
    s.epptr ≤ 2 ^ 31 ∧ -2 ^ 31 ≤ s.pptr ∧ s.pptr ≤ 2 ^ 31 := by
  rcases h.put_window with hp | hp
  · have hle := pipe_put_inside_le s hp
    have h0 := hp.low
    have hc := hp.cursor
    exact ⟨hle, by omega, by omega⟩
  · have hl := hp.limit
    exact ⟨by omega, hp.low, hp.high⟩

theorem pipe_inv_init (which : openmode) (rfd wfd : Int) : window_inv (mk_open which rfd wfd) := by
  rcases which with ⟨i, o⟩
  cases i <;> cases o <;>
    exact ⟨Nat.le_refl _, Nat.zero_le _, rfl, by simp [mk_open, length_resize],
      Or.inl ⟨le_refl _, Int.ofNat_nonneg _, by simp [mk_open, length_resize],
        by first | exact Or.inl rfl | exact Or.inr (by show (4096 : Nat) ∣ 2 ^ 31; decide)⟩⟩

theorem pipe_inv_put (s : pipebuf) (c : Byte) (h : window_inv s) (hlt : s.pptr < s.epptr) :
    window_inv (put s c) ∧ (put s c)._which = s._which := by
  have hlen := pipe_put_length s c
  refine ⟨⟨h.get_cursor, h.get_limit, h.bufsize, h.read_size, ?_⟩, rfl⟩
  rcases h.put_window with hp | hp
  · left
    have h0 := hp.low
    refine ⟨?_, ?_, ?_, hp.grid⟩
    · show 0 ≤ s.pptr + 1
      omega
    · show s.pptr + 1 ≤ s.epptr
      omega
    · show s.epptr = (put s c)._write.length
      rw [hlen]
      exact hp.limit
  · right
    have h0 := hp.low
    have hl := hp.limit
    refine ⟨hp.limit, ?_, ?_⟩
    · show -2 ^ 31 ≤ s.pptr + 1
      omega
    · show s.pptr + 1 ≤ 2 ^ 31
      omega

/-- When `_send` returns 0 it has left the cursor at the start of the window
or where `pbump` with an `int` puts it. -/
theorem pipe_send_go_zero_range (ws : List WRes) :
    ∀ (s : pipebuf) (k : Kernel) (buf size : Nat) (s1 : pipebuf) (k1 : Kernel),
      _send_go ws s k buf size = (Outcome.ret 0, s1, k1) →
      -2 ^ 31 ≤ s1.pptr ∧ s1.pptr < 2 ^ 31 := by
  induction ws with
  | nil =>
    intro s k buf size s1 k1 h
    simp [_send_go] at h
  | cons r ws ih =>
    intro s k buf size s1 k1 h
    cases r with
    | accept room =>
      simp only [_send_go] at h
      split at h
      · exact ih s _ _ _ s1 k1 h
      · simp only [Prod.mk.injEq, true_and] at h
        obtain ⟨rfl, _⟩ := h
        exact ⟨by show (-2 ^ 31 : Int) ≤ 0; decide, by show (0 : Int) < 2 ^ 31; decide⟩
    | fail e =>
      simp only [_send_go] at h
      split at h
      · exact ih s _ _ _ s1 k1 h
      · split at h
        · simp only [Prod.mk.injEq, true_and] at h
          obtain ⟨rfl, _⟩ := h
          exact to_int_range _
        · simp at h

theorem pipe_inv_send_go (ws : List WRes) :
    ∀ (s : pipebuf) (k : Kernel) (buf size : Nat), window_inv s →
      (put_inside s → buf + size ≤ s._write.length) →
      window_inv (_send_go ws s k buf size).2.1 ∧
      (_send_go ws s k buf size).2.1._which = s._which := by
  induction ws with
  | nil =>
    intro s k buf size h _
    exact ⟨h, rfl⟩
  | cons r ws ih =>
    intro s k buf size h hb
    cases r with
    | accept room =>
      simp only [_send_go]
      split
      · refine ih s _ _ _ h ?_
        intro hp
        have := hb hp
        simp only [WRes.len]
        omega
      · refine ⟨⟨h.get_cursor, h.get_limit, h.bufsize, h.read_size, ?_⟩, rfl⟩
        rcases h.put_window with hp | hp
        · left
          exact ⟨le_refl _, Int.ofNat_nonneg _, hp.limit, hp.grid⟩
        · right
          exact ⟨hp.limit, by show (-2 ^ 31 : Int) ≤ 0; decide,
            by show (0 : Int) ≤ 2 ^ 31; decide⟩
    | fail e =>
      simp only [_send_go]
      split
      · exact ih s _ _ _ h hb
      · split
        · refine ⟨⟨h.get_cursor, h.get_limit, h.bufsize, h.read_size, ?_⟩, rfl⟩
          have hr := to_int_range (size : Int)
          rcases h.put_window with hp | hp
          · have hle := pipe_put_inside_le s hp
            have hb' := hb hp
            have hl := hp.limit
            by_cases hz : size < 2 ^ 31
            · left
              have hto := to_int_natCast size hz
              refine ⟨?_, ?_, ?_, hp.grid⟩
              · show 0 ≤ to_int size
                rw [hto]
                exact Int.ofNat_nonneg _
              · show to_int size ≤ s.epptr
                rw [hto]
                omega
              · show s.epptr = (memmove s._write 0 buf size).length
                rw [length_memmove_zero _ _ _ hb']
                exact hl
            · right
              exact ⟨by show s.epptr = 2 ^ 31; omega, hr.1, le_of_lt hr.2⟩
          · right
            exact ⟨hp.limit, hr.1, le_of_lt hr.2⟩
        · exact ⟨h, rfl⟩

/-- The grow/shrink step keeps the invariant when it is entered with a cursor
offset below `2 ^ 31`, as `sync` enters it. -/
theorem pipe_inv_resizewbuf (s : pipebuf) (h : window_inv s) (hz : s.pptr < 2 ^ 31) :
    window_inv (_resizewbuf s) ∧ (_resizewbuf s)._which = s._which := by
  have hB : s.BUFSIZE = 4096 := h.bufsize
  have hp := size_t_pred_le s.BUFSIZE (by omega)
  have hr := pipe_inv_pptr_range s h
  obtain ⟨c1, c2, c3⟩ := pipe_resizewbuf_cases s
  by_cases h1 : size_t_of_int s.pptr < size_t_pred s.BUFSIZE ∧ s._write.length > s.BUFSIZE
  · have h0 : 0 ≤ s.pptr := by
      by_contra hneg
      have := size_t_of_int_neg_large s.pptr hr.2.1 (by omega)
      omega
    obtain ⟨o1, o2⟩ := pipe_offset_small s h0 hz
    rw [c1 h1, o2]
    refine ⟨⟨h.get_cursor, h.get_limit, h.bufsize, h.read_size,
      Or.inl ⟨h0, ?_, rfl, Or.inr ?_⟩⟩, rfl⟩
    · show s.pptr ≤ ((resize s._write s.BUFSIZE).length : Int)
      rw [length_resize]
      omega
    · show (resize s._write s.BUFSIZE).length ∣ 2 ^ 31
      rw [length_resize, hB]
      decide
  · by_cases h2 : s.pptr = s.epptr
    · rcases h.put_window with hp' | hp'
      · have h0 := hp'.low
        have hl := hp'.limit
        obtain ⟨o1, o2⟩ := pipe_offset_small s h0 hz
        rw [c2 h1 h2, o2]
        refine ⟨⟨h.get_cursor, h.get_limit, h.bufsize, h.read_size,
          Or.inl ⟨h0, ?_, rfl, ?_⟩⟩, rfl⟩
        · show s.pptr ≤ ((resize s._write (2 * s._write.length)).length : Int)
          rw [length_resize]
          omega
        · show (resize s._write (2 * s._write.length)).length = 0 ∨
            (resize s._write (2 * s._write.length)).length ∣ 2 ^ 31
          rw [length_resize, ← hl]
          rcases hp'.grid with g | g
          · left
            omega
          · right
            exact two_mul_dvd_two_pow_31 _ g (by omega)
      · exfalso
        have := hp'.limit
        omega
    · rw [c3 h1 h2]
      exact ⟨h, rfl⟩

theorem pipe_mvrbuf_length (s : pipebuf) (hc : s.gptr ≤ s.egptr) (hl : s.egptr ≤ s._read.length) :
    (_mvrbuf s)._read.length = s._read.length := by
  have hm : (memmove s._read 0 s.gptr (s.egptr - s.gptr)).length = s._read.length :=
    length_memmove_zero _ _ _ (by omega)
  unfold _mvrbuf
  dsimp only
  by_cases hg : s.egptr - s.gptr > 0
  · rw [if_pos hg]
    split
    · exact hm
    · exact hm
  · rw [if_neg hg]

theorem pipe_inv_mvrbuf (s : pipebuf) (h : window_inv s) :
    window_inv (_mvrbuf s) ∧ (_mvrbuf s)._which = s._which := by
  have hlen := pipe_mvrbuf_length s h.get_cursor h.get_limit
  have hc := h.get_cursor
  have hl := h.get_limit
  refine ⟨⟨Nat.zero_le _, ?_, h.bufsize, ?_,
    pipe_put_window_congr s _ rfl rfl rfl h.put_window⟩, rfl⟩
  · rw [hlen]
    show s.egptr - s.gptr ≤ s._read.length
    omega
  · intro hi
    rw [hlen]
    exact h.read_size hi

theorem pipe_inv_recv_go (rs : List RRes) :
    ∀ (s : pipebuf) (k : Kernel), window_inv s → s._which.in_ = true →
      window_inv (_recv_go rs s k).2.1 ∧ (_recv_go rs s k).2.1._which = s._which := by
  induction rs with
  | nil =>
    intro s k h _
    exact ⟨h, rfl⟩
  | cons r rs ih =>
    intro s k h hi
    have hB : s.BUFSIZE = 4096 := h.bufsize
    have hr := h.read_size hi
    have hl := h.get_limit
    have hsz : size_t_of_int ((s.BUFSIZE : Int) - (s.egptr : Int)) = s.BUFSIZE - s.egptr :=
      size_t_of_int_sub _ _ (by omega) (by omega)
    cases r with
    | fail e =>
      simp only [_recv_go]
      split
      · exact ih s _ h hi
      · split
        · exact ⟨h, rfl⟩
        · exact ⟨h, rfl⟩
    | deliver data =>
      simp only [_recv_go]
      split
      · exact ⟨h, rfl⟩
      · have hgot : (data.take (size_t_of_int ((s.BUFSIZE : Int) - (s.egptr : Int)))).length ≤
            s.BUFSIZE - s.egptr := by
          rw [hsz, List.length_take]
          omega
        have hst := length_store s._read s.egptr
          (data.take (size_t_of_int ((s.BUFSIZE : Int) - (s.egptr : Int)))) (by omega)
        refine ⟨⟨?_, ?_, h.bufsize, ?_, pipe_put_window_congr s _ rfl rfl rfl h.put_window⟩,
          rfl⟩
        · show s.gptr ≤ s.egptr + _
          have := h.get_cursor
          omega
        · show s.egptr + _ ≤ (store s._read s.egptr _).length
          rw [hst]
          omega
        · intro _
          show (store s._read s.egptr _).length = s.BUFSIZE
          rw [hst]
          exact hr

theorem pipe_inv_sync (s : pipebuf) (k : Kernel) (h : window_inv s) :
    window_inv (sync s k).2.1 ∧ (sync s k).2.1._which = s._which := by
  have hr := pipe_inv_pptr_range s h
  unfold sync
  by_cases ho : s._which.out = true
  · rw [if_pos ho]
    dsimp only
    by_cases hs : size_t_of_int s.pptr > 0
    · rw [if_pos hs]
      have hsend := pipe_inv_send_go k.writes s k 0 (size_t_of_int s.pptr) h
        (by
          intro hp
          have h0 := hp.low
          have hc := hp.cursor
          have hl := hp.limit
          rw [size_t_of_int_eq _ h0 (by omega)]
          omega)
      unfold _send
      rcases hx : _send_go k.writes s k 0 (size_t_of_int s.pptr) with ⟨o, s1, k1⟩
      rw [hx] at hsend
      cases o with
      | ret v =>
        dsimp only
        by_cases hv : v ≠ 0
        · rw [if_pos hv]
          exact hsend
        · rw [if_neg hv]
          have hv0 : v = 0 := by
            by_contra hne
            exact hv hne
          subst hv0
          have hrange := pipe_send_go_zero_range k.writes s k 0 _ s1 k1 hx
          have hres := pipe_inv_resizewbuf s1 hsend.1 hrange.2
          dsimp only
          exact ⟨hres.1, hres.2.trans hsend.2⟩
      | pending => exact hsend
      | throws => exact hsend
    · rw [if_neg hs]
      dsimp only
      have h0 : s.pptr = 0 := size_t_of_int_zero_small _ hr.2.1 hr.2.2 (by omega)
      exact pipe_inv_resizewbuf s h (by rw [h0]; decide)
  · rw [if_neg ho]
    by_cases hi : s._which.in_ = true
    · rw [if_pos hi]
      dsimp only
      have h0 : window_inv (if s.gptr ≠ 0 then _mvrbuf s else s) ∧
          (if s.gptr ≠ 0 then _mvrbuf s else s)._which = s._which := by
        split
        · exact pipe_inv_mvrbuf s h
        · exact ⟨h, rfl⟩
      have hrecv := pipe_inv_recv_go k.reads (if s.gptr ≠ 0 then _mvrbuf s else s) k h0.1
        (by rw [h0.2]; exact hi)
      unfold _recv
      rcases hx : _recv_go k.reads (if s.gptr ≠ 0 then _mvrbuf s else s) k with ⟨o, s1, k1⟩
      rw [hx] at hrecv
      have hres : window_inv s1 ∧ s1._which = s._which := ⟨hrecv.1, hrecv.2.trans h0.2⟩
      cases o with
      | ret v =>
        dsimp only
        by_cases hv : v ≠ 0
        · rw [if_pos hv]
          exact hres
        · rw [if_neg hv]
          exact hres
      | pending => exact hres
      | throws => exact hres
    · rw [if_neg hi]
      exact ⟨h, rfl⟩

/-- The invariant does not look at the write bit of the open mode. -/
theorem pipe_inv_which (s : pipebuf) (w : openmode) (h : window_inv s) (hw : w.in_ = s._which.in_) :
    window_inv { s with _which := w } :=
  ⟨h.get_cursor, h.get_limit, h.bufsize, fun hi => h.read_size (hw ▸ hi),
    pipe_put_window_congr s _ rfl rfl rfl h.put_window⟩

theorem pipe_inv_showmanyc (s : pipebuf) (k : Kernel) (h : window_inv s) :
    window_inv (showmanyc s k).2.1 := by
  have hm : window_inv { s with _which := { s._which with out := false } } :=
    pipe_inv_which s _ h rfl
  have hsync := pipe_inv_sync { s with _which := { s._which with out := false } } k hm
  unfold showmanyc
  dsimp only
  rcases hx : sync { s with _which := { s._which with out := false } } k with ⟨o, s1, k1⟩
  rw [hx] at hsync
  have hback : window_inv { s1 with _which := s._which } :=
    pipe_inv_which s1 _ hsync.1 (by rw [hsync.2])
  cases o with
  | ret v =>
    dsimp only
    by_cases hv : v ≠ 0
    · rw [if_pos hv]
      exact hback
    · rw [if_neg hv]
      exact hback
  | pending => exact hsync.1
  | throws => exact hsync.1

theorem pipe_inv_underflow_go (fuel : Nat) :
    ∀ (s : pipebuf) (k : Kernel), window_inv s →
      window_inv (underflow_go fuel s k).2.1 ∧
      (∀ v, (underflow_go fuel s k).1 = Outcome.ret v → v ≠ eof →
        (underflow_go fuel s k).2.1.gptr < (underflow_go fuel s k).2.1.egptr) := by
  induction fuel with
  | zero =>
    intro s k h
    exact ⟨h, fun v hv => by cases hv⟩
  | succ fuel ih =>
    intro s k h
    unfold underflow_go
    split
    · exact ⟨h, fun v hv hne => absurd (Outcome.ret.inj hv).symm hne⟩
    · have hs := pipe_inv_sync s k h
      rcases hsync : sync s k with ⟨o, s1, k1⟩
      rw [hsync] at hs
      dsimp only at hs
      cases o with
      | ret v =>
        dsimp only
        split
        · exact ⟨hs.1, fun v hv hne => absurd (Outcome.ret.inj hv).symm hne⟩
        · split
          · split
            · exact ⟨hs.1, fun v hv => by cases hv⟩
            · split
              · exact ⟨hs.1, fun v hv hne => absurd (Outcome.ret.inj hv).symm hne⟩
              · exact ih s1 _ hs.1
          · rename_i hne
            refine ⟨hs.1, fun _ _ _ => ?_⟩
            show s1.gptr < s1.egptr
            have := hs.1.get_cursor
            omega
      | pending => exact ⟨hs.1, fun v hv => by cases hv⟩
      | throws => exact ⟨hs.1, fun v hv => by cases hv⟩

theorem pipe_inv_overflow_go (fuel : Nat) :
    ∀ (s : pipebuf) (k : Kernel) (ch : Int), window_inv s →
      window_inv (overflow_go fuel s k ch).2.1 := by
  induction fuel with
  | zero =>
    intro s k ch h
    exact h
  | succ fuel ih =>
    intro s k ch h
    unfold overflow_go
    split
    · exact h
    · have hs := pipe_inv_sync s k h
      rcases hsync : sync s k with ⟨o, s1, k1⟩
      rw [hsync] at hs
      dsimp only at hs
      cases o with
      | ret v =>
        dsimp only
        split
        · exact hs.1
        · split
          · split
            · exact hs.1
            · split
              · exact hs.1
              · exact ih s1 _ ch hs.1
          · split
            · exact hs.1
            · split
              · rename_i hlt
                exact (pipe_inv_put s1 _ hs.1 hlt).1
              · exact ih s1 k1 ch hs.1
      | pending => exact hs.1
      | throws => exact hs.1

theorem pipe_inv_sputc (fuel : Nat) (s : pipebuf) (k : Kernel) (c : Byte) (h : window_inv s) :
    window_inv (sputc fuel s k c).2.1 := by
  unfold sputc
  split
  · rename_i hlt
    exact (pipe_inv_put s c h hlt).1
  · exact pipe_inv_overflow_go fuel s k _ h

theorem pipe_inv_sputn (fuel : Nat) (cs : List Byte) :
    ∀ (s : pipebuf) (k : Kernel), window_inv s → window_inv (sputn fuel cs s k).2.1 := by
  induction cs with
  | nil =>
    intro s k h
    exact h
  | cons c cs ih =>
    intro s k h
    have hp := pipe_inv_sputc fuel s k c h
    unfold sputn
    rcases hx : sputc fuel s k c with ⟨o, s1, k1⟩
    rw [hx] at hp
    dsimp only at hp
    cases o with
    | ret v =>
      dsimp only
      split
      · exact hp
      · exact ih s1 k1 hp
    | pending => exact hp
    | throws => exact hp

theorem pipe_inv_sgetc (fuel : Nat) (s : pipebuf) (k : Kernel) (h : window_inv s) :
    window_inv (sgetc fuel s k).2.1 := by
  unfold sgetc
  split
  · exact h
  · exact (pipe_inv_underflow_go fuel s k h).1

theorem pipe_inv_gbump (s : pipebuf) (h : window_inv s) (hlt : s.gptr < s.egptr) :
    window_inv { s with gptr := s.gptr + 1 } :=
  ⟨hlt, h.get_limit, h.bufsize, h.read_size,
    pipe_put_window_congr s _ rfl rfl rfl h.put_window⟩

theorem pipe_inv_sbumpc (fuel : Nat) (s : pipebuf) (k : Kernel) (h : window_inv s) :
    window_inv (sbumpc fuel s k).2.1 := by
  unfold sbumpc
  split
  · rename_i hlt
    exact pipe_inv_gbump s h hlt
  · have hu := pipe_inv_underflow_go fuel s k h
    rcases hx : underflow_go fuel s k with ⟨o, s1, k1⟩
    rw [hx] at hu
    dsimp only at hu
    cases o with
    | ret v =>
      dsimp only
      split
      · exact hu.1
      · rename_i hne
        exact pipe_inv_gbump s1 hu.1 (hu.2 v rfl hne)
    | pending => exact hu.1
    | throws => exact hu.1

/-- Every state a pipe buffer reaches satisfies the window invariant. -/
theorem pipe_reachable_inv (s : pipebuf) (hr : Reachable s) : window_inv s := by
  induction hr with
  | init which rfd wfd => exact pipe_inv_init which rfd wfd
  | sputc fuel s k c _ ih => exact pipe_inv_sputc fuel s k c ih
  | sputn fuel cs s k _ ih => exact pipe_inv_sputn fuel cs s k ih
  | sgetc fuel s k _ ih => exact pipe_inv_sgetc fuel s k ih
  | sbumpc fuel s k _ ih => exact pipe_inv_sbumpc fuel s k ih
  | sync s k _ ih => exact (pipe_inv_sync s k ih).1
  | showmanyc s k _ ih => exact pipe_inv_showmanyc s k ih
  | underflow fuel s k _ ih => exact (pipe_inv_underflow_go fuel s k ih).1
  | overflow fuel s k ch _ ih => exact pipe_inv_overflow_go fuel s k ch ih

/-- What C17 says of the get window holds in every state a `pipebuf` reaches
from its construction (in any open mode) by any sequence of `sputc`, `sputn`,
`sgetc`, `sbumpc`, `sync`, `showmanyc`, `underflow` and `overflow`, whatever
the kernel answers: `0 ≤ gptr ≤ egptr ≤ _read.size()`.  The capacity of the put
window never exceeds `2 ^ 31`, and while it is smaller than `2 ^ 31` the put
window satisfies `0 ≤ pptr ≤ epptr = _write.size()` as well. -/
theorem pipe_window_invariant_below_two_gib (s : pipebuf) (hr : Reachable s) :
    (0 ≤ s.gptr ∧ s.gptr ≤ s.egptr ∧ s.egptr ≤ 0 + s._read.length) ∧
    s.epptr ≤ 2 ^ 31 ∧
    (s.epptr < 2 ^ 31 →
      0 ≤ s.pptr ∧ s.pptr ≤ s.epptr ∧ s.epptr = 0 + s._write.length) := by
  have h := pipe_reachable_inv s hr
  refine ⟨⟨Nat.zero_le _, h.get_cursor, by rw [Nat.zero_add]; exact h.get_limit⟩,
    (pipe_inv_pptr_range s h).1, ?_⟩
  intro hz
  rcases h.put_window with hp | hp
  · exact ⟨hp.low, hp.cursor, by rw [Nat.zero_add]; exact hp.limit⟩
  · exfalso
    have := hp.limit
    omega

theorem pipe_ex_reached_reachable : Reachable ex_reached :=
  Reachable.sync _ _ (Reachable.sputc 0 _ ex_idle 7 (Reachable.init ⟨true, true⟩ 3 4))

/-- The bounded invariant at a concrete input: a byte is put into a fresh pipe
buffer and `sync` meets a kernel that accepts it; the put area is then empty
and spans the 4096 bytes of the write vector. -/
theorem pipe_window_invariant_below_two_gib_witness :
    Reachable ex_reached ∧ ex_reached.epptr < 2 ^ 31 ∧ ex_reached.pptr = 0 ∧
    ex_reached._write.length = 4096 ∧
    (0 ≤ ex_reached.pptr ∧ ex_reached.pptr ≤ ex_reached.epptr ∧
      ex_reached.epptr = 0 + ex_reached._write.length) :=
  ⟨pipe_ex_reached_reachable, by decide!, by decide!, by decide!,
    (pipe_window_invariant_below_two_gib ex_reached pipe_ex_reached_reachable).2.2
      (by decide!)⟩

end pipebuf
end buffers

namespace buffers
namespace pipebuf

/-! ### A fatal error of `write` -/

/-- When `pipebuf::_send` returns a value other than 0, it has left the buffer
as it found it, whatever the kernel accepted before the error. -/
theorem pipe_send_go_fatal_state (ws : List WRes) :
    ∀ (s : pipebuf) (k : Kernel) (buf size : Nat) (v : Int) (s1 : pipebuf) (k1 : Kernel),
      _send_go ws s k buf size = (Outcome.ret v, s1, k1) → v ≠ 0 → s1 = s := by
  induction ws with
  | nil =>
    intro s k buf size v s1 k1 h _
    simp [_send_go] at h
  | cons r ws ih =>
    intro s k buf size v s1 k1 h hv
    cases r with
    | accept room =>
      simp only [_send_go] at h
      split at h
      · exact ih s _ _ _ v s1 k1 h hv
      · simp only [Prod.mk.injEq, Outcome.ret.injEq] at h
        exact absurd h.1.symm hv
    | fail e =>
      simp only [_send_go] at h
      split at h
      · exact ih s _ _ _ v s1 k1 h hv
      · split at h
        · simp only [Prod.mk.injEq, Outcome.ret.injEq] at h
          exact absurd h.1.symm hv
        · simp only [Prod.mk.injEq] at h
          exact h.2.1.symm

/-- C21. A pipe buffer whose write window holds the three bytes 10, 20, 30; the
kernel accepts two bytes and then fails with the fatal error `EIO`.  `_send`
(and so `sync`) returns -1 after the kernel has accepted 10 and 20, and the
write window afterwards still holds all three bytes, not the one byte that
was not accepted.  The flush the caller retries sends 10 and 20 a second time:
the kernel has then accepted 10, 20, 10, 20, 30. -/
theorem pipe_send_fatal_resends_accepted_bytes :
    ex_three.pending = [10, 20, 30] ∧
    (_send ex_three ex_two_then_fail 0 3).1 = Outcome.ret (-1) ∧
    (_send ex_three ex_two_then_fail 0 3).2.2.sent = [10, 20] ∧
    (_send ex_three ex_two_then_fail 0 3).2.1.pending = [10, 20, 30] ∧
    (sync ex_three ex_two_then_fail).1 = Outcome.ret (-1) ∧
    (sync ex_three ex_two_then_fail).2.1.pending = [10, 20, 30] ∧
    (sync (sync ex_three ex_two_then_fail).2.1 (sync ex_three ex_two_then_fail).2.2).1 =
      Outcome.ret 0 ∧
    (sync (sync ex_three ex_two_then_fail).2.1 (sync ex_three ex_two_then_fail).2.2).2.2.sent =
      [10, 20, 10, 20, 30] :=
  ⟨by decide!, by decide!, by decide!, by decide!, by decide!, by decide!, by decide!,
    by decide!⟩

end pipebuf

namespace sockbuf

/-! ### `connectto` -/

/-- The move assignment from a `sockbuf` that holds no vector is undefined. -/
theorem sock_move_assign_from_empty (self other : sockbuf) (h : other._buffers = []) :
    move_assign self other = none := by
  unfold move_assign
  rw [h]
  rfl

/-- The source of a move assignment is left without a vector. -/
theorem sock_move_assign_source_empty (self other d src : sockbuf)
    (h : move_assign self other = some (d, src)) : src._buffers = [] := by
  unfold move_assign at h
  split at h
  · cases h
  · simp only [Option.some.injEq, Prod.mk.injEq] at h
    obtain ⟨_, rfl⟩ := h
    rfl

end sockbuf
end buffers

namespace streams
namespace sockstream

/-- On no pair of streams does `swap` have a defined result: its last move
assignment takes the buffer of `tmp`, which the assignment before it has
emptied, and indexes `_buffers[1]` there. -/
theorem sockstream_swap_undefined (a b : sockstream) (e : Int) (c : Bool) :
    swap a b e c = none := by
  unfold swap
  dsimp only
  cases h2 : buffers.sockbuf.move_assign (buffers.sockbuf.move_construct b._buf e c).2
      (buffers.sockbuf.move_construct b._buf e c).1 with
  | none => rfl
  | some step2 =>
    dsimp only
    have hsrc := buffers.sockbuf.sock_move_assign_source_empty _ _ step2.1 step2.2 h2
    rw [buffers.sockbuf.sock_move_assign_from_empty a._buf step2.2 hsrc]

/-- C24. Two streams with both directions enabled, `a` on the descriptor 5 with
nothing buffered and `b` on the descriptor 6 with the byte 65 buffered.  In
`a.swap(b)` the first two statements move the buffer of `b` into `tmp` and
back into `b`: `b` then has its own descriptor 6 and its own byte again, and
`tmp` is left with the descriptor 0 and no vector.  The third statement
assigns from that `tmp` and indexes `_buffers[1]` of its empty vector: the
call has no defined result, and nothing of `a` has reached `b`. -/
theorem sockstream_swap_does_not_exchange :
    ex_a._buf._socket = 5 ∧ ex_b._buf._socket = 6 ∧
    ex_a._buf._buffers.length = 2 ∧ ex_b._buf._buffers.length = 2 ∧
    (buffers.sockbuf.move_assign (buffers.sockbuf.move_construct ex_b._buf 0 false).2
        (buffers.sockbuf.move_construct ex_b._buf 0 false).1).map
      (fun r => (r.1._socket, r.1.pending, r.2._socket, r.2._buffers)) =
      some (6, [65], 0, []) ∧
    swap ex_a ex_b 0 false = none :=
  ⟨by decide!, by decide!, by decide!, by decide!, by decide!, by decide!⟩

end sockstream
end streams

namespace buffers
namespace pipebuf

/-! ### The put area of a write-enabled pipe buffer keeps its capacity -/

theorem pipe_ready_which (s : pipebuf) (w : openmode) (h : put_ready s) :
    put_ready { s with _which := w } :=
  ⟨h.nonnull, h.capacity⟩

theorem pipe_ready_put (s : pipebuf) (c : Byte) (h : put_ready s) : put_ready (put s c) :=
  ⟨h.nonnull, h.capacity⟩

theorem pipe_ready_send_go (ws : List WRes) :
    ∀ (s : pipebuf) (k : Kernel) (buf size : Nat),
      put_ready s → put_ready (_send_go ws s k buf size).2.1 := by
  induction ws with
  | nil =>
    intro s k buf size h
    exact h
  | cons r ws ih =>
    intro s k buf size h
    cases r with
    | accept room =>
      simp only [_send_go]
      split
      · exact ih s _ _ _ h
      · exact ⟨h.nonnull, h.capacity⟩
    | fail e =>
      simp only [_send_go]
      split
      · exact ih s _ _ _ h
      · split
        · exact ⟨h.nonnull, h.capacity⟩
        · exact h

theorem pipe_ready_resizewbuf (s : pipebuf) (hi : window_inv s) (hz : s.pptr < 2 ^ 31)
    (h : put_ready s) : put_ready (_resizewbuf s) := by
  have hB : s.BUFSIZE = DEFAULT_BUFSIZE := hi.bufsize
  have hcap : 4096 ≤ s.epptr := h.capacity
  obtain ⟨c1, c2, c3⟩ := pipe_resizewbuf_cases s
  by_cases h1 : size_t_of_int s.pptr < size_t_pred s.BUFSIZE ∧ s._write.length > s.BUFSIZE
  · rw [c1 h1]
    refine ⟨rfl, ?_⟩
    show DEFAULT_BUFSIZE ≤ (resize s._write s.BUFSIZE).length
    rw [length_resize, hB]
  · by_cases h2 : s.pptr = s.epptr
    · rw [c2 h1 h2]
      refine ⟨rfl, ?_⟩
      show 4096 ≤ (resize s._write (2 * s._write.length)).length
      rw [length_resize]
      rcases hi.put_window with hp | hp
      · have := hp.limit
        omega
      · exfalso
        have := hp.limit
        omega
    · rw [c3 h1 h2]
      exact h

theorem pipe_ready_recv_go (rs : List RRes) :
    ∀ (s : pipebuf) (k : Kernel), put_ready s → put_ready (_recv_go rs s k).2.1 := by
  induction rs with
  | nil =>
    intro s k h
    exact h
  | cons r rs ih =>
    intro s k h
    cases r with
    | fail e =>
      simp only [_recv_go]
      split
      · exact ih s _ h
      · split
        · exact h
        · exact h
    | deliver data =>
      simp only [_recv_go]
      split
      · exact h
      · exact ⟨h.nonnull, h.capacity⟩

theorem pipe_ready_sync (s : pipebuf) (k : Kernel) (hi : window_inv s) (h : put_ready s) :
    put_ready (sync s k).2.1 := by
  have hr := pipe_inv_pptr_range s hi
  unfold sync
  by_cases ho : s._which.out = true
  · rw [if_pos ho]
    dsimp only
    by_cases hs : size_t_of_int s.pptr > 0
    · rw [if_pos hs]
      have hsend := pipe_ready_send_go k.writes s k 0 (size_t_of_int s.pptr) h
      have hinv := pipe_inv_send_go k.writes s k 0 (size_t_of_int s.pptr) hi
        (by
          intro hp
          have h0 := hp.low
          have hc := hp.cursor
          have hl := hp.limit
          rw [size_t_of_int_eq _ h0 (by omega)]
          omega)
      unfold _send
      rcases hx : _send_go k.writes s k 0 (size_t_of_int s.pptr) with ⟨o, s1, k1⟩
      rw [hx] at hsend hinv
      cases o with
      | ret v =>
        dsimp only
        by_cases hv : v ≠ 0
        · rw [if_pos hv]
          exact hsend
        · rw [if_neg hv]
          have hv0 : v = 0 := by
            by_contra hne
            exact hv hne
          subst hv0
          have hrange := pipe_send_go_zero_range k.writes s k 0 _ s1 k1 hx
          dsimp only
          exact pipe_ready_resizewbuf s1 hinv.1 hrange.2 hsend
      | pending => exact hsend
      | throws => exact hsend
    · rw [if_neg hs]
      dsimp only
      have h0 : s.pptr = 0 := size_t_of_int_zero_small _ hr.2.1 hr.2.2 (by omega)
      exact pipe_ready_resizewbuf s hi (by rw [h0]; decide) h
  · rw [if_neg ho]
    by_cases hin : s._which.in_ = true
    · rw [if_pos hin]
      dsimp only
      have h0 : put_ready (if s.gptr ≠ 0 then _mvrbuf s else s) := by
        split
        · exact ⟨h.nonnull, h.capacity⟩
        · exact h
      have hrecv := pipe_ready_recv_go k.reads (if s.gptr ≠ 0 then _mvrbuf s else s) k h0
      unfold _recv
      rcases hx : _recv_go k.reads (if s.gptr ≠ 0 then _mvrbuf s else s) k with ⟨o, s1, k1⟩
      rw [hx] at hrecv
      cases o with
      | ret v =>
        dsimp only
        by_cases hv : v ≠ 0
        · rw [if_pos hv]
          exact hrecv
        · rw [if_neg hv]
          exact hrecv
      | pending => exact hrecv
      | throws => exact hrecv
    · rw [if_neg hin]
      exact h

/-- The open mode `showmanyc` leaves has the write bit only when the mode it
found had it. -/
theorem pipe_ready_showmanyc (s : pipebuf) (k : Kernel) (hi : window_inv s) :
    (put_ready s → put_ready (showmanyc s k).2.1) ∧
    ((showmanyc s k).2.1._which.out = true → s._which.out = true) := by
  have hm : window_inv { s with _which := { s._which with out := false } } :=
    pipe_inv_which s _ hi rfl
  have hsync := pipe_inv_sync { s with _which := { s._which with out := false } } k hm
  have hready := fun h : put_ready s =>
    pipe_ready_sync { s with _which := { s._which with out := false } } k hm
      (pipe_ready_which s _ h)
  unfold showmanyc
  dsimp only
  rcases hx : sync { s with _which := { s._which with out := false } } k with ⟨o, s1, k1⟩
  rw [hx] at hsync hready
  dsimp only at hsync hready
  have hmask : s1._which.out = true → s._which.out = true := by
    intro h1
    rw [hsync.2] at h1
    cases h1
  cases o with
  | ret v =>
    dsimp only
    by_cases hv : v ≠ 0
    · rw [if_pos hv]
      exact ⟨fun h => pipe_ready_which s1 _ (hready h), fun h1 => h1⟩
    · rw [if_neg hv]
      exact ⟨fun h => pipe_ready_which s1 _ (hready h), fun h1 => h1⟩
  | pending => exact ⟨hready, hmask⟩
  | throws => exact ⟨hready, hmask⟩

theorem pipe_ready_underflow_go (fuel : Nat) :
    ∀ (s : pipebuf) (k : Kernel), window_inv s →
      (put_ready s → put_ready (underflow_go fuel s k).2.1) ∧
      (underflow_go fuel s k).2.1._which = s._which := by
  induction fuel with
  | zero =>
    intro s k _
    exact ⟨fun h => h, rfl⟩
  | succ fuel ih =>
    intro s k hi
    unfold underflow_go
    split
    · exact ⟨fun h => h, rfl⟩
    · have hs := pipe_inv_sync s k hi
      have hr := fun h : put_ready s => pipe_ready_sync s k hi h
      rcases hsync : sync s k with ⟨o, s1, k1⟩
      rw [hsync] at hs hr
      dsimp only at hs hr
      cases o with
      | ret v =>
        dsimp only
        split
        · exact ⟨hr, hs.2⟩
        · split
          · split
            · exact ⟨hr, hs.2⟩
            · split
              · exact ⟨hr, hs.2⟩
              · exact ⟨fun h => (ih s1 _ hs.1).1 (hr h), (ih s1 _ hs.1).2.trans hs.2⟩
          · exact ⟨hr, hs.2⟩
      | pending => exact ⟨hr, hs.2⟩
      | throws => exact ⟨hr, hs.2⟩

theorem pipe_ready_overflow_go (fuel : Nat) :
    ∀ (s : pipebuf) (k : Kernel) (ch : Int), window_inv s →
      (put_ready s → put_ready (overflow_go fuel s k ch).2.1) ∧
      (overflow_go fuel s k ch).2.1._which = s._which := by
  induction fuel with
  | zero =>
    intro s k ch _
    exact ⟨fun h => h, rfl⟩
  | succ fuel ih =>
    intro s k ch hi
    unfold overflow_go
    split
    · exact ⟨fun h => h, rfl⟩
    · have hs := pipe_inv_sync s k hi
      have hr := fun h : put_ready s => pipe_ready_sync s k hi h
      rcases hsync : sync s k with ⟨o, s1, k1⟩
      rw [hsync] at hs hr
      dsimp only at hs hr
      cases o with
      | ret v =>
        dsimp only
        split
        · exact ⟨hr, hs.2⟩
        · split
          · split
            · exact ⟨hr, hs.2⟩
            · split
              · exact ⟨hr, hs.2⟩
              · exact ⟨fun h => (ih s1 _ ch hs.1).1 (hr h), (ih s1 _ ch hs.1).2.trans hs.2⟩
          · split
            · exact ⟨hr, hs.2⟩
            · split
              · exact ⟨fun h => pipe_ready_put s1 _ (hr h), hs.2⟩
              · have hrec := ih s1 k1 ch hs.1
                exact ⟨fun h => hrec.1 (hr h), hrec.2.trans hs.2⟩
      | pending => exact ⟨hr, hs.2⟩
      | throws => exact ⟨hr, hs.2⟩

theorem pipe_ready_sputc (fuel : Nat) (s : pipebuf) (k : Kernel) (c : Byte) (hi : window_inv s) :
    (put_ready s → put_ready (sputc fuel s k c).2.1) ∧ (sputc fuel s k c).2.1._which = s._which := by
  unfold sputc
  split
  · exact ⟨fun h => pipe_ready_put s c h, rfl⟩
  · exact pipe_ready_overflow_go fuel s k _ hi

theorem pipe_ready_sputn (fuel : Nat) (cs : List Byte) :
    ∀ (s : pipebuf) (k : Kernel), window_inv s →
      (put_ready s → put_ready (sputn fuel cs s k).2.1) ∧
      (sputn fuel cs s k).2.1._which = s._which := by
  induction cs with
  | nil =>
    intro s k _
    exact ⟨fun h => h, rfl⟩
  | cons c cs ih =>
    intro s k hi
    have hp := pipe_ready_sputc fuel s k c hi
    have hv := pipe_inv_sputc fuel s k c hi
    unfold sputn
    rcases hx : sputc fuel s k c with ⟨o, s1, k1⟩
    rw [hx] at hp hv
    dsimp only at hp hv
    cases o with
    | ret v =>
      dsimp only
      split
      · exact hp
      · have hrec := ih s1 k1 hv
        exact ⟨fun h => hrec.1 (hp.1 h), hrec.2.trans hp.2⟩
    | pending => exact hp
    | throws => exact hp

theorem pipe_ready_sgetc (fuel : Nat) (s : pipebuf) (k : Kernel) (hi : window_inv s) :
    (put_ready s → put_ready (sgetc fuel s k).2.1) ∧ (sgetc fuel s k).2.1._which = s._which := by
  unfold sgetc
  split
  · exact ⟨fun h => h, rfl⟩
  · exact pipe_ready_underflow_go fuel s k hi

theorem pipe_ready_sbumpc (fuel : Nat) (s : pipebuf) (k : Kernel) (hi : window_inv s) :
    (put_ready s → put_ready (sbumpc fuel s k).2.1) ∧ (sbumpc fuel s k).2.1._which = s._which := by
  unfold sbumpc
  split
  · exact ⟨fun h => ⟨h.nonnull, h.capacity⟩, rfl⟩
  · have hu := pipe_ready_underflow_go fuel s k hi
    rcases hx : underflow_go fuel s k with ⟨o, s1, k1⟩
    rw [hx] at hu
    dsimp only at hu
    cases o with
    | ret v =>
      dsimp only
      split
      · exact hu
      · exact ⟨fun h => ⟨(hu.1 h).nonnull, (hu.1 h).capacity⟩, hu.2⟩
    | pending => exact hu
    | throws => exact hu

theorem pipe_ready_init (which : openmode) (rfd wfd : Int) (ho : which.out = true) :
    put_ready (mk_open which rfd wfd) := by
  rcases which with ⟨i, o⟩
  cases ho
  exact ⟨rfl, Nat.le_refl _⟩

/-- Every write-enabled state a pipe buffer reaches has its put area, with at
least the default capacity. -/
theorem pipe_reachable_ready (s : pipebuf) (hr : Reachable s) :
    s._which.out = true → put_ready s := by
  induction hr with
  | init which rfd wfd => exact pipe_ready_init which rfd wfd
  | sputc fuel s k c hr ih =>
    intro ho
    have h := pipe_ready_sputc fuel s k c (pipe_reachable_inv s hr)
    exact h.1 (ih (h.2 ▸ ho))
  | sputn fuel cs s k hr ih =>
    intro ho
    have h := pipe_ready_sputn fuel cs s k (pipe_reachable_inv s hr)
    exact h.1 (ih (h.2 ▸ ho))
  | sgetc fuel s k hr ih =>
    intro ho
    have h := pipe_ready_sgetc fuel s k (pipe_reachable_inv s hr)
    exact h.1 (ih (h.2 ▸ ho))
  | sbumpc fuel s k hr ih =>
    intro ho
    have h := pipe_ready_sbumpc fuel s k (pipe_reachable_inv s hr)
    exact h.1 (ih (h.2 ▸ ho))
  | sync s k hr ih =>
    intro ho
    have hi := pipe_reachable_inv s hr
    exact pipe_ready_sync s k hi (ih ((pipe_inv_sync s k hi).2 ▸ ho))
  | showmanyc s k hr ih =>
    intro ho
    have h := pipe_ready_showmanyc s k (pipe_reachable_inv s hr)
    exact h.1 (ih (h.2 ho))
  | underflow fuel s k hr ih =>
    intro ho
    have h := pipe_ready_underflow_go fuel s k (pipe_reachable_inv s hr)
    exact h.1 (ih (h.2 ▸ ho))
  | overflow fuel s k ch hr ih =>
    intro ho
    have h := pipe_ready_overflow_go fuel s k ch (pipe_reachable_inv s hr)
    exact h.1 (ih (h.2 ▸ ho))

/-- After `_resizewbuf`, entered with a cursor offset below `2 ^ 31`, the
cursor of a put area of at least the default capacity is below `epptr`. -/
theorem pipe_resizewbuf_free_slot (s : pipebuf) (hi : window_inv s) (hz : s.pptr < 2 ^ 31)
    (h : put_ready s) : (_resizewbuf s).pptr < (_resizewbuf s).epptr := by
  have hB : s.BUFSIZE = 4096 := hi.bufsize
  have hcap : 4096 ≤ s.epptr := h.capacity
  have hp := size_t_pred_le s.BUFSIZE (by omega)
  have hr := pipe_inv_pptr_range s hi
  obtain ⟨c1, c2, c3⟩ := pipe_resizewbuf_cases s
  by_cases h1 : size_t_of_int s.pptr < size_t_pred s.BUFSIZE ∧ s._write.length > s.BUFSIZE
  · have h0 : 0 ≤ s.pptr := by
      by_contra hneg
      have := size_t_of_int_neg_large s.pptr hr.2.1 (by omega)
      omega
    obtain ⟨o1, o2⟩ := pipe_offset_small s h0 hz
    rw [c1 h1, o2]
    show s.pptr < ((resize s._write s.BUFSIZE).length : Int)
    rw [length_resize]
    omega
  · by_cases h2 : s.pptr = s.epptr
    · rcases hi.put_window with hp' | hp'
      · have h0 := hp'.low
        have hl := hp'.limit
        obtain ⟨o1, o2⟩ := pipe_offset_small s h0 hz
        rw [c2 h1 h2, o2]
        show s.pptr < ((resize s._write (2 * s._write.length)).length : Int)
        rw [length_resize]
        omega
      · exfalso
        have := hp'.limit
        omega
    · rw [c3 h1 h2]
      rcases hi.put_window with hp' | hp'
      · have := hp'.cursor
        omega
      · have := hp'.limit
        omega

/-- When `sync` on a write-enabled buffer returns 0, the cursor it leaves is
below `epptr`. -/
theorem pipe_sync_zero_free_slot (s : pipebuf) (k : Kernel) (hi : window_inv s) (h : put_ready s)
    (ho : s._which.out = true) (h0 : (sync s k).1 = Outcome.ret 0) :
    (sync s k).2.1.pptr < (sync s k).2.1.epptr := by
  have hr := pipe_inv_pptr_range s hi
  unfold sync at h0 ⊢
  rw [if_pos ho] at h0 ⊢
  dsimp only at h0 ⊢
  by_cases hs : size_t_of_int s.pptr > 0
  · rw [if_pos hs] at h0 ⊢
    have hsend := pipe_ready_send_go k.writes s k 0 (size_t_of_int s.pptr) h
    have hinv := pipe_inv_send_go k.writes s k 0 (size_t_of_int s.pptr) hi
      (by
        intro hp
        have h0 := hp.low
        have hc := hp.cursor
        have hl := hp.limit
        rw [size_t_of_int_eq _ h0 (by omega)]
        omega)
    unfold _send at h0 ⊢
    rcases hx : _send_go k.writes s k 0 (size_t_of_int s.pptr) with ⟨o, s1, k1⟩
    rw [hx] at hsend hinv h0
    cases o with
    | ret v =>
      dsimp only at h0 ⊢
      by_cases hv : v ≠ 0
      · rw [if_pos hv] at h0
        simp at h0
      · rw [if_neg hv]
        have hv0 : v = 0 := by
          by_contra hne
          exact hv hne
        subst hv0
        have hrange := pipe_send_go_zero_range k.writes s k 0 _ s1 k1 hx
        dsimp only
        exact pipe_resizewbuf_free_slot s1 hinv.1 hrange.2 hsend
    | pending => simp at h0
    | throws => simp at h0
  · rw [if_neg hs]
    dsimp only
    have hz : s.pptr = 0 := size_t_of_int_zero_small _ hr.2.1 hr.2.2 (by omega)
    exact pipe_resizewbuf_free_slot s hi (by rw [hz]; decide) h

/-- What C22 says of the poll holds in every state: for every write-enabled
`pipebuf` reachable from its construction and every kernel, when `sync`
returns 0 the cursor is below `epptr`.  Hence `overflow` never reaches its
`poll` and never calls itself: the kernel after `overflow` is the kernel after
its `sync`, one level of the call gives the result of any depth, and when
`sync` returns 0 and `ch` is not `eof`, `overflow(ch)` stores through the
cursor and returns the character.  While the capacity of the window is below
`2 ^ 31` the cursor `sync` leaves is inside the window
(`pbase ≤ pptr < epptr = pbase + _write.size()`), so the store fills a free
slot of the window. -/
theorem pipe_overflow_never_polls (s : pipebuf) (hr : Reachable s) (ho : s._which.out = true)
    (k : Kernel) :
    ((sync s k).1 = Outcome.ret 0 → (sync s k).2.1.pptr < (sync s k).2.1.epptr) ∧
    ((sync s k).1 = Outcome.ret 0 → (sync s k).2.1.epptr < 2 ^ 31 →
      0 ≤ (sync s k).2.1.pptr ∧ (sync s k).2.1.epptr = (sync s k).2.1._write.length) ∧
    (∀ (fuel : Nat) (ch : Int),
      (overflow_go (fuel + 1) s k ch).2.2 = (sync s k).2.2 ∧
      overflow_go (fuel + 1) s k ch = overflow_go 1 s k ch ∧
      ((sync s k).1 = Outcome.ret 0 → ch ≠ eof →
        overflow_go (fuel + 1) s k ch =
          (Outcome.ret (to_int_type (ch % 256).toNat), put (sync s k).2.1 (ch % 256).toNat,
            (sync s k).2.2))) := by
  have hi := pipe_reachable_inv s hr
  have hp := pipe_reachable_ready s hr ho
  have hfree := pipe_sync_zero_free_slot s k hi hp ho
  have hafter := pipe_window_invariant_below_two_gib _ (Reachable.sync s k hr)
  have hnn := hp.nonnull
  have key : ∀ (fuel : Nat) (ch : Int),
      overflow_go (fuel + 1) s k ch =
        (match (sync s k).1 with
          | Outcome.ret v =>
            if v ≠ 0 then Outcome.ret eof
            else if ch = eof then Outcome.ret eof
            else Outcome.ret (to_int_type (ch % 256).toNat)
          | o => o,
         match (sync s k).1 with
          | Outcome.ret v =>
            if v ≠ 0 then (sync s k).2.1
            else if ch = eof then (sync s k).2.1
            else put (sync s k).2.1 (ch % 256).toNat
          | _ => (sync s k).2.1,
         (sync s k).2.2) := by
    intro fuel ch
    unfold overflow_go
    rw [if_neg (by rw [hnn]; simp)]
    rcases hsync : sync s k with ⟨o, s1, k1⟩
    rw [hsync] at hfree
    dsimp only at hfree
    cases o with
    | ret v =>
      dsimp only
      by_cases hv : v ≠ 0
      · rw [if_pos hv, if_pos hv, if_pos hv]
      · rw [if_neg hv, if_neg hv, if_neg hv]
        have hv0 : v = 0 := by
          by_contra hne
          exact hv hne
        have hlt := hfree (by rw [hv0])
        rw [if_neg (by omega)]
        by_cases hch : ch = eof
        · rw [if_pos hch, if_pos hch, if_pos hch]
        · rw [if_neg hch, if_neg hch, if_neg hch, if_pos hlt]
    | pending => rfl
    | throws => rfl
  refine ⟨hfree, ?_, fun fuel ch => ⟨?_, ?_, ?_⟩⟩
  · intro _ hz
    have := hafter.2.2 hz
    exact ⟨this.1, by rw [this.2.2, Nat.zero_add]⟩
  · rw [key fuel ch]
  · rw [key fuel ch, key 0 ch]
  · intro h0 hch
    rw [key fuel ch, h0]
    dsimp only
    rw [if_neg (by simp), if_neg hch, if_neg (by simp), if_neg hch]

/-- The statement above at a concrete input: the reachable write-enabled buffer
`ex_reached`, with an empty put area, in a kernel that is not asked anything.
`overflow(65)` stores 65 and returns it whatever depth it is allowed. -/
theorem pipe_overflow_never_polls_witness :
    Reachable ex_reached ∧ ex_reached._which.out = true ∧
    (sync ex_reached ex_idle).1 = Outcome.ret 0 ∧
    overflow_go (3 + 1) ex_reached ex_idle 65 =
      (Outcome.ret (to_int_type ((65 : Int) % 256).toNat),
        put (sync ex_reached ex_idle).2.1 ((65 : Int) % 256).toNat, (sync ex_reached ex_idle).2.2) :=
  ⟨pipe_ex_reached_reachable, by decide!, by decide!,
    ((pipe_overflow_never_polls ex_reached pipe_ex_reached_reachable (by decide!) ex_idle).2.2 3
      65).2.2 (by decide!) (by decide)⟩

end pipebuf
end buffers

/-! ### A write window of `2 ^ 31` bytes -/

theorem set_replicate_self (n i : Nat) (a : Byte) :
    (List.replicate n a).set i a = List.replicate n a := by
  induction n generalizing i with
  | zero => rfl
  | succ n ih =>
    cases i with
    | zero => rfl
    | succ i =>
      rw [List.replicate_succ, List.set_cons_succ, ih]

theorem resize_nil (n : Nat) : resize [] n = List.replicate n 0 := by
  unfold resize
  simp

theorem resize_replicate_double (c : Nat) :
    resize (List.replicate c 0) (2 * c) = List.replicate (2 * c) 0 := by
  unfold resize
  rw [List.length_replicate, List.take_of_length_le (by rw [List.length_replicate]; omega),
    show 2 * c - c = c by omega, ← List.replicate_add, show c + c = 2 * c by omega]

theorem memmove_whole (mem : List Byte) (n : Nat) (h : mem.length = n) :
    memmove mem 0 0 n = mem := by
  unfold memmove
  rw [List.take_zero, List.nil_append, List.drop_zero, Nat.zero_add,
    List.take_of_length_le (by omega), List.drop_of_length_le (by omega), List.append_nil]

namespace buffers
namespace pipebuf

theorem pipe_mk_open_zeros : mk_open ⟨true, true⟩ 3 4 = ex_zeros 4096 0 := by
  unfold ex_zeros
  have h : (mk_open ⟨true, true⟩ 3 4)._write = List.replicate 4096 0 := resize_nil 4096
  rw [← h]
  rfl

/-- A zero byte put into a window of zero bytes that has room. -/
theorem pipe_sputc_zeros (fuel : Nat) (k : Kernel) (cap p : Nat) (h : p < cap) :
    (sputc fuel (ex_zeros cap p) k 0).2.1 = ex_zeros cap ((p + 1 : Nat) : Int) := by
  unfold sputc
  rw [if_pos (by show (p : Int) < (cap : Int); omega)]
  show put (ex_zeros cap p) 0 = _
  unfold put ex_zeros
  dsimp only
  rw [if_pos (Int.ofNat_nonneg p), set_replicate_self]
  rfl

/-- Zero bytes can be put until the window is full. -/
theorem pipe_zeros_fill (cap p : Nat) (n : Nat) (h : p + n ≤ cap)
    (hr : Reachable (ex_zeros cap p)) : Reachable (ex_zeros cap ((p + n : Nat) : Int)) := by
  induction n with
  | zero => exact hr
  | succ n ih =>
    have h1 := Reachable.sputc 0 _ ex_idle 0 (ih (by omega))
    rw [pipe_sputc_zeros 0 ex_idle cap (p + n) (by omega)] at h1
    exact h1

/-- The `sync` of a write-enabled buffer with `n > 0` buffered bytes when the
kernel would block at once: `_send` keeps the bytes where they are and calls
`pbump(n)`, then `_resizewbuf` runs. -/
theorem pipe_sync_would_block (s : pipebuf) (k : Kernel) (n : Nat) (ws : List WRes)
    (ho : s._which.out = true) (hp : s.pptr = n) (hpos : 0 < n) (h64 : n < 2 ^ 64)
    (hk : k.writes = WRes.fail EAGAIN :: ws) :
    sync s k = (Outcome.ret 0,
      _resizewbuf { s with _write := memmove s._write 0 0 n, pptr := to_int n },
      { k with writes := ws
               calls := k.calls ++ [SysCall.write s._pipe.2 ((s._write.drop 0).take n)]
               sent := k.sent ++ ((s._write.drop 0).take n).take 0 }) := by
  have hoff : size_t_of_int s.pptr = n := by
    rw [hp]
    exact size_t_of_int_natCast n h64
  have hsend : _send s k 0 n = (Outcome.ret 0,
      { s with _write := memmove s._write 0 0 n, pptr := to_int n },
      { k with writes := ws
               calls := k.calls ++ [SysCall.write s._pipe.2 ((s._write.drop 0).take n)]
               sent := k.sent ++ ((s._write.drop 0).take n).take 0 }) := by
    unfold _send
    rw [hk]
    simp only [_send_go, WRes.len]
    rw [if_neg (by decide)]
    exact if_pos trivial
  unfold sync
  rw [if_pos ho]
  dsimp only
  rw [hoff, if_pos hpos, hsend]
  dsimp only
  rw [if_neg (by simp)]

/-- A full window of `c < 2 ^ 31` zero bytes doubles when the kernel would
block. -/
theorem pipe_sync_zeros_grows (c : Nat) (hpos : 0 < c) (hz : c < 2 ^ 31) :
    (sync (ex_zeros c c) ex_would_block).2.1 = ex_zeros (2 * c) c := by
  rw [pipe_sync_would_block (ex_zeros c c) ex_would_block c [] rfl rfl hpos (by omega) rfl]
  dsimp only
  rw [pipe_resizewbuf_full _ c (by show 1 ≤ 4096; decide)
    (by
      show (memmove (List.replicate c 0) 0 0 c).length = c
      rw [memmove_whole _ c (List.length_replicate _ _), List.length_replicate])
    rfl (to_int_natCast c hz) (by omega)]
  dsimp only
  rw [to_int_natCast c hz]
  show ({ ex_zeros c c with
      _write := resize (memmove (List.replicate c 0) 0 0 c) (2 * c),
      pbase_null := false, pptr := (c : Int), epptr := 2 * c } : pipebuf) = _
  rw [memmove_whole _ c (List.length_replicate _ _), resize_replicate_double]
  rfl

/-- With nothing reading from the pipe, the full window of `4096 * 2 ^ j` zero
bytes is reached for every `j` up to 19, where it has `2 ^ 31` bytes. -/
theorem pipe_zeros_full_reachable (j : Nat) (hj : j ≤ 19) :
    Reachable (ex_zeros (4096 * 2 ^ j) ((4096 * 2 ^ j : Nat) : Int)) := by
  induction j with
  | zero =>
    have h0 : Reachable (ex_zeros 4096 ((0 : Nat) : Int)) := by
      have := Reachable.init ⟨true, true⟩ 3 4
      rw [pipe_mk_open_zeros] at this
      exact this
    have := pipe_zeros_fill 4096 0 4096 (by decide) h0
    rw [Nat.zero_add] at this
    exact this
  | succ j ih =>
    have hc : 4096 * 2 ^ j < 2 ^ 31 := by
      have : 2 ^ j ≤ 2 ^ 18 := Nat.pow_le_pow_right (by decide) (by omega)
      omega
    have hpos : 0 < 4096 * 2 ^ j := by
      have : 0 < 2 ^ j := Nat.two_pow_pos j
      omega
    have h1 := Reachable.sync _ ex_would_block (ih (by omega))
    rw [pipe_sync_zeros_grows _ hpos hc] at h1
    have h2 := pipe_zeros_fill (2 * (4096 * 2 ^ j)) (4096 * 2 ^ j) (4096 * 2 ^ j) (by omega) h1
    have e : 4096 * 2 ^ (j + 1) = 2 * (4096 * 2 ^ j) := by
      rw [Nat.pow_succ]
      omega
    have e2 : 4096 * 2 ^ j + 4096 * 2 ^ j = 2 * (4096 * 2 ^ j) := by omega
    rw [e, ← e2]
    rw [← e2] at h2
    exact h2

theorem pipe_ex_two_gib_eq : ex_two_gib = ex_zeros (4096 * 2 ^ 19) ((4096 * 2 ^ 19 : Nat) : Int) := by
  unfold ex_two_gib
  rw [show (4096 * 2 ^ 19 : Nat) = 2 ^ 31 by decide]
  rfl

/-- The full write window of `2 ^ 31` bytes is a state the buffer reaches:
zero bytes are put while the kernel would block, so each full window doubles,
from 4096 bytes up to `2 ^ 31`. -/
theorem pipe_ex_two_gib_reachable : Reachable ex_two_gib := by
  rw [pipe_ex_two_gib_eq]
  exact pipe_zeros_full_reachable 19 (le_refl _)

/-- The facts of the full window of `2 ^ 31` bytes. -/
theorem pipe_ex_two_gib_fields :
    ex_two_gib._which = ⟨true, true⟩ ∧ ex_two_gib.pbase_null = false ∧
    ex_two_gib.BUFSIZE = 4096 ∧ ex_two_gib._write = List.replicate (2 ^ 31) 0 ∧
    ex_two_gib._write.length = 2 ^ 31 ∧ ex_two_gib.pptr = 2 ^ 31 ∧ ex_two_gib.epptr = 2 ^ 31 := by
  refine ⟨rfl, rfl, rfl, rfl, ?_, rfl, rfl⟩
  show (List.replicate (2 ^ 31) 0).length = 2 ^ 31
  exact List.length_replicate _ _

/-- The `sync` of the full window of `2 ^ 31` bytes when the kernel would
block: it returns 0, nothing was accepted, the bytes of the vector are as
they were, and `pbump(2 ^ 31)` has left the cursor `2 ^ 31` bytes below
`pbase`. -/
theorem pipe_sync_ex_two_gib :
    sync ex_two_gib ex_would_block =
      (Outcome.ret 0, { ex_two_gib with pptr := -2 ^ 31 },
        { ex_would_block with
          writes := []
          calls := [SysCall.write 4 (List.replicate (2 ^ 31) 0)] }) := by
  obtain ⟨f1, f2, f3, f4, f5, f6, f7⟩ := pipe_ex_two_gib_fields
  have hp : ex_two_gib.pptr = ((2 ^ 31 : Nat) : Int) := by
    rw [f6]
    decide
  rw [pipe_sync_would_block ex_two_gib ex_would_block (2 ^ 31) [] (by rw [f1]) hp (by decide)
    (by decide) rfl]
  have hto : to_int ((2 ^ 31 : Nat) : Int) = -2 ^ 31 := by
    rw [to_int_natCast_wrap _ (le_refl _) (by decide)]
    decide
  have hmem : memmove ex_two_gib._write 0 0 (2 ^ 31) = ex_two_gib._write :=
    memmove_whole _ _ f5
  rw [hto, hmem]
  have hoff : size_t_of_int (-2 ^ 31) = 2 ^ 64 - 2 ^ 31 := by decide
  have hres : _resizewbuf { ex_two_gib with _write := ex_two_gib._write, pptr := -2 ^ 31 } =
      { ex_two_gib with pptr := -2 ^ 31 } := by
    have h1 : ¬ (size_t_of_int (-2 ^ 31) < size_t_pred 4096 ∧
        ex_two_gib._write.length > 4096) := by
      rw [hoff]
      intro h
      exact absurd h.1 (by decide)
    have h2 : ((-2 ^ 31 : Int)) ≠ ((2 ^ 31 : Nat) : Int) := by decide
    exact (pipe_resizewbuf_cases
      { ex_two_gib with _write := ex_two_gib._write, pptr := -2 ^ 31 }).2.2 h1 h2
  rw [hres]
  have htake : (List.drop 0 ex_two_gib._write).take (2 ^ 31) = List.replicate (2 ^ 31) 0 := by
    rw [List.drop_zero, List.take_of_length_le (by rw [f5]), f4]
  rw [htake]
  rfl

theorem pipe_ex_two_gib_wf : wf_write ex_two_gib := by
  obtain ⟨f1, f2, f3, f4, f5, f6, f7⟩ := pipe_ex_two_gib_fields
  refine ⟨by rw [f1], f2, by rw [f7, f5], by rw [f6]; decide, by rw [f6, f7]; decide, f3⟩

theorem pipe_with_pptr_fields (s : pipebuf) (p : Int) :
    ({ s with pptr := p } : pipebuf).pptr = p ∧
    ({ s with pptr := p } : pipebuf).epptr = s.epptr ∧
    ({ s with pptr := p } : pipebuf)._write = s._write ∧
    ({ s with pptr := p } : pipebuf).pbase_null = s.pbase_null ∧
    ({ s with pptr := p } : pipebuf)._which = s._which :=
  ⟨rfl, rfl, rfl, rfl, rfl⟩

/-- The state `sync` leaves the full window of `2 ^ 31` bytes in when the
kernel would block. -/
theorem pipe_sync_ex_two_gib_state :
    (sync ex_two_gib ex_would_block).1 = Outcome.ret 0 ∧
    (sync ex_two_gib ex_would_block).2.1 = { ex_two_gib with pptr := -2 ^ 31 } ∧
    (sync ex_two_gib ex_would_block).2.2.sent = [] ∧
    (sync ex_two_gib ex_would_block).2.1.pptr = -2 ^ 31 ∧
    (sync ex_two_gib ex_would_block).2.1.epptr = 2 ^ 31 ∧
    (sync ex_two_gib ex_would_block).2.1._write = List.replicate (2 ^ 31) 0 ∧
    (sync ex_two_gib ex_would_block).2.1._write.length = 2 ^ 31 := by
  obtain ⟨f1, f2, f3, f4, f5, f6, f7⟩ := pipe_ex_two_gib_fields
  obtain ⟨g1, g2, g3, g4, g5⟩ := pipe_with_pptr_fields ex_two_gib (-2 ^ 31)
  rw [pipe_sync_ex_two_gib]
  exact ⟨rfl, rfl, rfl, g1, g2.trans f7, g3.trans f4, (congrArg List.length g3).trans f5⟩

/-- C2 (failing input). The write window has grown to `2 ^ 31` bytes and is
full, so `n = 2 ^ 31` bytes are unflushed; the buffer reaches this state when
bytes are put while the kernel would block.  The kernel would block again at
once (`k = 0`).  `sync` returns 0 and the kernel accepted nothing, so
`write_remaining()` should be `n - k = 2 ^ 31`.  But `_send` has called
`pbump(2 ^ 31)`, whose parameter is an `int`: the cursor is `2 ^ 31` bytes
below `pbase`, and `write_remaining()` is `2 ^ 64 - 2 ^ 31`. -/
theorem pipe_write_remaining_wraps_at_two_gib :
    Reachable ex_two_gib ∧ wf_write ex_two_gib ∧ write_remaining ex_two_gib = 2 ^ 31 ∧
    ex_would_block.writes = [WRes.fail EAGAIN] ∧
    (sync ex_two_gib ex_would_block).1 = Outcome.ret 0 ∧
    (sync ex_two_gib ex_would_block).2.2.sent = [] ∧
    (sync ex_two_gib ex_would_block).2.1.pptr = -2 ^ 31 ∧
    write_remaining (sync ex_two_gib ex_would_block).2.1 = 2 ^ 64 - 2 ^ 31 ∧
    write_remaining (sync ex_two_gib ex_would_block).2.1 ≠ 2 ^ 31 - 0 := by
  obtain ⟨s1, s2, s3, s4, _, _, _⟩ := pipe_sync_ex_two_gib_state
  obtain ⟨_, f2, _, _, _, f6, _⟩ := pipe_ex_two_gib_fields
  have hw : ∀ t : pipebuf, t.pbase_null = false → t.pptr = -2 ^ 31 →
      write_remaining t = 2 ^ 64 - 2 ^ 31 := by
    intro t h1 h2
    unfold write_remaining
    rw [h1, h2]
    decide
  have hw0 : write_remaining ex_two_gib = 2 ^ 31 := by
    unfold write_remaining
    rw [f2, f6]
    decide
  have hn : (sync ex_two_gib ex_would_block).2.1.pbase_null = false := by
    rw [s2]
    exact f2
  rw [hw _ hn s4]
  exact ⟨pipe_ex_two_gib_reachable, pipe_ex_two_gib_wf, hw0, rfl, s1, s3, s4, rfl, by decide⟩

/-- C17 (failing input). The full write window of `2 ^ 31` bytes is a state the
buffer reaches from its construction by puts and `sync`, and it satisfies the
invariant.  One more `sync` in a kernel that would block returns 0 and leaves
a state, reached in the same way, whose put cursor is below the start of the
window: `pptr - pbase = -2 ^ 31`, so `pbase ≤ pptr` fails, while `epptr` is
still `pbase + _write.size()`. -/
theorem pipe_window_invariant_broken_at_two_gib :
    Reachable ex_two_gib ∧
    (0 ≤ ex_two_gib.pptr ∧ ex_two_gib.pptr ≤ ex_two_gib.epptr ∧
      ex_two_gib.epptr = 0 + ex_two_gib._write.length) ∧
    Reachable (sync ex_two_gib ex_would_block).2.1 ∧
    (sync ex_two_gib ex_would_block).1 = Outcome.ret 0 ∧
    (sync ex_two_gib ex_would_block).2.1.pptr = -2 ^ 31 ∧
    ¬ (0 ≤ (sync ex_two_gib ex_would_block).2.1.pptr) ∧
    (sync ex_two_gib ex_would_block).2.1.epptr =
      0 + (sync ex_two_gib ex_would_block).2.1._write.length := by
  obtain ⟨f1, f2, f3, f4, f5, f6, f7⟩ := pipe_ex_two_gib_fields
  have hr := Reachable.sync ex_two_gib ex_would_block pipe_ex_two_gib_reachable
  obtain ⟨s1, _, _, s4, s5, _, s7⟩ := pipe_sync_ex_two_gib_state
  refine ⟨pipe_ex_two_gib_reachable, ⟨by rw [f6]; decide, by rw [f6, f7]; decide,
    by rw [f7, f5, Nat.zero_add]⟩, hr, s1, s4, ?_, ?_⟩
  · rw [s4]
    decide
  · rw [s5, s7, Nat.zero_add]

/-- C22 (failing input). The full write window of `2 ^ 31` bytes is a state
the write-enabled buffer reaches.  In a kernel that would block, `sync`
returns 0, but the cursor it leaves is `2 ^ 31` bytes below `pbase`: the slot
at `pptr` is not a slot of the window.  `overflow(65)` does not poll and
returns 65, yet the byte is not in the window, whose bytes are as they were
(all zero): it was stored through the cursor below `pbase`, outside the
vector. -/
theorem pipe_overflow_stores_outside_window :
    Reachable ex_two_gib ∧ ex_two_gib._which.out = true ∧
    (sync ex_two_gib ex_would_block).1 = Outcome.ret 0 ∧
    (sync ex_two_gib ex_would_block).2.1.pptr = -2 ^ 31 ∧
    ¬ (0 ≤ (sync ex_two_gib ex_would_block).2.1.pptr) ∧
    (overflow_go 1 ex_two_gib ex_would_block 65).1 = Outcome.ret 65 ∧
    (overflow_go 1 ex_two_gib ex_would_block 65).2.1._write = List.replicate (2 ^ 31) 0 ∧
    (65 : Byte) ∉ (overflow_go 1 ex_two_gib ex_would_block 65).2.1._write ∧
    (overflow_go 1 ex_two_gib ex_would_block 65).2.1.pptr = -2 ^ 31 + 1 ∧
    (overflow_go 1 ex_two_gib ex_would_block 65).2.1.epptr = 2 ^ 31 := by
  obtain ⟨f1, f2, f3, f4, f5, f6, f7⟩ := pipe_ex_two_gib_fields
  obtain ⟨s1, s2, _, s4, _, _, _⟩ := pipe_sync_ex_two_gib_state
  have ho : overflow_go 1 ex_two_gib ex_would_block 65 =
      (Outcome.ret 65, put { ex_two_gib with pptr := -2 ^ 31 } 65,
        (sync ex_two_gib ex_would_block).2.2) := by
    unfold overflow_go
    rw [f2, pipe_sync_ex_two_gib]
    dsimp only
    rw [if_neg (by decide), if_neg (by decide), if_neg (by rw [f7]; decide),
      if_neg (by decide), if_pos (by rw [f7]; decide)]
    rfl
  have hput : put ({ ex_two_gib with pptr := -2 ^ 31 } : pipebuf) 65 =
      { ex_two_gib with pptr := -2 ^ 31 + 1 } := by
    unfold put
    dsimp only
    rw [if_neg (by decide)]
  obtain ⟨g1, g2, g3, _, _⟩ := pipe_with_pptr_fields ex_two_gib (-2 ^ 31 + 1)
  rw [ho, hput]
  refine ⟨pipe_ex_two_gib_reachable, by rw [f1], s1, s4, by rw [s4]; decide, rfl,
    g3.trans f4, ?_, g1, g2.trans f7⟩
  rw [g3.trans f4]
  intro h
  exact absurd (List.eq_of_mem_replicate h) (by decide)

end pipebuf
end buffers

end io
